import Mathlib

/-!
# NeoClaw browser companion: memory store and topic classification

A shallow embedding of the memory-retention and topic-classification core of
`ai-chat-extension/background.js`, with the properties of its record store,
privacy filter, keyword classifier and delete-by-topic engine.

Conventions of the embedding:

* a JavaScript string is a Lean `String`, handled through its list of
  characters; `length` and `substring` count UTF-16 code units, as in the
  source;
* `toLowerCase` and `toUpperCase` are the conversions of the runtime, which
  follow the Unicode case mappings: they are the operations of the class
  `CaseFolding`, whose fields state what is used of them, and every general
  property is proved for every case folding, texts outside ASCII included.
  The examples are texts of ASCII characters, on which every case folding is
  the folding of the ASCII letters, and are evaluated with `asciiCaseFolding`;
  `sampleCaseFolding` is a case folding that differs from it outside ASCII;
* `chrome.storage.local` is the record `Storage`; a key that was never written
  is `none`, which is what the source's `|| []` and `|| DEFAULT_SETTINGS`
  defaults are for;
* an `async` function is a function from the storage before the call to the
  storage after it; `Date.now()` and `Math.random()` are arguments;
* the remote endpoint is an arbitrary function from the number of a request
  to the reply it gets;
* what the browser supplies (recent history, bookmark tree, open tabs) is an
  argument, and the two cache keys of the payment patterns are a record of
  their own, `PaymentCache`.
-/

namespace NeoClaw

/-! ## Strings -/

/-- The folding of the ASCII letters to lower case; every other character is
left as it is. -/
def asciiLowerCase (s : String) : String := ⟨s.data.map Char.toLower⟩

/-- The folding of the ASCII letters to upper case; every other character is
left as it is. -/
def asciiUpperCase (s : String) : String := ⟨s.data.map Char.toUpper⟩

/-- The canonicalisation of a regular expression with the `i` flag and without
the `u` flag, as a pattern of ASCII characters sees it: the letters a to z
become A to Z, and a character outside ASCII is never canonicalised to an
ASCII one, so that it stays different from every character of the pattern. -/
def canonicalize (s : String) : String := asciiUpperCase s

/-- A text of ASCII characters only. -/
def isAscii (s : String) : Bool := s.data.all (fun c => decide (c.toNat < 128))

/-- String.prototype.includes: `pat` starts at some position of `s`. -/
def includes (s pat : String) : Bool :=
  s.data.tails.any (fun t => pat.data.isPrefixOf t)

/-- The characters String.prototype.trim strips: ECMAScript WhiteSpace and
LineTerminator. -/
def isJsWhitespace (c : Char) : Bool :=
  let n := c.toNat
  n == 0x09 || n == 0x0A || n == 0x0B || n == 0x0C || n == 0x0D || n == 0x20 ||
  n == 0xA0 || n == 0x1680 || (0x2000 ≤ n && n ≤ 0x200A) || n == 0x2028 ||
  n == 0x2029 || n == 0x202F || n == 0x205F || n == 0x3000 || n == 0xFEFF

/-- String.prototype.trim. -/
def trim (s : String) : String :=
  ⟨((s.data.dropWhile isJsWhitespace).reverse.dropWhile isJsWhitespace).reverse⟩

/-- The maximal runs of decimal digits of a text, left to right: the result of
`match(/\d+/g)`. `cur` is the run being read. -/
def digitRunsAux : List Char → List Char → List (List Char)
  | [], cur => if cur.isEmpty then [] else [cur]
  | c :: cs, cur =>
    if c.isDigit then digitRunsAux cs (cur ++ [c])
    else if cur.isEmpty then digitRunsAux cs []
    else cur :: digitRunsAux cs []

/-- The digit runs of a string. -/
def digitRuns (s : String) : List (List Char) := digitRunsAux s.data []

/-- String.prototype.toLowerCase and String.prototype.toUpperCase. The two
conversions apply the case mappings of the Unicode tables of the runtime,
which are no code of this program: they are the two operations of this class,
and the fields after them are the facts about the conversions that the
properties below rest on. Each of them holds of the conversions of the
runtime:

* on a text of ASCII characters the conversions fold the ASCII letters and
  nothing else (`toLowerCase_ascii`, `toUpperCase_ascii`);
* no character is mapped to the empty text (`toLowerCase_ne_empty`);
* a whitespace character is mapped to itself, no other character is mapped to
  a text that starts or ends with whitespace, and the one mapping that looks
  at the neighbours of a character (the final sigma) looks for cased letters,
  which whitespace is not: lower-casing and trimming can be done in either
  order (`trim_toLowerCase`);
* no character is mapped to a text with one of the letters A to Z by
  lower-casing (`toLowerCase_no_upper`);
* a decimal digit is mapped to itself and no other character to a text with a
  decimal digit or to the empty text: upper-casing keeps the runs of digits
  (`digitRuns_toUpperCase`).

Beyond these facts nothing is assumed: a character outside ASCII may be mapped
to an ASCII one (the Kelvin sign to k) or to several characters (the sharp s
to SS). -/
class CaseFolding where
  toLowerCase : String → String
  toUpperCase : String → String
  toLowerCase_ascii : ∀ s : String, isAscii s = true → toLowerCase s = asciiLowerCase s
  toUpperCase_ascii : ∀ s : String, isAscii s = true → toUpperCase s = asciiUpperCase s
  toLowerCase_ne_empty : ∀ s : String, s ≠ "" → toLowerCase s ≠ ""
  trim_toLowerCase : ∀ s : String, trim (toLowerCase s) = toLowerCase (trim s)
  toLowerCase_no_upper : ∀ s : String, ∀ c ∈ (toLowerCase s).data,
    ¬ (65 ≤ c.toNat ∧ c.toNat ≤ 90)
  digitRuns_toUpperCase : ∀ s : String, digitRuns (toUpperCase s) = digitRuns s

export CaseFolding (toLowerCase toUpperCase)

section

variable [CaseFolding]

/-! ## Data model -/

/-- A stored memory record. -/
structure Memory where
  id : String
  timestamp : Int
  type : Option String
  source : Option String
  content : String
  site : Option String
  topic : Option String
  deriving DecidableEq, Repr

/-- The argument of `addMemory`: a partial record; `id` and `timestamp` are
normally absent. -/
structure MemoryInput where
  id : Option String
  timestamp : Option Int
  type : Option String
  source : Option String
  content : String
  site : Option String
  topic : Option String
  deriving DecidableEq, Repr

/-- The settings object. -/
structure Settings where
  enableHistory : Bool
  enableBookmarks : Bool
  enableTabs : Bool
  autoDeleteDays : Int
  neverRememberBanking : Bool
  excludeWorkTabs : Bool
  maxMemories : Int
  neoClawUrl : String
  neoClawToken : String
  enablePaymentProtection : Bool
  deriving DecidableEq, Repr

/-- The source's DEFAULT_SETTINGS. -/
def DEFAULT_SETTINGS : Settings where
  enableHistory := true
  enableBookmarks := true
  enableTabs := true
  autoDeleteDays := 30
  neverRememberBanking := true
  excludeWorkTabs := false
  maxMemories := 1000
  neoClawUrl := "https://ai-hacker-neoclaw.securebrowser.com"
  neoClawToken := "kOwC16C2Y6vhu1RrLz2s7wwpJAFfBwPhCcIZ8ym8nSWsgooF"
  enablePaymentProtection := true

/-- The source's BANKING_PATTERNS. -/
def BANKING_PATTERNS : List String :=
  ["bank", "banking", "chase", "wellsfargo", "bofa", "citibank",
   "paypal", "venmo", "stripe", "payment", "wallet"]

/-- The keys of chrome.storage.local that the core reads and writes. -/
structure Storage where
  ai_memories : Option (List Memory)
  ai_settings : Option Settings
  ai_blocked_sites : Option (List String)
  deriving DecidableEq, Repr

/-- The record store as the code sees it: `ai_memories || []`. -/
def Storage.memories (st : Storage) : List Memory := st.ai_memories.getD []

/-- The blocklist as the code sees it: `ai_blocked_sites || []`. -/
def Storage.blockedSites (st : Storage) : List String := st.ai_blocked_sites.getD []

/-- Source: getSettings. -/
def getSettings (st : Storage) : Settings := st.ai_settings.getD DEFAULT_SETTINGS

/-! ## Privacy filter -/

/-- Source: isBankingSite. An absent or empty url is falsy. -/
def isBankingSite (url : Option String) : Bool :=
  match url with
  | none => false
  | some u =>
    if u = "" then false
    else
      let lowerUrl := toLowerCase u
      BANKING_PATTERNS.any (fun pattern => includes lowerUrl pattern)

/-- Source: isBlockedSite. -/
def isBlockedSite (st : Storage) (url : Option String) : Bool :=
  match url with
  | none => false
  | some u =>
    if u = "" then false
    else st.blockedSites.any (fun pattern => includes (toLowerCase u) (toLowerCase pattern))

/-! ## Record store -/

/-- The object literal of addMemory: generated `id` and `timestamp` first, then
the spread of the argument, whose own fields come last. -/
def newMemory (now : Int) (rnd : String) (memory : MemoryInput) : Memory where
  id := memory.id.getD ("mem_" ++ toString now ++ "_" ++ rnd)
  timestamp := memory.timestamp.getD now
  type := memory.type
  source := memory.source
  content := memory.content
  site := memory.site
  topic := memory.topic

/-- Array.prototype.splice with the single argument `start`: a negative start
counts from the end; everything from the start on is removed. -/
def spliceFrom (l : List Memory) (start : Int) : List Memory :=
  if start < 0 then l.take ((l.length : Int) + start).toNat
  else l.take start.toNat

/-- The blocklist test written in addMemory: `memory.site?.includes(pattern)`
for some pattern. -/
def addMemoryBlocked (blockedSites : List String) (site : Option String) : Bool :=
  blockedSites.any (fun pattern =>
    match site with
    | none => false
    | some s => includes s pattern)

/-- Source: addMemory. `now` is Date.now(), `rnd` the random suffix of the id. -/
def addMemory (st : Storage) (now : Int) (rnd : String) (memory : MemoryInput) : Storage :=
  let settings := getSettings st
  if settings.neverRememberBanking && isBankingSite memory.site then st
  else if addMemoryBlocked st.blockedSites memory.site then st
  else
    let memories := newMemory now rnd memory :: st.memories
    let memories :=
      if (memories.length : Int) > settings.maxMemories then
        spliceFrom memories settings.maxMemories
      else memories
    { st with ai_memories := some memories }

/-- Source: deleteByTimeRange. -/
def deleteByTimeRange (st : Storage) (startTime endTime : Int) : Storage :=
  let memories := st.memories.filter (fun m => m.timestamp < startTime || m.timestamp > endTime)
  { st with ai_memories := some memories }

/-- Source: the memory sweep of scheduleAutoCleanup, run at time `now`. -/
def autoCleanup (st : Storage) (now : Int) : Storage :=
  let settings := getSettings st
  if settings.autoDeleteDays > 0 then
    let cutoffTime := now - settings.autoDeleteDays * 24 * 60 * 60 * 1000
    deleteByTimeRange st 0 cutoffTime
  else st

/-! ## Topic normalizer -/

/-- RegExp.prototype.test for a pattern that is an alternation of literal
words under the `i` flag: some alternative occurs in the text, characters
compared after canonicalisation to upper case. -/
def regexTestI (alternatives : List String) (text : String) : Bool :=
  alternatives.any (fun a => includes (canonicalize text) (canonicalize a))

/-- Source: extractTopicFromKeywords. -/
def extractTopicFromKeywords (content : String) : String :=
  let text := toLowerCase content
  if regexTestI ["python", "javascript", "java", "code", "programming", "function", "api",
      "debug", "git", "npm"] text then "programming"
  else if regexTestI ["recipe", "cook", "food", "restaurant", "meal", "ingredient",
      "cuisine"] text then "cooking"
  else if regexTestI ["travel", "hotel", "flight", "vacation", "trip", "visit", "tourism",
      "destination"] text then "travel"
  else if regexTestI ["health", "doctor", "medical", "medicine", "fitness", "workout",
      "exercise"] text then "health"
  else if regexTestI ["money", "bank", "invest", "stock", "finance", "budget", "payment",
      "credit"] text then "finance"
  else if regexTestI ["learn", "study", "school", "university", "course", "education",
      "tutorial"] text then "education"
  else if regexTestI ["movie", "music", "game", "tv", "show", "entertainment", "play",
      "watch"] text then "entertainment"
  else if regexTestI ["news", "current", "event", "politics", "election",
      "government"] text then "news"
  else if regexTestI ["buy", "shop", "purchase", "product", "price", "amazon",
      "store"] text then "shopping"
  else "general"

/-! ## Remote classifier client -/

/-- One entry of the list batchCheckMemoriesByTopic returns; `matched` is the
truth value of the source's `matches` field (a reserved word here), which is
what deleteByTopic filters on. -/
structure MatchResult where
  memory : Memory
  matched : Bool
  deriving DecidableEq, Repr

/-- The expression `m.topic && m.topic.toLowerCase().includes(topicLower)`,
as a truth value: an absent or empty label is falsy. -/
def topicLabelIncludes (m : Memory) (topicLower : String) : Bool :=
  match m.topic with
  | none => false
  | some t => if t = "" then false else includes (toLowerCase t) topicLower

/-- The string-matching fallback of batchCheckMemoriesByTopic (written twice in
the source, for missing credentials and in the catch block). -/
def stringMatchingFallback (memories : List Memory) (topic : String) : List MatchResult :=
  let topicLower := trim (toLowerCase topic)
  memories.map (fun m => { memory := m, matched := topicLabelIncludes m topicLower })

/-- What one request to the remote endpoint comes to. -/
inductive RemoteReply where
  /-- The fetch itself throws (network error, timeout). -/
  | fetchThrew
  /-- A response whose `ok` is false. -/
  | notOk
  /-- A successful status whose body is not JSON: `response.json()` throws. -/
  | jsonThrew
  /-- A successful JSON body; `text` is the value at output[0].content[0].text
  when that path exists and holds a string. -/
  | body (text : Option String)
  /-- A successful JSON body holding a truthy non-string at the text path:
  `aiResponse.trim` is not a function. -/
  | nonStringText
  deriving DecidableEq, Repr

/-- Number parsing of a run of decimal digits (parseInt): the decimal value,
which is what parseInt returns exactly below 2^53, far above any array
index. -/
def parseInt (digits : List Char) : Nat :=
  digits.foldl (fun n c => 10 * n + (c.toNat - 48)) 0

/-- The parsing of a successful answer in batchCheckMemoriesByTopic: the
0-based indices named by the answer. -/
def matchingIndices (answer : String) : List Int :=
  if answer ≠ "NONE" then (digitRuns answer).map (fun n => (parseInt n : Int) - 1)
  else []

/-- The mapping of the parsed answer back to the memories. -/
def resultsOfAnswer (memories : List Memory) (answer : String) : List MatchResult :=
  memories.enum.map (fun p =>
    { memory := p.2, matched := decide ((p.1 : Int) ∈ matchingIndices answer) })

/-- Source: batchCheckMemoriesByTopic. The credentials are read from the
stored settings; `reply` is what the request to the endpoint comes to, if one
is made. -/
def batchCheckMemoriesByTopic (st : Storage) (reply : RemoteReply)
    (memories : List Memory) (topic : String) : List MatchResult :=
  let neoClawUrl := match st.ai_settings with
    | none => ""
    | some s => s.neoClawUrl
  let neoClawToken := match st.ai_settings with
    | none => ""
    | some s => s.neoClawToken
  if neoClawUrl = "" || neoClawToken = "" then stringMatchingFallback memories topic
  else
    match reply with
    | .fetchThrew => stringMatchingFallback memories topic
    | .notOk => stringMatchingFallback memories topic
    | .jsonThrew => stringMatchingFallback memories topic
    | .nonStringText => stringMatchingFallback memories topic
    | .body text =>
      let aiResponse := text.getD ""
      let answer := toUpperCase (trim aiResponse)
      resultsOfAnswer memories answer

/-! ## Topic resolution engine -/

/-- The values a caller can pass as the topic of DELETE_BY_TOPIC. -/
inductive JsValue where
  | undefined
  | null
  | boolean (b : Bool)
  | number (n : Int)
  | string (s : String)
  | object
  deriving DecidableEq, Repr

/-- What deleteByTopic returns. The early return for an empty store has no
`deletedIds` field. -/
structure DeleteResult where
  deleted : Nat
  remaining : Nat
  deletedIds : Option (List String)
  deriving DecidableEq, Repr

/-- How a call ends: with a thrown error or with a returned value. -/
inductive Outcome where
  | threw (message : String)
  | returned (result : DeleteResult)
  deriving DecidableEq, Repr

/-- The effects of deleteByTopic on its collaborators, in the order they
happen. -/
inductive Event where
  | storageGet (key : String)
  | storageSet (memories : List Memory)
  | classify (batch : List Memory)
  deriving DecidableEq, Repr

/-- A finished call of deleteByTopic: the storage afterwards, how the call
ended, the accumulated `allResults`, and the effects. -/
structure DeleteRun where
  storage : Storage
  outcome : Outcome
  allResults : List MatchResult
  trace : List Event
  deriving DecidableEq, Repr

/-- The source's batchSize. -/
def batchSize : Nat := 20

/-- The batch loop of deleteByTopic, `for (i = 0; i < length; i += batchSize)`,
from index `i` with `acc` = (allResults, batches classified so far). The
request of the batch starting at `i` is request number `i / batchSize`. Each
unit of `fuel` pays for one iteration; `none` is running out of it. -/
def batchLoop (st : Storage) (remote : Nat → RemoteReply) (topic : String)
    (allMemories : List Memory) :
    Nat → Nat → List MatchResult × List (List Memory) →
      Option (List MatchResult × List (List Memory))
  | 0, i, acc => if i < allMemories.length then none else some acc
  | fuel + 1, i, acc =>
    if i < allMemories.length then
      let batch := (allMemories.drop i).take batchSize
      let batchResults := batchCheckMemoriesByTopic st (remote (i / batchSize)) batch topic
      batchLoop st remote topic allMemories fuel (i + batchSize)
        (acc.1 ++ batchResults, acc.2 ++ [batch])
    else some acc

/-- Source: deleteByTopic. `none` only when the fuel does not cover the batch
loop. -/
def deleteByTopic (fuel : Nat) (st : Storage) (remote : Nat → RemoteReply)
    (topic : JsValue) : Option DeleteRun :=
  match topic with
  | .string t =>
    if t = "" then
      some { storage := st, outcome := .threw "Invalid topic provided",
             allResults := [], trace := [] }
    else
      let allMemories := st.memories
      if allMemories.length = 0 then
        some { storage := st,
               outcome := .returned { deleted := 0, remaining := 0, deletedIds := none },
               allResults := [], trace := [.storageGet "ai_memories"] }
      else
        match batchLoop st remote t allMemories fuel 0 ([], []) with
        | none => none
        | some (allResults, batches) =>
          let matchingMemories := (allResults.filter (fun r => r.matched)).map (fun r => r.memory)
          let remainingMemories :=
            (allResults.filter (fun r => !r.matched)).map (fun r => r.memory)
          some { storage := { st with ai_memories := some remainingMemories },
                 outcome := .returned
                   { deleted := matchingMemories.length,
                     remaining := remainingMemories.length,
                     deletedIds := some (matchingMemories.map (fun m => m.id)) },
                 allResults := allResults,
                 trace := [.storageGet "ai_memories"] ++ batches.map .classify ++
                   [.storageSet remainingMemories, .storageGet "ai_memories"] }
  | _ =>
    some { storage := st, outcome := .threw "Invalid topic provided",
           allResults := [], trace := [] }

/-! ## Concrete stores and records used in the examples -/

/-- A store with no records, the default settings and the blocklist
`["example.com"]`. -/
def blockedExampleStore : Storage where
  ai_memories := some []
  ai_settings := some DEFAULT_SETTINGS
  ai_blocked_sites := some ["example.com"]

/-- A chat record seen on the site `Shop.Example.com`. -/
def blockedExampleInput : MemoryInput where
  id := none
  timestamp := none
  type := some "chat"
  source := some "user"
  content := "hello"
  site := some "Shop.Example.com"
  topic := some "general"

/-- A chat record seen on the site `www.MyBank.com`. -/
def bankingExampleInput : MemoryInput where
  id := none
  timestamp := none
  type := some "chat"
  source := some "user"
  content := "balance"
  site := some "www.MyBank.com"
  topic := some "finance"

/-- A chat record with the given content and no site. -/
def chatInput (content : String) : MemoryInput where
  id := none
  timestamp := none
  type := some "chat"
  source := some "user"
  content := content
  site := none
  topic := some (extractTopicFromKeywords content)

/-- A store with the given records, a cap of two records and no blocklist. -/
def capTwoStore (memories : List Memory) : Storage where
  ai_memories := some memories
  ai_settings := some { DEFAULT_SETTINGS with maxMemories := 2 }
  ai_blocked_sites := none

/-! ## Sequences of calls and sample stores -/

/-- A sequence of addMemory calls, each with its clock value, random suffix
and argument, applied in order. -/
def addMemories (st : Storage) (calls : List (Int × String × MemoryInput)) : Storage :=
  calls.foldl (fun s c => addMemory s c.1 c.2.1 c.2.2) st

/-- A store holding one record per given timestamp, in the given order. -/
def storeWithTimestamps (ts : List Int) : Storage where
  ai_memories := some (ts.map (fun t =>
    { id := "mem_" ++ toString t, timestamp := t, type := some "chat", source := some "user",
      content := "note", site := none, topic := none }))
  ai_settings := none
  ai_blocked_sites := none

/-! ## Vocabulary of the statements about deleteByTopic -/

/-- The test `!neoClawUrl || !neoClawToken` of the classifier client, negated:
both credentials are stored and non-empty. -/
def hasCredentials (st : Storage) : Bool :=
  match st.ai_settings with
  | none => false
  | some s => !(s.neoClawUrl = "" || s.neoClawToken = "")

/-- The source's `matchingMemories`, from the accumulated results of a run. -/
def DeleteRun.matchingMemories (run : DeleteRun) : List Memory :=
  (run.allResults.filter (fun r => r.matched)).map (fun r => r.memory)

/-- The source's `remainingMemories`, from the accumulated results of a run. -/
def DeleteRun.remainingMemories (run : DeleteRun) : List Memory :=
  (run.allResults.filter (fun r => !r.matched)).map (fun r => r.memory)

/-- The records of `l` at the positions where `flags` has the value `b`, in
their order in `l`. -/
def selectBy (l : List Memory) (flags : List Bool) (b : Bool) : List Memory :=
  ((l.zip flags).filter (fun p => p.2 == b)).map (fun p => p.1)

/-- Follows the spec's words: case-insensitive substring containment of the
query against the record's stored topic label. -/
def labelContainsTopic (topic : String) (m : Memory) : Bool :=
  match m.topic with
  | none => false
  | some label => decide ((toLowerCase topic).data <:+: (toLowerCase label).data)

/-- A stored chat record whose topic label is the keyword topic of its
content. -/
def chatMemory (id : String) (timestamp : Int) (content : String) : Memory where
  id := id
  timestamp := timestamp
  type := some "chat"
  source := some "user"
  content := content
  site := none
  topic := some (extractTopicFromKeywords content)

/-- The three records of the end-to-end scenario, newest first. -/
def scenarioMemories : List Memory :=
  [chatMemory "mem_3" 3 "flight to Tokyo", chatMemory "mem_2" 2 "python debugging tips",
   chatMemory "mem_1" 1 "pasta recipe"]

/-- The scenario's storage: the three records and settings without
credentials. -/
def scenarioStore : Storage where
  ai_memories := some scenarioMemories
  ai_settings := some { DEFAULT_SETTINGS with neoClawUrl := "", neoClawToken := "" }
  ai_blocked_sites := none

/-- A storage of 45 records labelled cooking and travel in turn, with the
default settings (credentials present). -/
def largeStore : Storage where
  ai_memories := some ((List.range 45).map (fun k =>
    chatMemory ("mem_" ++ toString k) k (if k % 2 = 0 then "pasta recipe" else "flight to Tokyo")))
  ai_settings := some DEFAULT_SETTINGS
  ai_blocked_sites := none

/-- A remote endpoint that answers the first request with the indices 1 and 3,
fails on the second and answers NONE afterwards. -/
def sampleRemote : Nat → RemoteReply
  | 0 => .body (some "1, 3")
  | 1 => .notOk
  | _ => .body (some "none")

/-! ## Remote classifier client: single record and topic extraction -/

/-- Source: checkMemoryBelongsToTopic, as the truth value of what it returns.
The credentials are read from the stored settings; `reply` is what the
request to the endpoint comes to, if one is made. -/
def checkMemoryBelongsToTopic (st : Storage) (reply : RemoteReply) (memory : Memory)
    (topic : String) : Bool :=
  let neoClawUrl := match st.ai_settings with
    | none => ""
    | some s => s.neoClawUrl
  let neoClawToken := match st.ai_settings with
    | none => ""
    | some s => s.neoClawToken
  if neoClawUrl = "" || neoClawToken = "" then
    topicLabelIncludes memory (trim (toLowerCase topic))
  else
    match reply with
    | .fetchThrew => topicLabelIncludes memory (trim (toLowerCase topic))
    | .notOk => topicLabelIncludes memory (trim (toLowerCase topic))
    | .jsonThrew => topicLabelIncludes memory (trim (toLowerCase topic))
    | .nonStringText => topicLabelIncludes memory (trim (toLowerCase topic))
    | .body text =>
      let aiResponse := text.getD ""
      let answer := toUpperCase (trim aiResponse)
      decide (answer = "YES") || includes answer "YES"

/-- The first cleaning step of extractTopicFromContent, `replace(/['"]/g, '')`:
every apostrophe (0x27) and double quote (0x22) is removed. -/
def removeQuotes (s : String) : String :=
  ⟨s.data.filter (fun c => !(c.toNat == 0x27 || c.toNat == 0x22))⟩

/-- The second cleaning step, `replace(/^(the |a |an )/i, '')`: a leading
article is removed, characters compared after canonicalisation to upper
case. -/
def stripLeadingArticle (s : String) : String :=
  let canon := (canonicalize s).data
  if (canonicalize "the ").data.isPrefixOf canon then ⟨s.data.drop 4⟩
  else if (canonicalize "a ").data.isPrefixOf canon then ⟨s.data.drop 2⟩
  else if (canonicalize "an ").data.isPrefixOf canon then ⟨s.data.drop 3⟩
  else s

/-- The pieces of `split(/\s+/)`: the text is cut at every maximal run of
whitespace; `cur` is the piece being read and `inSeparator` says that the
previous character was whitespace. A leading or trailing run leaves an empty
piece, and the empty text is one empty piece. -/
def splitWhitespaceAux : List Char → List Char → Bool → List (List Char)
  | [], cur, _ => [cur]
  | c :: cs, cur, inSeparator =>
    if isJsWhitespace c then
      if inSeparator then splitWhitespaceAux cs cur true
      else cur :: splitWhitespaceAux cs [] true
    else splitWhitespaceAux cs (cur ++ [c]) false

/-- The pieces of a string under `split(/\s+/)`. -/
def splitWhitespace (s : String) : List (List Char) := splitWhitespaceAux s.data [] false

/-- The cleaning of the extracted topic in extractTopicFromContent: quotes
removed, a leading article removed, split at whitespace, the first three
pieces joined by single blanks. -/
def cleanTopic (extractedTopic : String) : String :=
  let pieces := splitWhitespace (stripLeadingArticle (removeQuotes extractedTopic))
  ⟨List.intercalate [' '] (pieces.take 3)⟩

/-- Source: extractTopicFromContent. An absent text and an empty one are both
falsy, so both give the keyword topic as the extracted topic. -/
def extractTopicFromContent (st : Storage) (reply : RemoteReply) (content : String) : String :=
  let fallbackTopic := extractTopicFromKeywords content
  let neoClawUrl := match st.ai_settings with
    | none => ""
    | some s => s.neoClawUrl
  let neoClawToken := match st.ai_settings with
    | none => ""
    | some s => s.neoClawToken
  if neoClawUrl = "" || neoClawToken = "" then fallbackTopic
  else
    match reply with
    | .fetchThrew => fallbackTopic
    | .notOk => fallbackTopic
    | .jsonThrew => fallbackTopic
    | .nonStringText => fallbackTopic
    | .body text =>
      let lowered := match text with
        | none => ""
        | some t => toLowerCase (trim t)
      let extractedTopic := if lowered = "" then fallbackTopic else lowered
      let cleanedTopic := cleanTopic extractedTopic
      if cleanedTopic = "" then fallbackTopic else cleanedTopic

/-! ## Message handler and memory listing -/

/-- The response envelope of the DELETE_BY_TOPIC message. -/
inductive Response where
  | success (data : DeleteResult)
  | failure (error : String)
  deriving DecidableEq, Repr

/-- Source: the DELETE_BY_TOPIC case of the message handler, with the catch
block around the switch: the storage afterwards and the response sent. -/
def onMessageDeleteByTopic (fuel : Nat) (st : Storage) (remote : Nat → RemoteReply)
    (topic : JsValue) : Option (Storage × Response) :=
  (deleteByTopic fuel st remote topic).map (fun run =>
    (run.storage,
      match run.outcome with
      | .returned result => Response.success result
      | .threw message => Response.failure message))

/-- The `filters` argument of getMemories; an absent field is `none`, and an
absent argument has every field absent. -/
structure Filters where
  source : Option String
  topic : Option String
  startTime : Option Int
  endTime : Option Int
  deriving DecidableEq, Repr

/-- Truthiness of an optional string: present and not empty. -/
def truthyString (v : Option String) : Bool :=
  match v with
  | none => false
  | some s => !(s = "")

/-- Truthiness of an optional integer: present and not zero. -/
def truthyNumber (v : Option Int) : Bool :=
  match v with
  | none => false
  | some n => !(n = 0)

/-- The comparator of getMemories, `(a, b) => b.timestamp - a.timestamp`, as
the order it sorts by: `a` may stand before `b`. -/
def newestFirst (a b : Memory) : Prop := b.timestamp ≤ a.timestamp

instance newestFirst.decidable : DecidableRel newestFirst :=
  fun a b => inferInstanceAs (Decidable (b.timestamp ≤ a.timestamp))

/-- Source: getMemories. Array.prototype.sort is stable; it is the insertion
sort by the comparator. -/
def getMemories (st : Storage) (filters : Filters) : List Memory :=
  let memories := st.memories
  let memories :=
    if truthyString filters.source then memories.filter (fun m => m.source = filters.source)
    else memories
  let memories :=
    if truthyString filters.topic then
      memories.filter (fun m =>
        match m.topic with
        | none => false
        | some t => includes (toLowerCase t) (toLowerCase (filters.topic.getD "")))
    else memories
  let memories :=
    if truthyNumber filters.startTime && truthyNumber filters.endTime then
      memories.filter (fun m =>
        m.timestamp ≥ filters.startTime.getD 0 && m.timestamp ≤ filters.endTime.getD 0)
    else memories
  memories.insertionSort newestFirst

/-! ## Sample inputs of the later examples -/

/-- The storage right after installation: no records, the default settings,
no blocklist. -/
def freshStore : Storage where
  ai_memories := some []
  ai_settings := some DEFAULT_SETTINGS
  ai_blocked_sites := none

/-! ## The topic rules in the words of the specification -/

/-- Follows the spec's words: the ordered list of category → keyword-set
rules. -/
def TOPIC_RULES : List (String × List String) :=
  [("programming", ["python", "javascript", "java", "code", "programming", "function", "api",
      "debug", "git", "npm"]),
   ("cooking", ["recipe", "cook", "food", "restaurant", "meal", "ingredient", "cuisine"]),
   ("travel", ["travel", "hotel", "flight", "vacation", "trip", "visit", "tourism",
      "destination"]),
   ("health", ["health", "doctor", "medical", "medicine", "fitness", "workout", "exercise"]),
   ("finance", ["money", "bank", "invest", "stock", "finance", "budget", "payment", "credit"]),
   ("education", ["learn", "study", "school", "university", "course", "education",
      "tutorial"]),
   ("entertainment", ["movie", "music", "game", "tv", "show", "entertainment", "play",
      "watch"]),
   ("news", ["news", "current", "event", "politics", "election", "government"]),
   ("shopping", ["buy", "shop", "purchase", "product", "price", "amazon", "store"])]

/-- Follows the spec's words: the label of the first rule one of whose
keywords occurs in the lower-cased text, and "general" when there is none. -/
def firstMatchingCategory (text : String) : String :=
  match TOPIC_RULES.find? (fun rule => rule.2.any (fun k => includes (toLowerCase text) k)) with
  | some rule => rule.1
  | none => "general"

/-- The ten labels of the keyword classifier. -/
def TOPIC_LABELS : List String :=
  ["programming", "cooking", "travel", "health", "finance", "education", "entertainment",
   "news", "shopping", "general"]

/-- Follows the claim's words: a record passes the applied filters. A filter
is applied when its value is truthy; the time filter when both bounds are. -/
def passesFilters (filters : Filters) (m : Memory) : Bool :=
  (!truthyString filters.source || decide (m.source = filters.source)) &&
  (!truthyString filters.topic ||
    (match m.topic with
      | none => false
      | some t => decide ((toLowerCase (filters.topic.getD "")).data <:+: (toLowerCase t).data))) &&
  (!(truthyNumber filters.startTime && truthyNumber filters.endTime) ||
    (decide (filters.startTime.getD 0 ≤ m.timestamp) &&
      decide (m.timestamp ≤ filters.endTime.getD 0)))

/-- Follows the claim's words: `run` is a maximal run of decimal digits of the
text `s`: a non-empty block of digits of `s` with no digit right before it and
no digit right after it. -/
def IsMaximalDigitRun (s : List Char) (run : List Char) : Prop :=
  run ≠ [] ∧ (∀ c ∈ run, c.isDigit = true) ∧
    ∃ pre post, s = pre ++ run ++ post ∧
      (∀ c ∈ pre.getLast?, c.isDigit = false) ∧ (∀ c ∈ post.head?, c.isDigit = false)

/-! ## Settings update -/

/-- The `settings` of an UPDATE_SETTINGS message: a partial settings object;
an absent field is `none`. -/
structure SettingsUpdate where
  enableHistory : Option Bool
  enableBookmarks : Option Bool
  enableTabs : Option Bool
  autoDeleteDays : Option Int
  neverRememberBanking : Option Bool
  excludeWorkTabs : Option Bool
  maxMemories : Option Int
  neoClawUrl : Option String
  neoClawToken : Option String
  enablePaymentProtection : Option Bool
  deriving DecidableEq, Repr

/-- The object spread `{ ...current, ...newSettings }`. -/
def mergeSettings (current : Settings) (newSettings : SettingsUpdate) : Settings where
  enableHistory := newSettings.enableHistory.getD current.enableHistory
  enableBookmarks := newSettings.enableBookmarks.getD current.enableBookmarks
  enableTabs := newSettings.enableTabs.getD current.enableTabs
  autoDeleteDays := newSettings.autoDeleteDays.getD current.autoDeleteDays
  neverRememberBanking := newSettings.neverRememberBanking.getD current.neverRememberBanking
  excludeWorkTabs := newSettings.excludeWorkTabs.getD current.excludeWorkTabs
  maxMemories := newSettings.maxMemories.getD current.maxMemories
  neoClawUrl := newSettings.neoClawUrl.getD current.neoClawUrl
  neoClawToken := newSettings.neoClawToken.getD current.neoClawToken
  enablePaymentProtection :=
    newSettings.enablePaymentProtection.getD current.enablePaymentProtection

/-- Source: updateSettings. -/
def updateSettings (st : Storage) (newSettings : SettingsUpdate) : Storage :=
  let current := getSettings st
  let updated := mergeSettings current newSettings
  { st with ai_settings := some updated }

/-! ## Payment patterns -/

/-- The two further keys of chrome.storage.local that getPaymentPatterns reads
and writes, kept in a record of their own. -/
structure PaymentCache where
  payment_patterns : Option (List String)
  payment_patterns_timestamp : Option Int
  deriving DecidableEq, Repr

/-- The `defaultPatterns` of getPaymentPatterns in background.js. -/
def DEFAULT_PAYMENT_PATTERNS : List String :=
  ["payment", "checkout", "billing", "pay", "cart",
   "stripe", "paypal", "razorpay", "paytm", "phonepe",
   "googlepay", "amazonpay", "worldpay", "square",
   "/checkout", "/payment", "/billing", "/cart",
   "secure", "transaction", "order-confirmation"]

/-- The `defaultPatterns` of getPaymentPatterns in payment-patterns.js. -/
def DEFAULT_PAYMENT_PATTERNS_FILE : List String :=
  ["payment", "checkout", "billing", "pay", "cart",
   "stripe", "paypal", "paytm", "phonepe",
   "googlepay", "amazonpay", "worldpay", "square",
   "/checkout", "/payment", "/billing", "/cart",
   "secure", "transaction", "order-confirmation"]

/-- The `length` of a string: its number of UTF-16 code units. -/
def utf16Length (s : String) : Nat :=
  (s.data.map (fun c => if c.toNat ≥ 0x10000 then 2 else 1)).sum

/-- The pieces of `split(/[,\n]/)`: the text is cut at every comma (0x2C) and
every line feed (0x0A); `cur` is the piece being read. -/
def splitCommaNewlineAux : List Char → List Char → List (List Char)
  | [], cur => [cur]
  | c :: cs, cur =>
    if c.toNat == 0x2C || c.toNat == 0x0A then cur :: splitCommaNewlineAux cs []
    else splitCommaNewlineAux cs (cur ++ [c])

/-- The pieces of a string under `split(/[,\n]/)`. -/
def splitCommaNewline (s : String) : List String :=
  (splitCommaNewlineAux s.data []).map (fun cs => String.mk cs)

/-- The words of the test `/^(and|or|the|a|an|in|on|at|to|for)$/`. -/
def COMMON_WORDS : List String := ["and", "or", "the", "a", "an", "in", "on", "at", "to", "for"]

/-- The parsing of the response text in getPaymentPatterns. -/
def parsePaymentPatterns (responseText : String) : List String :=
  (((splitCommaNewline (toLowerCase responseText)).map trim).filter
    (fun p => !(p = "") && decide (utf16Length p > 2))).filter
    (fun p => !decide (p ∈ COMMON_WORDS))

/-- The spread of a Set, `[...new Set(xs)]`: the first occurrence of every
element, in order; `seen` holds the elements met so far. -/
def dedupeAux : List String → List String → List String
  | [], _ => []
  | x :: xs, seen => if x ∈ seen then dedupeAux xs seen else x :: dedupeAux xs (x :: seen)

/-- The first occurrences of a list, in order. -/
def dedupe (xs : List String) : List String := dedupeAux xs []

/-- A finished call of getPaymentPatterns: the cache afterwards, the list
returned, and whether a request was sent to the endpoint. -/
structure PaymentRun where
  cache : PaymentCache
  patterns : List String
  fetched : Bool
  deriving DecidableEq, Repr

/-- The freshness test of getPaymentPatterns: both cache keys are truthy and
the cache is less than a day old. -/
def cacheIsFresh (cache : PaymentCache) (now : Int) : Bool :=
  match cache.payment_patterns, cache.payment_patterns_timestamp with
  | some _, some ts => !(ts = 0) && decide (now - ts < 24 * 60 * 60 * 1000)
  | _, _ => false

/-- Source: getPaymentPatterns, with its `defaultPatterns` as an argument (the
copies in background.js and in payment-patterns.js differ in that list only).
`now` is Date.now() and `reply` is what the request comes to, if one is
made. -/
def getPaymentPatterns (defaultPatterns : List String) (st : Storage) (cache : PaymentCache)
    (now : Int) (reply : RemoteReply) : PaymentRun :=
  if cacheIsFresh cache now then
    { cache := cache, patterns := cache.payment_patterns.getD [], fetched := false }
  else
    let neoClawUrl := match st.ai_settings with
      | none => ""
      | some s => s.neoClawUrl
    let neoClawToken := match st.ai_settings with
      | none => ""
      | some s => s.neoClawToken
    if neoClawUrl = "" || neoClawToken = "" then
      { cache := cache, patterns := defaultPatterns, fetched := false }
    else
      match reply with
      | .fetchThrew => { cache := cache, patterns := defaultPatterns, fetched := true }
      | .notOk => { cache := cache, patterns := defaultPatterns, fetched := true }
      | .jsonThrew => { cache := cache, patterns := defaultPatterns, fetched := true }
      | .nonStringText => { cache := cache, patterns := defaultPatterns, fetched := true }
      | .body text =>
        let responseText := match text with
          | none => ""
          | some t => trim t
        if responseText = "" then
          { cache := cache, patterns := defaultPatterns, fetched := true }
        else
          let patterns := parsePaymentPatterns responseText
          let combinedPatterns := dedupe (patterns ++ defaultPatterns)
          { cache := { payment_patterns := some combinedPatterns,
                       payment_patterns_timestamp := some now },
            patterns := combinedPatterns, fetched := true }

/-! ## Browsing context -/

/-- A history item, as gatherContext returns it. -/
structure HistoryItem where
  title : Option String
  url : Option String
  visitCount : Nat
  lastVisitTime : Int
  deriving DecidableEq, Repr

/-- An open tab, as gatherContext returns it. -/
structure Tab where
  title : Option String
  url : Option String
  active : Bool
  deriving DecidableEq, Repr

/-- A bookmark, as extractBookmarks returns it. -/
structure Bookmark where
  title : Option String
  url : String
  deriving DecidableEq, Repr

/-- A node of the bookmark tree: a folder or a bookmark. -/
inductive BookmarkNode where
  | node (title : Option String) (url : Option String) (children : List BookmarkNode)

/-- The blocklist test of gatherContext and extractBookmarks:
`url?.toLowerCase().includes(pattern.toLowerCase())` for some pattern. -/
def blockedByList (blockedSites : List String) (url : Option String) : Bool :=
  blockedSites.any (fun pattern =>
    match url with
    | none => false
    | some u => includes (toLowerCase u) (toLowerCase pattern))

/-- The filter callback of gatherContext for history items and tabs. -/
def keepInContext (settings : Settings) (blockedSites : List String) (url : Option String) :
    Bool :=
  if settings.neverRememberBanking && isBankingSite url then false
  else if blockedByList blockedSites url then false
  else true

mutual
/-- Source: extractBookmarks, as the list of what it pushes for one node. -/
def extractBookmarks (blockedSites : List String) : BookmarkNode → List Bookmark
  | .node title url children =>
    (match url with
      | none => []
      | some u =>
        if u = "" then []
        else if blockedByList blockedSites (some u) then []
        else [{ title := title, url := u }]) ++
    extractBookmarksOfChildren blockedSites children
/-- The forEach over the children of a node. -/
def extractBookmarksOfChildren (blockedSites : List String) : List BookmarkNode → List Bookmark
  | [] => []
  | child :: rest =>
    extractBookmarks blockedSites child ++ extractBookmarksOfChildren blockedSites rest
end

/-- What gatherContext returns. -/
structure Context where
  history : List HistoryItem
  bookmarks : List Bookmark
  tabs : List Tab
  memories : List Memory
  deriving DecidableEq, Repr

/-- Source: gatherContext. The browser supplies the recent history, the root
of the bookmark tree and the open tabs. -/
def gatherContext (st : Storage) (historyItems : List HistoryItem) (bookmarkRoot : BookmarkNode)
    (openTabs : List Tab) : Context :=
  let settings := getSettings st
  let blockedSites := st.blockedSites
  { history :=
      if settings.enableHistory then
        historyItems.filter (fun item => keepInContext settings blockedSites item.url)
      else [],
    bookmarks :=
      if settings.enableBookmarks then extractBookmarks blockedSites bookmarkRoot else [],
    tabs :=
      if settings.enableTabs then
        openTabs.filter (fun tab => keepInContext settings blockedSites tab.url)
      else [],
    memories := getMemories st { source := none, topic := none, startTime := none,
                                 endTime := none } }

/-- The history items that buildContextMessage writes into the message: the
first ten, those with a title. -/
def messageHistoryItems (context : Context) : List HistoryItem :=
  (context.history.take 10).filter (fun item => truthyString item.title)

/-- The tabs that buildContextMessage writes into the message: the first ten,
those with a title. -/
def messageTabs (context : Context) : List Tab :=
  (context.tabs.take 10).filter (fun tab => truthyString tab.title)

/-- The first `n` UTF-16 code units of a text, `substring(0, n)`. A character
above U+FFFF is two code units; where the cut falls between the two, the
source keeps the first of them alone, which is no character of a Lean
`String` and is written U+FFFD here. -/
def substringTo : Nat → List Char → List Char
  | 0, _ => []
  | _, [] => []
  | n + 1, c :: cs =>
    if c.toNat ≥ 0x10000 then
      if n = 0 then [Char.ofNat 0xFFFD] else c :: substringTo (n - 1) cs
    else c :: substringTo n cs

/-- The content preview of a memory in the message: the first hundred UTF-16
code units of a content longer than that, followed by an ellipsis. -/
def contentPreview (content : String) : String :=
  if utf16Length content > 100 then String.mk (substringTo 100 content.data) ++ "..."
  else content

/-- Source: buildContextMessage. -/
def buildContextMessage (context : Context) : String :=
  let message :=
    "You are an AI assistant with access to the user's browsing context. Use this information to provide helpful responses.\n\n"
  let message :=
    if context.history.length > 0 then
      message ++ "📜 RECENT HISTORY (" ++ toString context.history.length ++ " items):\n" ++
        String.join ((messageHistoryItems context).map (fun item =>
          "- " ++ item.title.getD "" ++ " (" ++ item.url.getD "" ++ ")\n")) ++ "\n"
    else message
  let message :=
    if context.tabs.length > 0 then
      message ++ "📑 OPEN TABS (" ++ toString context.tabs.length ++ " tabs):\n" ++
        String.join ((messageTabs context).map (fun tab =>
          "- " ++ tab.title.getD "" ++ (if tab.active then " [ACTIVE]" else "") ++ "\n")) ++ "\n"
    else message
  let message :=
    if context.memories.length > 0 then
      message ++ "💾 STORED MEMORIES (" ++ toString context.memories.length ++ " memories):\n" ++
        String.join (((context.memories.take 5).filter (fun mem => !(mem.content = ""))).map
          (fun mem =>
            "- [" ++ (if truthyString mem.source then mem.source.getD "" else "unknown") ++ "] " ++
              contentPreview mem.content ++ "\n")) ++ "\n"
    else message
  message ++ "Use this context to provide personalized and relevant responses."

/-- Source: the request of handleChat when credentials are stored: the `input`
of the body sent to the endpoint, a system message with the context and the
user message, as (role, content) pairs. -/
def chatRequestInput (context : Context) (userMessage : String) : List (String × String) :=
  [("system", buildContextMessage context), ("user", userMessage)]

/-! ## Vocabulary of the statements about the batches -/

/-- Follows the claim's words: the k-th batch of a store, records
20 k to 20 k + 19. -/
def batchAt (all : List Memory) (k : Nat) : List Memory :=
  (all.drop (batchSize * k)).take batchSize

/-- Follows the claim's words: the number of batches of n records,
ceil(n / 20). -/
def batchCount (n : Nat) : Nat := (n + (batchSize - 1)) / batchSize

/-- An effect that is a call of the batch classifier. -/
def Event.isClassify : Event → Bool
  | .classify _ => true
  | _ => false

/-- An effect that is a write to the storage. -/
def Event.isStorageSet : Event → Bool
  | .storageSet _ => true
  | _ => false

/-! ## Sample inputs of the last examples -/

/-- A stored chat record without a topic label. -/
def unlabelledMemory (id : String) (timestamp : Int) (content : String) : Memory where
  id := id
  timestamp := timestamp
  type := some "chat"
  source := some "user"
  content := content
  site := none
  topic := none

/-- A storage without credentials holding two labelled records and one
without a label. -/
def mixedStore : Storage where
  ai_memories := some [chatMemory "mem_3" 300 "flight to Tokyo",
    unlabelledMemory "mem_2" 200 "note to self", chatMemory "mem_1" 100 "pasta recipe"]
  ai_settings := some { DEFAULT_SETTINGS with neoClawUrl := "", neoClawToken := "" }
  ai_blocked_sites := none

/-- An ADD_MEMORY argument that brings its own id and timestamp. -/
def forgedInput : MemoryInput where
  id := some "mem_1"
  timestamp := some 5
  type := some "chat"
  source := some "user"
  content := "second note"
  site := none
  topic := some "general"

/-- The filters of getMemories with every field absent. -/
def noFilters : Filters where
  source := none
  topic := none
  startTime := none
  endTime := none

/-- An update that carries the two credentials only, as setup-credentials.js
merges them. -/
def credentialsUpdate : SettingsUpdate where
  enableHistory := none
  enableBookmarks := none
  enableTabs := none
  autoDeleteDays := none
  neverRememberBanking := none
  excludeWorkTabs := none
  maxMemories := none
  neoClawUrl := some "https://neoclaw.example"
  neoClawToken := some "token"
  enablePaymentProtection := none

/-- A storage with the default settings holding the one record mem_1. -/
def singleStore : Storage where
  ai_memories := some [chatMemory "mem_1" 1 "pasta recipe"]
  ai_settings := some DEFAULT_SETTINGS
  ai_blocked_sites := none

/-! ## The privacy filter in the words of the specification -/

/-- Follows the spec's words: a URL passes the Privacy Filter when it contains
no blocklist pattern under case-insensitive containment and, with
neverRememberBanking enabled, no banking pattern. An absent URL passes. -/
def urlPassesPrivacyFilter (settings : Settings) (blockedSites : List String)
    (url : Option String) : Prop :=
  ∀ u, url = some u →
    (∀ p ∈ blockedSites, ¬ (toLowerCase p).data <:+: (toLowerCase u).data) ∧
    (settings.neverRememberBanking = true →
      ∀ p ∈ BANKING_PATTERNS, ¬ p.data <:+: (toLowerCase u).data)

/-- A bookmark tree: a root folder with a bookmark of a bank and a folder
holding a bookmark of a news site. -/
def sampleBookmarks : BookmarkNode :=
  .node none none
    [.node (some "My Bank") (some "https://www.mybank.com/login") [],
     .node (some "Reading") none [.node (some "News") (some "https://news.example.org") []]]

/-- Three history items: a bank, a site of the blocklist `example.com`, and a
news site. -/
def sampleHistory : List HistoryItem :=
  [{ title := some "My Bank", url := some "https://www.mybank.com/login", visitCount := 3,
     lastVisitTime := 300 },
   { title := some "Shop", url := some "https://Shop.Example.com/cart", visitCount := 1,
     lastVisitTime := 200 },
   { title := some "News", url := some "https://news.example.org", visitCount := 2,
     lastVisitTime := 100 }]

/-- Two open tabs: a payment page and a documentation page. -/
def sampleTabs : List Tab :=
  [{ title := some "Checkout", url := some "https://pay.example.net/PayPal", active := true },
   { title := some "Docs", url := some "https://docs.example.org", active := false }]

/-- The cache keys before the first call: nothing stored. -/
def emptyCache : PaymentCache where
  payment_patterns := none
  payment_patterns_timestamp := none

end

/-! ## The folding of the ASCII letters -/

/-- The folding of the ASCII letters alone is a case folding: the facts of
the class hold together. Every case folding agrees with it on a text of ASCII
characters, and the examples, whose texts are ASCII, are evaluated with it.
Outside ASCII it is not the conversion of the runtime, and no general property
is stated of it. -/
instance asciiCaseFolding : CaseFolding where
  toLowerCase := asciiLowerCase
  toUpperCase := asciiUpperCase
  toLowerCase_ascii := fun _ _ => rfl
  toUpperCase_ascii := fun _ _ => rfl
  toLowerCase_ne_empty := by
    intro s h hc
    apply h
    have hd : (asciiLowerCase s).data = [] := by rw [hc]
    simp only [asciiLowerCase, List.map_eq_nil_iff] at hd
    cases s
    simp_all
  trim_toLowerCase := by
    intro s
    have hws : ∀ c : Char, isJsWhitespace c.toLower = isJsWhitespace c := by
      intro c
      unfold Char.toLower
      simp only
      split_ifs with h
      · obtain ⟨n, hn⟩ : ∃ n, c.toNat = n := ⟨_, rfl⟩
        have hc : c = Char.ofNat n := by rw [← hn, Char.ofNat_toNat]
        rw [hn] at h ⊢
        subst hc
        obtain ⟨h1, h2⟩ := h
        interval_cases n <;> decide
      · rfl
    have hcomp : (isJsWhitespace ∘ Char.toLower) = isJsWhitespace := funext hws
    simp only [trim, asciiLowerCase]
    rw [List.dropWhile_map, hcomp, ← List.map_reverse, List.dropWhile_map, hcomp,
      ← List.map_reverse]
  toLowerCase_no_upper := by
    intro s c hc
    simp only [asciiLowerCase, List.mem_map] at hc
    obtain ⟨d, _, rfl⟩ := hc
    by_cases h : d.toNat ≥ 65 ∧ d.toNat ≤ 90
    · obtain ⟨n, hn⟩ : ∃ n, d.toNat = n := ⟨_, rfl⟩
      have hd : d = Char.ofNat n := by rw [← hn, Char.ofNat_toNat]
      rw [hn] at h
      subst hd
      obtain ⟨h1, h2⟩ := h
      interval_cases n <;> decide
    · have hd : d.toLower = d := by
        unfold Char.toLower
        simp only [h, if_false]
      rw [hd]
      exact fun h' => h ⟨h'.1, h'.2⟩
  digitRuns_toUpperCase := by
    intro s
    have hup : ∀ c : Char, ¬ (c.toNat ≥ 97 ∧ c.toNat ≤ 122) → c.toUpper = c := by
      intro c h
      unfold Char.toUpper
      simp only [h, if_false]
    have hdig : ∀ c : Char, c.toUpper.isDigit = c.isDigit := by
      intro c
      by_cases h : c.toNat ≥ 97 ∧ c.toNat ≤ 122
      · obtain ⟨n, hn⟩ : ∃ n, c.toNat = n := ⟨_, rfl⟩
        have hc : c = Char.ofNat n := by rw [← hn, Char.ofNat_toNat]
        rw [hn] at h
        subst hc
        obtain ⟨h1, h2⟩ := h
        interval_cases n <;> decide
      · rw [hup c h]
    have hfix : ∀ c : Char, c.isDigit = true → c.toUpper = c := by
      intro c h
      apply hup
      have h2 : 48 ≤ c.toNat ∧ c.toNat ≤ 57 := by
        unfold Char.isDigit Char.toNat at *
        simp only [Bool.and_eq_true, decide_eq_true_eq, ge_iff_le] at h
        exact ⟨h.1, h.2⟩
      omega
    have haux : ∀ (cs cur : List Char),
        digitRunsAux (cs.map Char.toUpper) cur = digitRunsAux cs cur := by
      intro cs
      induction cs with
      | nil => intro cur; rfl
      | cons c cs ih =>
        intro cur
        simp only [List.map_cons, digitRunsAux, hdig]
        cases hd : c.isDigit with
        | true => simp only [if_true, hfix c hd, ih]
        | false => simp only [Bool.false_eq_true, if_false, ih]
    unfold digitRuns asciiUpperCase
    exact haux s.data []

/-! ## A case folding beyond ASCII -/

/-- The lower case of a character under `sampleCaseFolding`. -/
def sampleLowerChar (c : Char) : Char :=
  if c.toNat = 0x212A then 'k'
  else if c.toNat = 0xC9 then Char.ofNat 0xE9
  else c.toLower

/-- The upper case of a character under `sampleCaseFolding`. -/
def sampleUpperChars (c : Char) : List Char :=
  if c.toNat = 0xDF then ['S', 'S']
  else if c.toNat = 0xE9 then [Char.ofNat 0xC9]
  else [c.toUpper]

/-- A case folding that does beyond ASCII what the runtime does to four
characters: the Kelvin sign (U+212A) is lower-cased to k and the capital E
with acute (U+00C9) to the small one (U+00E9), the small e with acute is
upper-cased to the capital one and the sharp s (U+00DF) to SS. The class has
members that map a character outside ASCII to an ASCII one and to several
characters. -/
def sampleCaseFolding : CaseFolding where
  toLowerCase := fun s => ⟨s.data.map sampleLowerChar⟩
  toUpperCase := fun s => ⟨s.data.flatMap sampleUpperChars⟩
  toLowerCase_ascii := by
    intro s h
    have hc : ∀ c ∈ s.data, sampleLowerChar c = c.toLower := by
      intro c hmem
      have hlt : c.toNat < 128 := by
        simpa using (List.all_eq_true.mp h) c hmem
      unfold sampleLowerChar
      rw [if_neg (by omega), if_neg (by omega)]
    simp only [asciiLowerCase]
    rw [List.map_congr_left hc]
  toUpperCase_ascii := by
    intro s h
    have hc : ∀ c ∈ s.data, sampleUpperChars c = [c.toUpper] := by
      intro c hmem
      have hlt : c.toNat < 128 := by
        simpa using (List.all_eq_true.mp h) c hmem
      unfold sampleUpperChars
      rw [if_neg (by omega), if_neg (by omega)]
    have hflat : ∀ l : List Char, (∀ c ∈ l, sampleUpperChars c = [c.toUpper]) →
        l.flatMap sampleUpperChars = l.map Char.toUpper := by
      intro l
      induction l with
      | nil => intro _; rfl
      | cons c l ih =>
        intro hl
        rw [List.flatMap_cons, hl c (List.mem_cons_self _ _),
          ih (fun x hx => hl x (List.mem_cons_of_mem _ hx))]
        rfl
    simp only [asciiUpperCase]
    rw [hflat s.data hc]
  toLowerCase_ne_empty := by
    intro s h hc
    apply h
    have hd : (s.data.map sampleLowerChar) = [] := by
      have := congrArg String.data hc
      simpa using this
    rw [List.map_eq_nil_iff] at hd
    cases s
    simp_all
  trim_toLowerCase := by
    intro s
    have hascii : ∀ c : Char, isJsWhitespace c.toLower = isJsWhitespace c := by
      intro c
      unfold Char.toLower
      simp only
      split_ifs with h
      · obtain ⟨n, hn⟩ : ∃ n, c.toNat = n := ⟨_, rfl⟩
        have hc : c = Char.ofNat n := by rw [← hn, Char.ofNat_toNat]
        rw [hn] at h ⊢
        subst hc
        obtain ⟨h1, h2⟩ := h
        interval_cases n <;> decide
      · rfl
    have hws : ∀ c : Char, isJsWhitespace (sampleLowerChar c) = isJsWhitespace c := by
      intro c
      unfold sampleLowerChar
      split_ifs with h1 h2
      · have hc : c = Char.ofNat 0x212A := by rw [← h1, Char.ofNat_toNat]
        subst hc
        decide
      · have hc : c = Char.ofNat 0xC9 := by rw [← h2, Char.ofNat_toNat]
        subst hc
        decide
      · exact hascii c
    have hcomp : (isJsWhitespace ∘ sampleLowerChar) = isJsWhitespace := funext hws
    simp only [trim]
    rw [List.dropWhile_map, hcomp, ← List.map_reverse, List.dropWhile_map, hcomp,
      ← List.map_reverse]
  toLowerCase_no_upper := by
    intro s c hc
    simp only [List.mem_map] at hc
    obtain ⟨d, _, rfl⟩ := hc
    unfold sampleLowerChar
    split_ifs with h1 h2
    · decide
    · decide
    · by_cases h : d.toNat ≥ 65 ∧ d.toNat ≤ 90
      · obtain ⟨n, hn⟩ : ∃ n, d.toNat = n := ⟨_, rfl⟩
        have hd : d = Char.ofNat n := by rw [← hn, Char.ofNat_toNat]
        rw [hn] at h
        subst hd
        obtain ⟨h3, h4⟩ := h
        interval_cases n <;> decide
      · have hd : d.toLower = d := by
          unfold Char.toLower
          simp only [h, if_false]
        rw [hd]
        exact fun h' => h ⟨h'.1, h'.2⟩
  digitRuns_toUpperCase := by
    intro s
    have hup : ∀ c : Char, ¬ (c.toNat ≥ 97 ∧ c.toNat ≤ 122) → c.toUpper = c := by
      intro c h
      unfold Char.toUpper
      simp only [h, if_false]
    have hdig : ∀ c : Char, c.toUpper.isDigit = c.isDigit := by
      intro c
      by_cases h : c.toNat ≥ 97 ∧ c.toNat ≤ 122
      · obtain ⟨n, hn⟩ : ∃ n, c.toNat = n := ⟨_, rfl⟩
        have hc : c = Char.ofNat n := by rw [← hn, Char.ofNat_toNat]
        rw [hn] at h
        subst hc
        obtain ⟨h1, h2⟩ := h
        interval_cases n <;> decide
      · rw [hup c h]
    have hfix : ∀ c : Char, c.isDigit = true → c.toUpper = c := by
      intro c h
      apply hup
      have h2 : 48 ≤ c.toNat ∧ c.toNat ≤ 57 := by
        unfold Char.isDigit Char.toNat at *
        simp only [Bool.and_eq_true, decide_eq_true_eq, ge_iff_le] at h
        exact ⟨h.1, h.2⟩
      omega
    have haux : ∀ (cs cur : List Char),
        digitRunsAux (cs.flatMap sampleUpperChars) cur = digitRunsAux cs cur := by
      intro cs
      induction cs with
      | nil => intro cur; rfl
      | cons c cs ih =>
        intro cur
        rw [List.flatMap_cons]
        by_cases h1 : c.toNat = 0xDF
        · have hc : c = Char.ofNat 0xDF := by rw [← h1, Char.ofNat_toNat]
          subst hc
          have hv : sampleUpperChars (Char.ofNat 0xDF) = ['S', 'S'] := by decide
          have hS : ('S' : Char).isDigit = false := by decide
          have hs : (Char.ofNat 0xDF).isDigit = false := by decide
          rw [hv]
          show digitRunsAux ('S' :: 'S' :: cs.flatMap sampleUpperChars) cur = _
          simp only [digitRunsAux, hS, hs, Bool.false_eq_true, if_false, List.isEmpty_nil,
            if_true, ih]
        · by_cases h2 : c.toNat = 0xE9
          · have hc : c = Char.ofNat 0xE9 := by rw [← h2, Char.ofNat_toNat]
            subst hc
            have hv : sampleUpperChars (Char.ofNat 0xE9) = [Char.ofNat 0xC9] := by decide
            have hE : (Char.ofNat 0xC9).isDigit = false := by decide
            have he : (Char.ofNat 0xE9).isDigit = false := by decide
            rw [hv]
            show digitRunsAux (Char.ofNat 0xC9 :: cs.flatMap sampleUpperChars) cur = _
            simp only [digitRunsAux, hE, he, Bool.false_eq_true, if_false, ih]
          · have hv : sampleUpperChars c = [c.toUpper] := by
              unfold sampleUpperChars
              rw [if_neg h1, if_neg h2]
            rw [hv]
            show digitRunsAux (c.toUpper :: cs.flatMap sampleUpperChars) cur = _
            simp only [digitRunsAux, hdig]
            cases hd : c.isDigit with
            | true => simp only [if_true, hfix c hd, ih]
            | false => simp only [Bool.false_eq_true, if_false, ih]
    unfold digitRuns
    exact haux s.data []

/-! # Properties -/



/-! ## Lemmas on strings -/

theorem includes_eq_true_iff (s pat : String) :
    includes s pat = true ↔ pat.data <:+: s.data := by
  unfold includes
  rw [List.any_eq_true, List.infix_iff_prefix_suffix]
  constructor
  · rintro ⟨t, ht, hp⟩
    exact ⟨t, List.isPrefixOf_iff_prefix.mp hp, (List.mem_tails _ _).mp ht⟩
  · rintro ⟨t, hp, ht⟩
    exact ⟨t, (List.mem_tails _ _).mpr ht, List.isPrefixOf_iff_prefix.mpr hp⟩

theorem includes_empty_left (pat : String) (h : pat ≠ "") : includes "" pat = false := by
  rw [Bool.eq_false_iff]
  intro hc
  rw [includes_eq_true_iff] at hc
  have hnil : pat.data = [] := List.eq_nil_of_infix_nil hc
  apply h
  cases pat
  simp_all

/-! ## Lemmas on the record store -/

theorem addMemory_settings [CaseFolding] (st : Storage) (now : Int) (rnd : String)
    (memory : MemoryInput) :
    (addMemory st now rnd memory).ai_settings = st.ai_settings := by
  unfold addMemory
  simp only
  split_ifs <;> rfl

theorem getSettings_addMemory [CaseFolding] (st : Storage) (now : Int) (rnd : String)
    (memory : MemoryInput) :
    getSettings (addMemory st now rnd memory) = getSettings st := by
  unfold getSettings
  rw [addMemory_settings]

theorem spliceFrom_of_nonneg (l : List Memory) (n : Int) (h : 0 ≤ n) :
    spliceFrom l n = l.take n.toNat := by
  unfold spliceFrom
  rw [if_neg (not_lt.mpr h)]

/-- The record list addMemory writes when it accepts the record, for a
non-negative cap. -/
theorem addMemory_accepted [CaseFolding] (st : Storage) (now : Int) (rnd : String)
    (memory : MemoryInput)
    (hbank : ((getSettings st).neverRememberBanking && isBankingSite memory.site) = false)
    (hblock : addMemoryBlocked st.blockedSites memory.site = false)
    (hmax : 0 ≤ (getSettings st).maxMemories) :
    addMemory st now rnd memory =
      { st with ai_memories :=
                  some ((newMemory now rnd memory :: st.memories).take
                    (getSettings st).maxMemories.toNat) } := by
  unfold addMemory
  simp only [hbank, hblock, Bool.false_eq_true, if_false]
  split_ifs with hlen
  · rw [spliceFrom_of_nonneg _ _ hmax]
  · congr 2
    rw [List.take_of_length_le]
    have : ((newMemory now rnd memory :: st.memories).length : Int) ≤
        (getSettings st).maxMemories := not_lt.mp hlen
    omega

theorem addMemory_length_le [CaseFolding] (st : Storage) (now : Int) (rnd : String)
    (memory : MemoryInput)
    (hmax : 0 ≤ (getSettings st).maxMemories)
    (hlen : (st.memories.length : Int) ≤ (getSettings st).maxMemories) :
    ((addMemory st now rnd memory).memories.length : Int) ≤ (getSettings st).maxMemories := by
  by_cases hbank : ((getSettings st).neverRememberBanking && isBankingSite memory.site) = true
  · have : addMemory st now rnd memory = st := by
      unfold addMemory; simp only [hbank, if_true]
    rw [this]; exact hlen
  · by_cases hblock : addMemoryBlocked st.blockedSites memory.site = true
    · have : addMemory st now rnd memory = st := by
        unfold addMemory; simp [hblock]
      rw [this]; exact hlen
    · rw [addMemory_accepted st now rnd memory (by simpa using hbank) (by simpa using hblock) hmax]
      simp only [Storage.memories, Option.getD_some, List.length_take]
      omega

theorem addMemories_invariant [CaseFolding] (calls : List (Int × String × MemoryInput))
    (st : Storage)
    (hmax : 0 ≤ (getSettings st).maxMemories)
    (hlen : (st.memories.length : Int) ≤ (getSettings st).maxMemories) :
    getSettings (addMemories st calls) = getSettings st ∧
      ((addMemories st calls).memories.length : Int) ≤ (getSettings st).maxMemories := by
  induction calls generalizing st with
  | nil => exact ⟨rfl, hlen⟩
  | cons c cs ih =>
    have hs := getSettings_addMemory st c.1 c.2.1 c.2.2
    have hl := addMemory_length_le st c.1 c.2.1 c.2.2 hmax hlen
    have := ih (addMemory st c.1 c.2.1 c.2.2) (by rw [hs]; exact hmax) (by rw [hs]; exact hl)
    simp only [addMemories, List.foldl_cons] at this ⊢
    rw [hs] at this
    exact this

/-! ## Lemmas on the classifier client and the batch loop -/

theorem stringMatchingFallback_map_memory [CaseFolding] (memories : List Memory) (topic : String) :
    (stringMatchingFallback memories topic).map (fun r => r.memory) = memories := by
  simp [stringMatchingFallback, List.map_map, Function.comp_def]

theorem resultsOfAnswer_map_memory (memories : List Memory) (answer : String) :
    (resultsOfAnswer memories answer).map (fun r => r.memory) = memories := by
  unfold resultsOfAnswer
  rw [List.map_map]
  exact List.enum_map_snd memories

/-- On every path the classifier client returns one entry per record, carrying
the records in their order. -/
theorem batchCheck_map_memory [CaseFolding] (st : Storage) (reply : RemoteReply)
    (memories : List Memory)
    (topic : String) :
    (batchCheckMemoriesByTopic st reply memories topic).map (fun r => r.memory) = memories := by
  unfold batchCheckMemoriesByTopic
  simp only
  split_ifs
  · exact stringMatchingFallback_map_memory _ _
  · cases reply <;> simp only [stringMatchingFallback_map_memory, resultsOfAnswer_map_memory]

theorem batchCheck_of_no_credentials [CaseFolding] (st : Storage) (reply : RemoteReply)
    (memories : List Memory) (topic : String) (h : hasCredentials st = false) :
    batchCheckMemoriesByTopic st reply memories topic = stringMatchingFallback memories topic := by
  unfold batchCheckMemoriesByTopic
  unfold hasCredentials at h
  cases hs : st.ai_settings with
  | none => simp
  | some s =>
    rw [hs] at h
    simp only [Bool.not_eq_false'] at h
    simp only [h, if_true]

theorem batchCheck_of_failed_request [CaseFolding] (st : Storage) (reply : RemoteReply)
    (memories : List Memory) (topic : String) (h : reply = .fetchThrew ∨ reply = .notOk) :
    batchCheckMemoriesByTopic st reply memories topic = stringMatchingFallback memories topic := by
  unfold batchCheckMemoriesByTopic
  simp only
  split_ifs
  · rfl
  · rcases h with h | h <;> subst h <;> rfl

theorem take_drop_batch (all : List Memory) (i : Nat) :
    (all.drop i).take batchSize ++ all.drop (i + batchSize) = all.drop i := by
  rw [← List.drop_drop]
  exact List.take_append_drop _ _

/-- With enough fuel the batch loop returns, and the accumulated results carry
the records from index `i` on, in order, after those accumulated before. -/
theorem batchLoop_map_memory [CaseFolding] (st : Storage) (remote : Nat → RemoteReply)
    (topic : String)
    (all : List Memory) (fuel : Nat) :
    ∀ (i : Nat) (acc : List MatchResult × List (List Memory)),
      all.length ≤ i + batchSize * fuel →
      ∃ r, batchLoop st remote topic all fuel i acc = some r ∧
        r.1.map (fun x => x.memory) = acc.1.map (fun x => x.memory) ++ all.drop i := by
  induction fuel with
  | zero =>
    intro i acc h
    have hle : all.length ≤ i := by simpa using h
    refine ⟨acc, ?_, ?_⟩
    · simp [batchLoop, not_lt.mpr hle]
    · rw [List.drop_eq_nil_of_le hle, List.append_nil]
  | succ fuel ih =>
    intro i acc h
    by_cases hi : i < all.length
    · obtain ⟨r, hr, hm⟩ := ih (i + batchSize)
        (acc.1 ++ batchCheckMemoriesByTopic st (remote (i / batchSize))
          ((all.drop i).take batchSize) topic, acc.2 ++ [(all.drop i).take batchSize])
        (by rw [Nat.mul_succ] at h; omega)
      refine ⟨r, ?_, ?_⟩
      · simp only [batchLoop, hi, if_true]
        exact hr
      · rw [hm]
        simp only [List.map_append, batchCheck_map_memory, List.append_assoc, take_drop_batch]
    · refine ⟨acc, ?_, ?_⟩
      · simp [batchLoop, hi]
      · rw [List.drop_eq_nil_of_le (not_lt.mp hi), List.append_nil]

/-- Without credentials the batch loop accumulates the string-matching
fallback of the records from index `i` on. -/
theorem batchLoop_no_credentials [CaseFolding] (st : Storage) (remote : Nat → RemoteReply)
    (topic : String)
    (all : List Memory) (hcred : hasCredentials st = false) (fuel : Nat) :
    ∀ (i : Nat) (acc : List MatchResult × List (List Memory)),
      all.length ≤ i + batchSize * fuel →
      ∃ r, batchLoop st remote topic all fuel i acc = some r ∧
        r.1 = acc.1 ++ stringMatchingFallback (all.drop i) topic := by
  induction fuel with
  | zero =>
    intro i acc h
    have hle : all.length ≤ i := by simpa using h
    refine ⟨acc, ?_, ?_⟩
    · simp [batchLoop, not_lt.mpr hle]
    · rw [List.drop_eq_nil_of_le hle]
      simp [stringMatchingFallback]
  | succ fuel ih =>
    intro i acc h
    by_cases hi : i < all.length
    · obtain ⟨r, hr, hm⟩ := ih (i + batchSize)
        (acc.1 ++ batchCheckMemoriesByTopic st (remote (i / batchSize))
          ((all.drop i).take batchSize) topic, acc.2 ++ [(all.drop i).take batchSize])
        (by rw [Nat.mul_succ] at h; omega)
      refine ⟨r, ?_, ?_⟩
      · simp only [batchLoop, hi, if_true]
        exact hr
      · rw [hm, batchCheck_of_no_credentials _ _ _ _ hcred]
        simp only [stringMatchingFallback, List.append_assoc, ← List.map_append,
          take_drop_batch]
    · refine ⟨acc, ?_, ?_⟩
      · simp [batchLoop, hi]
      · rw [List.drop_eq_nil_of_le (not_lt.mp hi)]
        simp [stringMatchingFallback]

/-- The run of deleteByTopic on a non-empty topic and a non-empty store, with
enough fuel, in terms of the accumulated results. -/
theorem deleteByTopic_run [CaseFolding] (fuel : Nat) (st : Storage) (remote : Nat → RemoteReply)
    (t : String) (ht : t ≠ "") (hne : st.memories ≠ [])
    (hfuel : st.memories.length ≤ batchSize * fuel) :
    ∃ run, deleteByTopic fuel st remote (.string t) = some run ∧
      run.allResults.map (fun r => r.memory) = st.memories ∧
      (∃ batches, batchLoop st remote t st.memories fuel 0 ([], []) =
        some (run.allResults, batches)) ∧
      run.storage = { st with ai_memories := some run.remainingMemories } ∧
      run.outcome = .returned
        { deleted := run.matchingMemories.length,
          remaining := run.remainingMemories.length,
          deletedIds := some (run.matchingMemories.map (fun m => m.id)) } := by
  obtain ⟨r, hr, hm⟩ := batchLoop_map_memory st remote t st.memories fuel 0 ([], [])
    (by omega)
  have hlen : ¬ st.memories.length = 0 := by
    intro h0
    exact hne (List.length_eq_zero.mp h0)
  obtain ⟨allResults, batches⟩ := r
  have hd : ∃ run, deleteByTopic fuel st remote (.string t) = some run ∧
      run.allResults = allResults := by
    simp only [deleteByTopic, ht, if_false, hlen, hr]
    exact ⟨_, rfl, rfl⟩
  obtain ⟨run, hrun, hall⟩ := hd
  refine ⟨run, hrun, ?_, ⟨batches, ?_⟩, ?_, ?_⟩
  · rw [hall]
    simpa using hm
  · rw [hall]
    exact hr
  · simp only [deleteByTopic, ht, if_false, hlen, hr, Option.some.injEq] at hrun
    subst hrun
    rfl
  · simp only [deleteByTopic, ht, if_false, hlen, hr, Option.some.injEq] at hrun
    subst hrun
    rfl

theorem selectBy_map (rs : List MatchResult) (b : Bool) :
    selectBy (rs.map (fun r => r.memory)) (rs.map (fun r => r.matched)) b =
      (rs.filter (fun r => r.matched == b)).map (fun r => r.memory) := by
  unfold selectBy
  rw [List.zip_map', List.filter_map, List.map_map]
  rfl

/-! ## Lemmas on trimming and case folding -/

/-- Lower-casing the empty text gives the empty text. -/
theorem toLowerCase_empty [CaseFolding] : toLowerCase "" = "" := by
  rw [CaseFolding.toLowerCase_ascii "" (by decide)]
  rfl

/-- Upper-casing the empty text gives the empty text. -/
theorem toUpperCase_empty [CaseFolding] : toUpperCase "" = "" := by
  rw [CaseFolding.toUpperCase_ascii "" (by decide)]
  rfl

/-- On a text of ASCII characters, lower-casing folds the ASCII letters. -/
theorem toLowerCase_of_ascii [CaseFolding] (s : String) (h : isAscii s = true) :
    toLowerCase s = asciiLowerCase s :=
  CaseFolding.toLowerCase_ascii s h

/-- On a text of ASCII characters, upper-casing folds the ASCII letters. -/
theorem toUpperCase_of_ascii [CaseFolding] (s : String) (h : isAscii s = true) :
    toUpperCase s = asciiUpperCase s :=
  CaseFolding.toUpperCase_ascii s h

theorem trim_toLowerCase [CaseFolding] (s : String) : trim (toLowerCase s) = toLowerCase (trim s) :=
  CaseFolding.trim_toLowerCase s

theorem toLowerCase_ne_empty [CaseFolding] (s : String) (h : s ≠ "") : toLowerCase s ≠ "" :=
  CaseFolding.toLowerCase_ne_empty s h

/-- The keyword topic of a text of ASCII characters is the one computed with
the folding of the ASCII letters. -/
theorem extractTopicFromKeywords_of_ascii [CaseFolding] (content : String)
    (h : isAscii content = true) :
    extractTopicFromKeywords content = @extractTopicFromKeywords asciiCaseFolding content := by
  unfold extractTopicFromKeywords
  rw [toLowerCase_of_ascii content h]
  rfl

theorem chatMemory_of_ascii [CaseFolding] (id : String) (timestamp : Int) (content : String)
    (h : isAscii content = true) :
    chatMemory id timestamp content = @chatMemory asciiCaseFolding id timestamp content := by
  unfold chatMemory
  rw [extractTopicFromKeywords_of_ascii content h]

theorem scenarioMemories_of_ascii [CaseFolding] :
    scenarioMemories = @scenarioMemories asciiCaseFolding := by
  unfold scenarioMemories
  rw [chatMemory_of_ascii "mem_3" 3 "flight to Tokyo" (by decide),
    chatMemory_of_ascii "mem_2" 2 "python debugging tips" (by decide),
    chatMemory_of_ascii "mem_1" 1 "pasta recipe" (by decide)]

theorem scenarioStore_of_ascii [CaseFolding] : scenarioStore = @scenarioStore asciiCaseFolding := by
  unfold scenarioStore
  rw [scenarioMemories_of_ascii]

/-- For a query and a label of ASCII characters, containment of the
lower-cased query in the lower-cased label is the one computed with the
folding of the ASCII letters. -/
theorem labelContainsTopic_of_ascii [CaseFolding] (t : String) (m : Memory) (ht : isAscii t = true)
    (hm : isAscii (m.topic.getD "") = true) :
    labelContainsTopic t m = @labelContainsTopic asciiCaseFolding t m := by
  unfold labelContainsTopic
  cases h : m.topic with
  | none => rfl
  | some label =>
    rw [h] at hm
    simp only
    rw [toLowerCase_of_ascii t ht, toLowerCase_of_ascii label hm]
    rfl

/-- For a query without surrounding whitespace that is not empty, the test of
the fallback and containment of the lower-cased query in the lower-cased label
agree. -/
theorem topicLabelIncludes_eq_labelContainsTopic [CaseFolding] (topic : String) (m : Memory)
    (hne : topic ≠ "") (htrim : trim topic = topic) :
    topicLabelIncludes m (trim (toLowerCase topic)) = labelContainsTopic topic m := by
  rw [trim_toLowerCase, htrim]
  unfold topicLabelIncludes labelContainsTopic
  cases m.topic with
  | none => rfl
  | some label =>
    simp only
    by_cases hl : label = ""
    · subst hl
      simp only [if_true]
      symm
      rw [decide_eq_false_iff_not]
      intro hinf
      rw [toLowerCase_empty] at hinf
      have hnil : (toLowerCase topic).data = [] := List.eq_nil_of_infix_nil hinf
      apply toLowerCase_ne_empty topic hne
      cases hlow : toLowerCase topic
      simp_all
    · simp only [hl, if_false]
      rw [Bool.eq_iff_iff, includes_eq_true_iff, decide_eq_true_iff]

/-! ## The record store and the privacy filter: claims C3 to C8 -/

/-- C3 (the code departs from the claim). The blocklist has the pattern
example.com and the record's site is Shop.Example.com: isBlockedSite, which
lower-cases both sides, reports the site as blocked, yet addMemory, which
compares with a plain `includes`, creates the record. -/
theorem C3_addMemory_blocklist_is_case_sensitive :
    isBlockedSite blockedExampleStore blockedExampleInput.site = true ∧
    (toLowerCase "example.com").data <:+: (toLowerCase "Shop.Example.com").data ∧
    addMemory blockedExampleStore 1700000000000 "k3x9q2a1b" blockedExampleInput =
      { blockedExampleStore with
        ai_memories := some [newMemory 1700000000000 "k3x9q2a1b" blockedExampleInput] } ∧
    addMemory blockedExampleStore 1700000000000 "k3x9q2a1b" blockedExampleInput ≠
      blockedExampleStore := by
  decide

/-- C4. With neverRememberBanking enabled, addMemory leaves the storage as it
was for every record whose lower-cased site contains one of the eleven banking
patterns; isBankingSite is true exactly for a non-empty site whose lower-cased
form contains one of the patterns, and false for an absent or an empty site;
the patterns are the eleven listed ones. The lower-cased form is that of the
runtime: the statement holds for every case folding, so also where a
character outside ASCII is lower-cased to a letter of a pattern. -/
theorem C4_banking_site_rejected [CaseFolding] :
    (∀ (st : Storage) (now : Int) (rnd : String) (memory : MemoryInput) (site : String),
      (getSettings st).neverRememberBanking = true →
      memory.site = some site →
      (∃ p ∈ BANKING_PATTERNS, p.data <:+: (toLowerCase site).data) →
      addMemory st now rnd memory = st) ∧
    (∀ url : Option String, isBankingSite url = true ↔
      ∃ s, url = some s ∧ s ≠ "" ∧ ∃ p ∈ BANKING_PATTERNS, p.data <:+: (toLowerCase s).data) ∧
    isBankingSite none = false ∧ isBankingSite (some "") = false ∧
    BANKING_PATTERNS = ["bank", "banking", "chase", "wellsfargo", "bofa", "citibank",
      "paypal", "venmo", "stripe", "payment", "wallet"] := by
  have hiff : ∀ url : Option String, isBankingSite url = true ↔
      ∃ s, url = some s ∧ s ≠ "" ∧
        ∃ p ∈ BANKING_PATTERNS, p.data <:+: (toLowerCase s).data := by
    intro url
    cases url with
    | none => simp [isBankingSite]
    | some u =>
      by_cases hu : u = ""
      · simp [isBankingSite, hu]
      · simp only [isBankingSite, hu, if_false, List.any_eq_true, includes_eq_true_iff,
          Option.some.injEq, exists_eq_left', ne_eq, not_false_eq_true, true_and]
  refine ⟨?_, hiff, rfl, rfl, rfl⟩
  intro st now rnd memory site hset hsite hpat
  have hne : site ≠ "" := by
    rintro rfl
    obtain ⟨p, hp, hinf⟩ := hpat
    rw [toLowerCase_empty] at hinf
    have hnil : p.data = [] := List.eq_nil_of_infix_nil hinf
    have hp' : p = "" := by cases p; simp_all
    subst hp'
    revert hp
    decide
  have hb : isBankingSite memory.site = true := by
    rw [hsite]
    exact (hiff (some site)).mpr ⟨site, rfl, hne, hpat⟩
  unfold addMemory
  simp [hset, hb]

/-- C4, at the record of www.MyBank.com under the default settings. -/
theorem C4_banking_site_rejected_witness :
    addMemory blockedExampleStore 1700000000000 "k3x9q2a1b" bankingExampleInput =
      blockedExampleStore :=
  C4_banking_site_rejected.1 blockedExampleStore 1700000000000 "k3x9q2a1b"
    bankingExampleInput "www.MyBank.com" (by decide) rfl ⟨"bank", by decide, by decide⟩

/-- C5. From an empty store and under settings with maxMemories > 0, after
each call of any sequence of addMemory calls the store holds at most
maxMemories records (and the settings are still the same). -/
theorem C5_store_size_bounded [CaseFolding] (st : Storage)
    (calls : List (Int × String × MemoryInput))
    (hempty : st.memories = []) (hmax : 0 < (getSettings st).maxMemories) :
    ∀ k : Nat,
      getSettings (addMemories st (calls.take k)) = getSettings st ∧
      ((addMemories st (calls.take k)).memories.length : Int) ≤ (getSettings st).maxMemories := by
  intro k
  apply addMemories_invariant _ _ (le_of_lt hmax)
  rw [hempty]
  simpa using le_of_lt hmax

/-- C5, at three insertions into an empty store capped at two records. -/
theorem C5_store_size_bounded_witness :
    ((addMemories (capTwoStore [])
        [(1, "a", chatInput "pasta recipe"), (2, "b", chatInput "python debugging tips"),
         (3, "c", chatInput "flight to Tokyo")]).memories.length : Int) ≤ 2 :=
  (C5_store_size_bounded (capTwoStore [])
    [(1, "a", chatInput "pasta recipe"), (2, "b", chatInput "python debugging tips"),
     (3, "c", chatInput "flight to Tokyo")] (by decide) (by decide) 3).2

/-- C6. When addMemory accepts a record and maxMemories > 0, the store
afterwards is the first maxMemories elements of the new record followed by the
previous store in unchanged order: the new record is at the head and what is
removed is a tail segment of that list (the oldest by insertion), whatever the
timestamps are; nothing else in the storage changes. -/
theorem C6_insert_at_head_truncate_tail [CaseFolding] (st : Storage) (now : Int) (rnd : String)
    (memory : MemoryInput)
    (hbank : ((getSettings st).neverRememberBanking && isBankingSite memory.site) = false)
    (hblock : addMemoryBlocked st.blockedSites memory.site = false)
    (hmax : 0 < (getSettings st).maxMemories) :
    addMemory st now rnd memory =
      { st with ai_memories := some ((newMemory now rnd memory :: st.memories).take
                  (getSettings st).maxMemories.toNat) } ∧
    (addMemory st now rnd memory).memories.head? = some (newMemory now rnd memory) ∧
    (addMemory st now rnd memory).memories ++
        (newMemory now rnd memory :: st.memories).drop (getSettings st).maxMemories.toNat =
      newMemory now rnd memory :: st.memories := by
  have h := addMemory_accepted st now rnd memory hbank hblock (le_of_lt hmax)
  refine ⟨h, ?_, ?_⟩
  · rw [h]
    obtain ⟨n, hn⟩ : ∃ n, (getSettings st).maxMemories.toNat = n + 1 :=
      ⟨(getSettings st).maxMemories.toNat - 1, by omega⟩
    simp [Storage.memories, hn]
  · rw [h]
    simp [Storage.memories, List.take_append_drop]

/-- C6, at a full store of two records whose older timestamps sit at the
head: the record at the tail is the one removed, though its timestamp is the
newest. -/
theorem C6_insert_at_head_truncate_tail_witness :
    (addMemory (capTwoStore [newMemory 10 "a" (chatInput "pasta recipe"),
        newMemory 90 "b" (chatInput "flight to Tokyo")]) 50 "c"
        (chatInput "python debugging tips")).memories =
      [newMemory 50 "c" (chatInput "python debugging tips"),
       newMemory 10 "a" (chatInput "pasta recipe")] := by
  have h := (C6_insert_at_head_truncate_tail
    (capTwoStore [newMemory 10 "a" (chatInput "pasta recipe"),
      newMemory 90 "b" (chatInput "flight to Tokyo")]) 50 "c"
    (chatInput "python debugging tips") (by decide) (by decide) (by decide)).1
  rw [h]
  decide

/-- C7 (the claim as stated fails). A record whose timestamp is exactly T is
removed by deleteByTimeRange(0, T): the store with the single timestamp 250 is
empty after deleteByTimeRange(0, 250), whereas the records with
timestamp >= 250 are the whole store. -/
theorem C7_upper_bound_is_inclusive :
    (deleteByTimeRange (storeWithTimestamps [250]) 0 250).memories = [] ∧
    (storeWithTimestamps [250]).memories.filter (fun m => decide (m.timestamp ≥ 250)) =
      (storeWithTimestamps [250]).memories ∧
    (deleteByTimeRange (storeWithTimestamps [250]) 0 250).memories ≠
      (storeWithTimestamps [250]).memories.filter (fun m => decide (m.timestamp ≥ 250)) := by
  decide

/-- C7 (amended). For a store with non-negative timestamps and every T,
deleteByTimeRange(0, T) keeps exactly the records with timestamp > T, in
order, and removes exactly those with timestamp <= T (both bounds of the range
are inclusive); nothing else in the storage changes; timestamps
[100, 200, 300] with T = 250 leave [300]. -/
theorem C7_deleteByTimeRange_from_zero (st : Storage) (T : Int)
    (hnonneg : ∀ m ∈ st.memories, 0 ≤ m.timestamp) :
    deleteByTimeRange st 0 T =
      { st with ai_memories := some (st.memories.filter (fun m => decide (T < m.timestamp))) } ∧
    (∀ m, m ∈ (deleteByTimeRange st 0 T).memories ↔ m ∈ st.memories ∧ T < m.timestamp) ∧
    List.Sublist (deleteByTimeRange st 0 T).memories st.memories ∧
    ((deleteByTimeRange (storeWithTimestamps [100, 200, 300]) 0 250).memories.map
      (fun m => m.timestamp) = [300]) := by
  have hfilter : st.memories.filter (fun m => m.timestamp < 0 || m.timestamp > T) =
      st.memories.filter (fun m => decide (T < m.timestamp)) := by
    apply List.filter_congr
    intro m hm
    have := hnonneg m hm
    simp only [gt_iff_lt, Bool.or_eq_true, decide_eq_true_eq]
    have h0 : decide (m.timestamp < 0) = false := by
      rw [decide_eq_false_iff_not]; omega
    rw [h0, Bool.false_or]
  have hmain : deleteByTimeRange st 0 T =
      { st with ai_memories := some (st.memories.filter (fun m => decide (T < m.timestamp))) } := by
    unfold deleteByTimeRange
    rw [hfilter]
  refine ⟨hmain, ?_, ?_, by decide⟩
  · intro m
    rw [hmain]
    simp [Storage.memories, List.mem_filter]
  · rw [hmain]
    simp only [Storage.memories, Option.getD_some]
    exact List.filter_sublist _

/-- C7 (amended), at the timestamps [100, 250, 300] and T = 250. -/
theorem C7_deleteByTimeRange_from_zero_witness :
    (deleteByTimeRange (storeWithTimestamps [100, 250, 300]) 0 250).memories =
      (storeWithTimestamps [300]).memories := by
  have h := (C7_deleteByTimeRange_from_zero (storeWithTimestamps [100, 250, 300]) 250
    (by decide)).1
  rw [h]
  decide

/-- C8. Deleting a time range twice leaves the same storage as deleting it
once, for every store and every pair of bounds; so does running the retention
sweep twice at the same clock value. -/
theorem C8_deleteByTimeRange_idempotent (st : Storage) (startTime endTime now : Int) :
    deleteByTimeRange (deleteByTimeRange st startTime endTime) startTime endTime =
      deleteByTimeRange st startTime endTime ∧
    autoCleanup (autoCleanup st now) now = autoCleanup st now := by
  have h : ∀ (s : Storage) (a b : Int),
      deleteByTimeRange (deleteByTimeRange s a b) a b = deleteByTimeRange s a b := by
    intro s a b
    simp [deleteByTimeRange, Storage.memories, List.filter_filter]
  refine ⟨h st startTime endTime, ?_⟩
  unfold autoCleanup
  by_cases hd : (getSettings st).autoDeleteDays > 0
  · have hs : getSettings (deleteByTimeRange st 0
        (now - (getSettings st).autoDeleteDays * 24 * 60 * 60 * 1000)) = getSettings st := rfl
    simp only [hd, if_true, hs]
    exact h _ _ _
  · simp only [hd, if_false]

theorem fallback_matching [CaseFolding] (memories : List Memory) (topic : String) :
    ((stringMatchingFallback memories topic).filter (fun r => r.matched)).map
        (fun r => r.memory) =
      memories.filter (fun m => topicLabelIncludes m (trim (toLowerCase topic))) := by
  simp only [stringMatchingFallback, List.filter_map, List.map_map]
  exact List.map_id _

theorem fallback_remaining [CaseFolding] (memories : List Memory) (topic : String) :
    ((stringMatchingFallback memories topic).filter (fun r => !r.matched)).map
        (fun r => r.memory) =
      memories.filter (fun m => !topicLabelIncludes m (trim (toLowerCase topic))) := by
  simp only [stringMatchingFallback, List.filter_map, List.map_map]
  exact List.map_id _

theorem topicLabelIncludes_iff [CaseFolding] (m : Memory) (topicLower : String) :
    topicLabelIncludes m topicLower = true ↔
      ∃ label, m.topic = some label ∧ label ≠ "" ∧
        topicLower.data <:+: (toLowerCase label).data := by
  unfold topicLabelIncludes
  cases m.topic with
  | none => simp
  | some l =>
    by_cases hl : l = ""
    · simp [hl]
    · simp [hl, includes_eq_true_iff]

/-! ## Delete by topic: claims C1, C2, C9 and C10 -/

/-- C1. For every non-empty topic string, every non-empty store and every
behaviour of the remote classifier, deleteByTopic returns (given fuel for the
batch loop) and its matched and remaining lists partition the store by
position: some list of flags, one per record, puts the records flagged true,
in order, in the matched list and the others, in order, in the remaining list;
together the two lists are a rearrangement of the store, and deleted +
remaining is the number of records. -/
theorem C1_deleteByTopic_partition [CaseFolding] (fuel : Nat) (st : Storage)
    (remote : Nat → RemoteReply)
    (t : String) (ht : t ≠ "") (hne : st.memories ≠ [])
    (hfuel : st.memories.length ≤ batchSize * fuel) :
    ∃ run flags, deleteByTopic fuel st remote (.string t) = some run ∧
      flags.length = st.memories.length ∧
      run.matchingMemories = selectBy st.memories flags true ∧
      run.remainingMemories = selectBy st.memories flags false ∧
      List.Perm (run.matchingMemories ++ run.remainingMemories) st.memories ∧
      ∃ res, run.outcome = .returned res ∧
        res.deleted + res.remaining = st.memories.length := by
  obtain ⟨run, hrun, hmem, -, -, hout⟩ := deleteByTopic_run fuel st remote t ht hne hfuel
  have hperm : List.Perm (run.matchingMemories ++ run.remainingMemories) st.memories := by
    have hp := (List.filter_append_perm (fun r : MatchResult => r.matched)
      run.allResults).map (fun r => r.memory)
    rw [List.map_append, hmem] at hp
    exact hp
  refine ⟨run, run.allResults.map (fun r => r.matched), hrun, ?_, ?_, ?_, hperm, _, hout, ?_⟩
  · rw [← hmem, List.length_map, List.length_map]
  · rw [← hmem, selectBy_map]
    unfold DeleteRun.matchingMemories
    congr 1
    apply List.filter_congr
    intro r _
    simp
  · rw [← hmem, selectBy_map]
    unfold DeleteRun.remainingMemories
    congr 1
    apply List.filter_congr
    intro r _
    cases r.matched <;> rfl
  · have := hperm.length_eq
    simpa using this

/-- C1, at the 45-record store with a remote that answers the first batch,
fails on the second and answers NONE on the third. -/
theorem C1_deleteByTopic_partition_witness :
    ∃ run flags, deleteByTopic 3 largeStore sampleRemote (.string "cooking") = some run ∧
      flags.length = largeStore.memories.length ∧
      run.matchingMemories = selectBy largeStore.memories flags true ∧
      run.remainingMemories = selectBy largeStore.memories flags false ∧
      List.Perm (run.matchingMemories ++ run.remainingMemories) largeStore.memories ∧
      ∃ res, run.outcome = .returned res ∧
        res.deleted + res.remaining = largeStore.memories.length :=
  C1_deleteByTopic_partition 3 largeStore sampleRemote "cooking" (by decide) (by decide)
    (by decide)

/-- C2. For every non-empty topic string and non-empty store, when
deleteByTopic returns, the classifier's verdicts come one per record in store
order, the stored record set has been replaced by exactly the records not
marked as matching, in their original relative order, nothing else in the
storage has changed, and the result carries deleted = the number of marked
records, remaining = the number of stored records and deletedIds = the ids of
the marked records in their original relative order. -/
theorem C2_deleteByTopic_persists_remaining [CaseFolding] (fuel : Nat) (st : Storage)
    (remote : Nat → RemoteReply) (t : String) (ht : t ≠ "") (hne : st.memories ≠ [])
    (hfuel : st.memories.length ≤ batchSize * fuel) :
    ∃ run, deleteByTopic fuel st remote (.string t) = some run ∧
      run.allResults.map (fun r => r.memory) = st.memories ∧
      run.storage =
        { st with ai_memories :=
                    some (selectBy st.memories (run.allResults.map (fun r => r.matched)) false) } ∧
      run.outcome = .returned
        { deleted := (selectBy st.memories (run.allResults.map (fun r => r.matched)) true).length,
          remaining :=
            (selectBy st.memories (run.allResults.map (fun r => r.matched)) false).length,
          deletedIds := some
            ((selectBy st.memories (run.allResults.map (fun r => r.matched)) true).map
              (fun m => m.id)) } ∧
      run.storage.memories.length =
        (selectBy st.memories (run.allResults.map (fun r => r.matched)) false).length ∧
      List.Sublist (selectBy st.memories (run.allResults.map (fun r => r.matched)) false)
        st.memories ∧
      List.Sublist (selectBy st.memories (run.allResults.map (fun r => r.matched)) true)
        st.memories := by
  obtain ⟨run, hrun, hmem, -, hst, hout⟩ := deleteByTopic_run fuel st remote t ht hne hfuel
  have htrue : selectBy st.memories (run.allResults.map (fun r => r.matched)) true =
      run.matchingMemories := by
    rw [← hmem, selectBy_map]
    unfold DeleteRun.matchingMemories
    congr 1
    apply List.filter_congr
    intro r _
    simp
  have hfalse : selectBy st.memories (run.allResults.map (fun r => r.matched)) false =
      run.remainingMemories := by
    rw [← hmem, selectBy_map]
    unfold DeleteRun.remainingMemories
    congr 1
    apply List.filter_congr
    intro r _
    cases r.matched <;> rfl
  refine ⟨run, hrun, hmem, ?_, ?_, ?_, ?_, ?_⟩
  · rw [hfalse]; exact hst
  · rw [htrue, hfalse]; exact hout
  · rw [hfalse, hst]; rfl
  · rw [hfalse]
    unfold DeleteRun.remainingMemories
    rw [← hmem]
    exact (List.filter_sublist _).map _
  · rw [htrue]
    unfold DeleteRun.matchingMemories
    rw [← hmem]
    exact (List.filter_sublist _).map _

/-- C2, at the 45-record store with a remote that answers the first batch,
fails on the second and answers NONE on the third. -/
theorem C2_deleteByTopic_persists_remaining_witness :
    ∃ run, deleteByTopic 3 largeStore sampleRemote (.string "cooking") = some run ∧
      run.allResults.map (fun r => r.memory) = largeStore.memories ∧
      run.storage =
        { largeStore with
          ai_memories := some
            (selectBy largeStore.memories (run.allResults.map (fun r => r.matched)) false) } :=
  (C2_deleteByTopic_persists_remaining 3 largeStore sampleRemote "cooking" (by decide)
    (by decide) (by decide)).imp (fun _ h => ⟨h.1, h.2.1, h.2.2.1⟩)

/-- C9 (the claim as stated fails). Without credentials, the record labelled
cooking is marked as matching the topic " cooking" (with a leading blank),
though the label does not contain that string under case-insensitive
containment: the code trims the topic first. And a record whose stored label
is the empty string is not marked for the empty topic, which every string
contains. -/
theorem C9_fallback_trims_the_topic :
    batchCheckMemoriesByTopic scenarioStore .fetchThrew
        [chatMemory "mem_1" 1 "pasta recipe"] " cooking" =
      [{ memory := chatMemory "mem_1" 1 "pasta recipe", matched := true }] ∧
    (chatMemory "mem_1" 1 "pasta recipe").topic = some "cooking" ∧
    ¬ ((toLowerCase " cooking").data <:+: (toLowerCase "cooking").data) ∧
    batchCheckMemoriesByTopic scenarioStore .fetchThrew
        [{ chatMemory "mem_0" 0 "hello" with topic := some "" }] "" =
      [{ memory := { chatMemory "mem_0" 0 "hello" with topic := some "" }, matched := false }] ∧
    (toLowerCase "").data <:+: (toLowerCase "").data := by
  decide

/-- C9 (amended). When the remote classifier is unreachable (a credential is
missing, or the request throws or comes back with a failure status), for every
list of records and every topic string batchCheckMemoriesByTopic returns the
records in order and marks a record as matching exactly when it has a
non-empty stored topic label whose lower-cased form contains the lower-cased,
trimmed topic string; a record without a stored label never matches. The
lower-cased forms are those of the runtime: the statement holds for every case
folding, for labels and topics outside ASCII as well. -/
theorem C9_fallback_matches_trimmed_topic [CaseFolding] (st : Storage) (reply : RemoteReply)
    (memories : List Memory) (topic : String)
    (hdown : hasCredentials st = false ∨ reply = .fetchThrew ∨ reply = .notOk) :
    (batchCheckMemoriesByTopic st reply memories topic).map (fun r => r.memory) = memories ∧
    (∀ r ∈ batchCheckMemoriesByTopic st reply memories topic,
      (r.matched = true ↔
        ∃ label, r.memory.topic = some label ∧ label ≠ "" ∧
          (trim (toLowerCase topic)).data <:+: (toLowerCase label).data)) ∧
    (∀ r ∈ batchCheckMemoriesByTopic st reply memories topic,
      r.memory.topic = none → r.matched = false) := by
  have hfb : batchCheckMemoriesByTopic st reply memories topic =
      stringMatchingFallback memories topic := by
    rcases hdown with h | h
    · exact batchCheck_of_no_credentials st reply memories topic h
    · exact batchCheck_of_failed_request st reply memories topic h
  have hiff : ∀ r ∈ batchCheckMemoriesByTopic st reply memories topic,
      (r.matched = true ↔
        ∃ label, r.memory.topic = some label ∧ label ≠ "" ∧
          (trim (toLowerCase topic)).data <:+: (toLowerCase label).data) := by
    intro r hr
    rw [hfb] at hr
    simp only [stringMatchingFallback, List.mem_map] at hr
    obtain ⟨m, -, rfl⟩ := hr
    exact topicLabelIncludes_iff m _
  refine ⟨batchCheck_map_memory st reply memories topic, hiff, ?_⟩
  intro r hr hnone
  rw [Bool.eq_false_iff]
  intro hm
  obtain ⟨label, hl, -⟩ := (hiff r hr).mp hm
  rw [hnone] at hl
  cases hl

/-- C9 (amended), at the scenario's records with a request that comes back
with a failure status, for the topic " Cooking ". -/
theorem C9_fallback_matches_trimmed_topic_witness :
    (batchCheckMemoriesByTopic largeStore .notOk scenarioMemories " Cooking ").map
      (fun r => r.memory) = scenarioMemories :=
  (C9_fallback_matches_trimmed_topic largeStore .notOk scenarioMemories " Cooking "
    (Or.inr (Or.inr rfl))).1

/-- C10. Without credentials, for every non-empty store and every non-empty
query without leading or trailing whitespace, deleteByTopic returns (given
fuel for the batch loop), whatever the remote would answer; the deleted
records are exactly those whose stored topic label contains the query
case-insensitively, the stored records afterwards are exactly the others, in
order, across all batches, and the result counts and names them. For the three
records labelled by extractTopicFromKeywords from "pasta recipe", "python
debugging tips" and "flight to Tokyo" (cooking, programming, travel) and the
query "cooking", the matched list is the pasta record and the other two
remain. Case-insensitive containment is containment of the lower-cased query
in the lower-cased label, both lower-cased by the runtime: the statement holds
for every case folding, for labels and queries outside ASCII as well. -/
theorem C10_deleteByTopic_without_credentials [CaseFolding] :
    (∀ (fuel : Nat) (st : Storage) (remote : Nat → RemoteReply) (t : String),
      hasCredentials st = false → st.memories ≠ [] → t ≠ "" → trim t = t →
      st.memories.length ≤ batchSize * fuel →
      ∃ run, deleteByTopic fuel st remote (.string t) = some run ∧
        run.matchingMemories = st.memories.filter (labelContainsTopic t) ∧
        run.storage =
          { st with ai_memories :=
                      some (st.memories.filter (fun m => !labelContainsTopic t m)) } ∧
        run.outcome = .returned
          { deleted := (st.memories.filter (labelContainsTopic t)).length,
            remaining := (st.memories.filter (fun m => !labelContainsTopic t m)).length,
            deletedIds := some ((st.memories.filter (labelContainsTopic t)).map
              (fun m => m.id)) }) ∧
    (scenarioMemories.map (fun m => m.topic) =
        [some "travel", some "programming", some "cooking"] ∧
      ∀ remote : Nat → RemoteReply,
        ∃ run, deleteByTopic 1 scenarioStore remote (.string "cooking") = some run ∧
          run.matchingMemories = [chatMemory "mem_1" 1 "pasta recipe"] ∧
          run.storage.memories = [chatMemory "mem_3" 3 "flight to Tokyo",
            chatMemory "mem_2" 2 "python debugging tips"]) := by
  have hgen : ∀ (fuel : Nat) (st : Storage) (remote : Nat → RemoteReply) (t : String),
      hasCredentials st = false → st.memories ≠ [] → t ≠ "" → trim t = t →
      st.memories.length ≤ batchSize * fuel →
      ∃ run, deleteByTopic fuel st remote (.string t) = some run ∧
        run.matchingMemories = st.memories.filter (labelContainsTopic t) ∧
        run.storage =
          { st with ai_memories :=
                      some (st.memories.filter (fun m => !labelContainsTopic t m)) } ∧
        run.outcome = .returned
          { deleted := (st.memories.filter (labelContainsTopic t)).length,
            remaining := (st.memories.filter (fun m => !labelContainsTopic t m)).length,
            deletedIds := some ((st.memories.filter (labelContainsTopic t)).map
              (fun m => m.id)) } := by
    intro fuel st remote t hcred hne ht htrim hfuel
    obtain ⟨run, hrun, -, ⟨batches, hloop⟩, hst, hout⟩ :=
      deleteByTopic_run fuel st remote t ht hne hfuel
    obtain ⟨r, hr, hres⟩ := batchLoop_no_credentials st remote t st.memories hcred fuel 0
      ([], []) (by omega)
    rw [hloop] at hr
    cases hr
    have hall : run.allResults = stringMatchingFallback st.memories t := by
      simpa using hres
    have hmatch : run.matchingMemories = st.memories.filter (labelContainsTopic t) := by
      unfold DeleteRun.matchingMemories
      rw [hall, fallback_matching]
      apply List.filter_congr
      intro m _
      exact topicLabelIncludes_eq_labelContainsTopic t m ht htrim
    have hrem : run.remainingMemories =
        st.memories.filter (fun m => !labelContainsTopic t m) := by
      unfold DeleteRun.remainingMemories
      rw [hall, fallback_remaining]
      apply List.filter_congr
      intro m _
      rw [topicLabelIncludes_eq_labelContainsTopic t m ht htrim]
    refine ⟨run, hrun, hmatch, ?_, ?_⟩
    · rw [hst, hrem]
    · rw [hout, hmatch, hrem]
  have hlabel : ∀ m ∈ (@scenarioStore asciiCaseFolding).memories,
      labelContainsTopic "cooking" m = @labelContainsTopic asciiCaseFolding "cooking" m :=
    fun m hm => labelContainsTopic_of_ascii "cooking" m (by decide) (by revert m hm; decide)
  refine ⟨hgen, ?_, ?_⟩
  · rw [scenarioMemories_of_ascii]
    decide
  intro remote
  obtain ⟨run, hrun, hmatch, hst, -⟩ := hgen 1 scenarioStore remote "cooking"
    (by rw [scenarioStore_of_ascii]; decide) (by rw [scenarioStore_of_ascii]; decide)
    (by decide) (by decide) (by rw [scenarioStore_of_ascii]; decide)
  refine ⟨run, hrun, ?_, ?_⟩
  · rw [hmatch, scenarioStore_of_ascii, List.filter_congr hlabel,
      chatMemory_of_ascii "mem_1" 1 "pasta recipe" (by decide)]
    decide
  · rw [hst]
    show List.filter (fun m => !labelContainsTopic "cooking" m) scenarioStore.memories = _
    rw [scenarioStore_of_ascii, List.filter_congr (fun m hm => by rw [hlabel m hm]),
      chatMemory_of_ascii "mem_3" 3 "flight to Tokyo" (by decide),
      chatMemory_of_ascii "mem_2" 2 "python debugging tips" (by decide)]
    decide

/-- C10, at the scenario store and the query cooking, with a remote that
would fail. -/
theorem C10_deleteByTopic_without_credentials_witness :
    ∃ run, deleteByTopic 1 scenarioStore (fun _ => .fetchThrew) (.string "cooking") = some run ∧
      run.matchingMemories = scenarioStore.memories.filter (labelContainsTopic "cooking") ∧
      run.storage =
        { scenarioStore with
          ai_memories :=
            some (scenarioStore.memories.filter (fun m => !labelContainsTopic "cooking" m)) } :=
  (C10_deleteByTopic_without_credentials.1 1 scenarioStore (fun _ => .fetchThrew) "cooking"
    (by decide) (by decide) (by decide) (by decide) (by decide)).imp
    (fun _ h => ⟨h.1, h.2.1, h.2.2.1⟩)

/-! ## Lemmas on the replies of the remote endpoint -/

theorem credentials_test_of_hasCredentials (st : Storage) (h : hasCredentials st = true) :
    ((match st.ai_settings with
        | none => ""
        | some s => s.neoClawUrl) = "" ||
      (match st.ai_settings with
        | none => ""
        | some s => s.neoClawToken) = "") = false := by
  unfold hasCredentials at h
  cases hs : st.ai_settings with
  | none => rw [hs] at h; cases h
  | some s =>
    rw [hs] at h
    simpa using h

theorem batchCheck_of_body [CaseFolding] (st : Storage) (text : Option String)
    (memories : List Memory)
    (topic : String) (h : hasCredentials st = true) :
    batchCheckMemoriesByTopic st (.body text) memories topic =
      resultsOfAnswer memories (toUpperCase (trim (text.getD ""))) := by
  have hc := credentials_test_of_hasCredentials st h
  unfold batchCheckMemoriesByTopic
  simp only [hc, Bool.false_eq_true, if_false]

theorem checkMemory_of_body [CaseFolding] (st : Storage) (text : Option String) (memory : Memory)
    (topic : String) (h : hasCredentials st = true) :
    checkMemoryBelongsToTopic st (.body text) memory topic =
      (decide (toUpperCase (trim (text.getD "")) = "YES") ||
        includes (toUpperCase (trim (text.getD ""))) "YES") := by
  have hc := credentials_test_of_hasCredentials st h
  unfold checkMemoryBelongsToTopic
  simp only [hc, Bool.false_eq_true, if_false]

theorem resultsOfAnswer_eq_map (memories : List Memory) (answer : String) :
    resultsOfAnswer memories answer =
      memories.enum.map (fun p =>
        { memory := p.2, matched := decide ((p.1 : Int) ∈ matchingIndices answer) }) := rfl

theorem resultsOfAnswer_of_no_indices (memories : List Memory) (answer : String)
    (h : matchingIndices answer = []) :
    resultsOfAnswer memories answer = memories.map (fun m => { memory := m, matched := false }) := by
  unfold resultsOfAnswer
  rw [h]
  have : (fun p : Nat × Memory =>
      ({ memory := p.2, matched := decide ((p.1 : Int) ∈ ([] : List Int)) } : MatchResult)) =
      (fun m => { memory := m, matched := false }) ∘ Prod.snd := by
    funext p
    simp
  rw [this, ← List.map_map, List.enum_map_snd]

/-! ## Classifier client and validation: claims C11, C13, C14, C18 and C19 -/

/-- C11. On every path of batchCheckMemoriesByTopic (any stored credentials,
any reply of the endpoint), the result has as many entries as the input has
records and its i-th entry carries the i-th input record. -/
theorem C11_batchCheck_preserves_records [CaseFolding] (st : Storage) (reply : RemoteReply)
    (memories : List Memory) (topic : String) :
    (batchCheckMemoriesByTopic st reply memories topic).length = memories.length ∧
    (batchCheckMemoriesByTopic st reply memories topic).map (fun r => r.memory) = memories ∧
    ∀ i : Nat,
      ((batchCheckMemoriesByTopic st reply memories topic)[i]?).map (fun r => r.memory) =
        memories[i]? := by
  have h := batchCheck_map_memory st reply memories topic
  refine ⟨?_, h, ?_⟩
  · have := congrArg List.length h
    simpa using this
  · intro i
    rw [← List.getElem?_map, h]

/-- C13 (the claim as stated fails). With credentials stored and a successful
response whose body has no text (or an empty text), the record labelled
cooking is not marked for the topic cooking, whereas the string-matching
fallback marks it. -/
theorem C13_missing_text_is_not_a_fallback :
    batchCheckMemoriesByTopic largeStore (.body none)
        [chatMemory "mem_1" 1 "pasta recipe"] "cooking" =
      [{ memory := chatMemory "mem_1" 1 "pasta recipe", matched := false }] ∧
    batchCheckMemoriesByTopic largeStore (.body (some ""))
        [chatMemory "mem_1" 1 "pasta recipe"] "cooking" =
      [{ memory := chatMemory "mem_1" 1 "pasta recipe", matched := false }] ∧
    stringMatchingFallback [chatMemory "mem_1" 1 "pasta recipe"] "cooking" =
      [{ memory := chatMemory "mem_1" 1 "pasta recipe", matched := true }] := by
  decide

/-- C13 (amended). With credentials stored, when the remote call returns a
success status and a JSON body that has no text at output[0].content[0].text,
or an empty or blank text there, batchCheckMemoriesByTopic does not fall back:
it returns the records in order with no record marked as matching. -/
theorem C13_missing_text_matches_nothing [CaseFolding] (st : Storage) (text : Option String)
    (memories : List Memory) (topic : String) (hcred : hasCredentials st = true)
    (hempty : trim (text.getD "") = "") :
    batchCheckMemoriesByTopic st (.body text) memories topic =
      memories.map (fun m => { memory := m, matched := false }) := by
  rw [batchCheck_of_body st text memories topic hcred, hempty, toUpperCase_empty]
  exact resultsOfAnswer_of_no_indices memories _ (by decide)

/-- C13 (amended), at the scenario's records under the default settings, for a
body without text. -/
theorem C13_missing_text_matches_nothing_witness :
    batchCheckMemoriesByTopic largeStore (.body none) scenarioMemories "cooking" =
      scenarioMemories.map (fun m => { memory := m, matched := false }) :=
  C13_missing_text_matches_nothing largeStore none scenarioMemories "cooking" (by decide)
    (by decide)

/-- C14 (the claim as stated fails). For the response text "I guess yesterday"
checkMemoryBelongsToTopic returns true, though the text, trimmed and
upper-cased, is not "YES": the letters YES occur inside it. -/
theorem C14_answer_containing_yes_is_accepted :
    checkMemoryBelongsToTopic largeStore (.body (some "I guess yesterday"))
        (chatMemory "mem_2" 2 "python debugging tips") "cooking" = true ∧
    toUpperCase (trim "I guess yesterday") ≠ "YES" := by
  decide

/-- C14 (amended). For a successful remote response with text T (credentials
stored), checkMemoryBelongsToTopic returns true exactly when T, trimmed and
upper-cased, contains "YES" as a substring, and false for every other text;
in particular it returns true when the trimmed, upper-cased text is "YES". The
upper-cased text is that of the runtime: the statement holds for every case
folding, so also where a character outside ASCII is upper-cased to letters of
"YES". -/
theorem C14_answer_accepted_iff_contains_yes [CaseFolding] (st : Storage) (text : String)
    (memory : Memory)
    (topic : String) (hcred : hasCredentials st = true) :
    (checkMemoryBelongsToTopic st (.body (some text)) memory topic = true ↔
      "YES".data <:+: (toUpperCase (trim text)).data) ∧
    (toUpperCase (trim text) = "YES" →
      checkMemoryBelongsToTopic st (.body (some text)) memory topic = true) := by
  have h := checkMemory_of_body st (some text) memory topic hcred
  simp only [Option.getD_some] at h
  have hiff : checkMemoryBelongsToTopic st (.body (some text)) memory topic = true ↔
      "YES".data <:+: (toUpperCase (trim text)).data := by
    rw [h, Bool.or_eq_true, decide_eq_true_iff, includes_eq_true_iff]
    constructor
    · rintro (heq | hinc)
      · rw [heq]
      · exact hinc
    · intro hinc
      exact Or.inr hinc
  refine ⟨hiff, ?_⟩
  intro heq
  rw [hiff, heq]

/-- C14 (amended), at the response text " yes " under the default settings. -/
theorem C14_answer_accepted_iff_contains_yes_witness :
    checkMemoryBelongsToTopic largeStore (.body (some " yes "))
      (chatMemory "mem_1" 1 "pasta recipe") "cooking" = true :=
  (C14_answer_accepted_iff_contains_yes largeStore " yes " (chatMemory "mem_1" 1 "pasta recipe")
    "cooking" (by decide)).2 (by decide)

/-- C18. For every topic argument that is the empty string or not a string,
deleteByTopic ends by throwing "Invalid topic provided" with an empty trace of
effects (no storage read, no storage write, no classifier call) and the
storage as it was, whatever the fuel, the store and the remote are; the
DELETE_BY_TOPIC handler answers with the failure envelope carrying that
message. -/
theorem C18_invalid_topic_rejected [CaseFolding] (fuel : Nat) (st : Storage)
    (remote : Nat → RemoteReply)
    (topic : JsValue) (hbad : topic = .string "" ∨ ∀ s, topic ≠ .string s) :
    deleteByTopic fuel st remote topic =
      some { storage := st, outcome := .threw "Invalid topic provided",
             allResults := [], trace := [] } ∧
    onMessageDeleteByTopic fuel st remote topic =
      some (st, .failure "Invalid topic provided") := by
  have h : deleteByTopic fuel st remote topic =
      some { storage := st, outcome := .threw "Invalid topic provided",
             allResults := [], trace := [] } := by
    rcases hbad with h | h
    · subst h
      simp [deleteByTopic]
    · cases topic with
      | string s => exact absurd rfl (h s)
      | undefined => rfl
      | null => rfl
      | boolean b => rfl
      | number n => rfl
      | object => rfl
  refine ⟨h, ?_⟩
  unfold onMessageDeleteByTopic
  rw [h]
  rfl

/-- C18, at the 45-record store: the empty string and the number 7 as
topics. -/
theorem C18_invalid_topic_rejected_witness :
    onMessageDeleteByTopic 3 largeStore sampleRemote (.string "") =
      some (largeStore, .failure "Invalid topic provided") ∧
    onMessageDeleteByTopic 3 largeStore sampleRemote (.number 7) =
      some (largeStore, .failure "Invalid topic provided") :=
  ⟨(C18_invalid_topic_rejected 3 largeStore sampleRemote (.string "") (Or.inl rfl)).2,
   (C18_invalid_topic_rejected 3 largeStore sampleRemote (.number 7)
     (Or.inr (fun s h => by cases h))).2⟩

/-- C19 (the code departs from the claim). On a store without records the
topic cooking is valid, and deleteByTopic returns through its early return
with deleted = 0 and remaining = 0 and without a deletedIds field; that is the
data of the DELETE_BY_TOPIC response. On the scenario's store the same query
returns all three fields. -/
theorem C19_empty_store_result_lacks_deletedIds :
    deleteByTopic 1 freshStore sampleRemote (.string "cooking") =
      some { storage := freshStore,
             outcome := .returned { deleted := 0, remaining := 0, deletedIds := none },
             allResults := [], trace := [.storageGet "ai_memories"] } ∧
    onMessageDeleteByTopic 1 freshStore sampleRemote (.string "cooking") =
      some (freshStore, .success { deleted := 0, remaining := 0, deletedIds := none }) ∧
    (onMessageDeleteByTopic 1 scenarioStore sampleRemote (.string "cooking")).map
        (fun p => p.2) =
      some (.success { deleted := 1, remaining := 2, deletedIds := some ["mem_1"] }) := by
  decide

/-! ## Lemmas on the keyword classifier -/

theorem toLower_of_not_upper (c : Char) (h : ¬ (c.toNat ≥ 65 ∧ c.toNat ≤ 90)) :
    c.toLower = c := by
  unfold Char.toLower
  simp only [h, if_false]

theorem toUpper_of_not_lower (c : Char) (h : ¬ (c.toNat ≥ 97 ∧ c.toNat ≤ 122)) :
    c.toUpper = c := by
  unfold Char.toUpper
  simp only [h, if_false]

/-- Folding to lower case undoes the canonicalisation of a character that is
none of the letters A to Z. -/
theorem toLower_toUpper_of_not_upper (c : Char) (h : ¬ (65 ≤ c.toNat ∧ c.toNat ≤ 90)) :
    c.toUpper.toLower = c := by
  by_cases h2 : c.toNat ≥ 97 ∧ c.toNat ≤ 122
  · obtain ⟨n, hn⟩ : ∃ n, c.toNat = n := ⟨_, rfl⟩
    have hc : c = Char.ofNat n := by rw [← hn, Char.ofNat_toNat]
    rw [hn] at h2
    subst hc
    obtain ⟨h3, h4⟩ := h2
    interval_cases n <;> decide
  · rw [toUpper_of_not_lower c h2, toLower_of_not_upper c (fun h1 => h ⟨h1.1, h1.2⟩)]

/-- On a lower-cased text, the test under the `i` flag for a keyword that is
itself in lower case is plain containment of the keyword: a lower-cased text
holds none of the letters A to Z, so its canonicalisation is undone by the
folding of the ASCII letters to lower case. -/
theorem includes_canonical [CaseFolding] (text k : String)
    (hk : (k.data.map Char.toUpper).map Char.toLower = k.data) :
    includes (canonicalize (toLowerCase text)) (canonicalize k) =
      includes (toLowerCase text) k := by
  rw [Bool.eq_iff_iff, includes_eq_true_iff, includes_eq_true_iff]
  simp only [canonicalize, asciiUpperCase]
  constructor
  · intro h
    have h2 := List.IsInfix.map Char.toLower h
    rw [hk] at h2
    have h3 : ((toLowerCase text).data.map Char.toUpper).map Char.toLower =
        (toLowerCase text).data := by
      rw [List.map_map]
      conv_rhs => rw [← List.map_id (toLowerCase text).data]
      apply List.map_congr_left
      intro c hc
      exact toLower_toUpper_of_not_upper c (CaseFolding.toLowerCase_no_upper text c hc)
    rw [h3] at h2
    exact h2
  · intro h
    exact List.IsInfix.map Char.toUpper h

theorem regexTestI_lowerCase [CaseFolding] (text : String) (keywords : List String)
    (hk : ∀ k ∈ keywords, (k.data.map Char.toUpper).map Char.toLower = k.data) :
    regexTestI keywords (toLowerCase text) =
      keywords.any (fun k => includes (toLowerCase text) k) := by
  unfold regexTestI
  induction keywords with
  | nil => rfl
  | cons k ks ih =>
    simp only [List.any_cons]
    rw [includes_canonical text k (hk k (List.mem_cons_self _ _)),
      ih (fun k' hk' => hk k' (List.mem_cons_of_mem _ hk'))]

theorem find_rule_cons (p : String × List String → Bool) (r : String × List String)
    (rs : List (String × List String)) :
    (match List.find? p (r :: rs) with
      | some rule => rule.1
      | none => "general") =
      if p r = true then r.1
      else (match List.find? p rs with
        | some rule => rule.1
        | none => "general") := by
  rw [List.find?_cons]
  cases p r <;> rfl

theorem extractTopicFromKeywords_eq_spec [CaseFolding] (text : String) :
    extractTopicFromKeywords text = firstMatchingCategory text := by
  unfold extractTopicFromKeywords firstMatchingCategory TOPIC_RULES
  simp only
  rw [regexTestI_lowerCase text _ (by decide), regexTestI_lowerCase text _ (by decide),
    regexTestI_lowerCase text _ (by decide), regexTestI_lowerCase text _ (by decide),
    regexTestI_lowerCase text _ (by decide), regexTestI_lowerCase text _ (by decide),
    regexTestI_lowerCase text _ (by decide), regexTestI_lowerCase text _ (by decide),
    regexTestI_lowerCase text _ (by decide)]
  rw [find_rule_cons, find_rule_cons, find_rule_cons, find_rule_cons, find_rule_cons,
    find_rule_cons, find_rule_cons, find_rule_cons, find_rule_cons, List.find?_nil]

theorem extractTopicFromKeywords_mem_labels [CaseFolding] (text : String) :
    extractTopicFromKeywords text ∈ TOPIC_LABELS := by
  unfold extractTopicFromKeywords TOPIC_LABELS
  simp only
  split_ifs <;> decide

/-- Cleaning leaves each of the ten labels as it is, and none of them is
empty. -/
theorem cleanTopic_label : ∀ l ∈ TOPIC_LABELS, cleanTopic l = l ∧ l ≠ "" := by
  decide

/-! ## Topic extraction: claims C15, C16 and C17 -/

theorem extractTopic_of_body [CaseFolding] (st : Storage) (text : Option String) (content : String)
    (h : hasCredentials st = true) :
    extractTopicFromContent st (.body text) content =
      if cleanTopic
          (if (match text with
                | none => ""
                | some t => toLowerCase (trim t)) = "" then extractTopicFromKeywords content
           else (match text with
                | none => ""
                | some t => toLowerCase (trim t))) = "" then extractTopicFromKeywords content
      else cleanTopic
          (if (match text with
                | none => ""
                | some t => toLowerCase (trim t)) = "" then extractTopicFromKeywords content
           else (match text with
                | none => ""
                | some t => toLowerCase (trim t))) := by
  have hc := credentials_test_of_hasCredentials st h
  unfold extractTopicFromContent
  simp only [hc, Bool.false_eq_true, if_false]

/-- C15. For every content string, extractTopicFromContent returns exactly
extractTopicFromKeywords(content) whenever a credential is missing, the
request throws, the status is not successful, the body is not JSON, the text
in the body is not a string, or the body has no text or an empty or blank
one. (The embedding's function is total: every throwing step of the source
sits inside its try block.) -/
theorem C15_extractTopic_falls_back [CaseFolding] (st : Storage) (reply : RemoteReply)
    (content : String)
    (hfail : hasCredentials st = false ∨ reply = .fetchThrew ∨ reply = .notOk ∨
      reply = .jsonThrew ∨ reply = .nonStringText ∨
      ∃ text : Option String, reply = .body text ∧ trim (text.getD "") = "") :
    extractTopicFromContent st reply content = extractTopicFromKeywords content := by
  by_cases hcred : hasCredentials st = true
  · rcases hfail with h | h | h | h | h | ⟨text, h, hblank⟩
    · rw [h] at hcred; cases hcred
    · subst h
      unfold extractTopicFromContent
      simp only [credentials_test_of_hasCredentials st hcred, Bool.false_eq_true, if_false]
    · subst h
      unfold extractTopicFromContent
      simp only [credentials_test_of_hasCredentials st hcred, Bool.false_eq_true, if_false]
    · subst h
      unfold extractTopicFromContent
      simp only [credentials_test_of_hasCredentials st hcred, Bool.false_eq_true, if_false]
    · subst h
      unfold extractTopicFromContent
      simp only [credentials_test_of_hasCredentials st hcred, Bool.false_eq_true, if_false]
    · subst h
      have hl := cleanTopic_label _ (extractTopicFromKeywords_mem_labels content)
      rw [extractTopic_of_body st text content hcred]
      cases text with
      | none =>
        simp only [if_true, hl.1, hl.2, if_false]
      | some t =>
        simp only [Option.getD_some] at hblank
        have hlow : toLowerCase (trim t) = "" := by
          rw [hblank]
          exact toLowerCase_empty
        simp only [hlow, if_true, hl.1, hl.2, if_false]
  · have hno : hasCredentials st = false := by simpa using hcred
    unfold extractTopicFromContent
    unfold hasCredentials at hno
    cases hs : st.ai_settings with
    | none => simp
    | some s =>
      rw [hs] at hno
      simp only [Bool.not_eq_false'] at hno
      simp only [hno, if_true]

/-- C15, under the default settings with a successful response whose text is
blank. -/
theorem C15_extractTopic_falls_back_witness :
    extractTopicFromContent largeStore (.body (some "  ")) "Best hotels in Paris" = "travel" := by
  rw [C15_extractTopic_falls_back largeStore (.body (some "  ")) "Best hotels in Paris"
    (Or.inr (Or.inr (Or.inr (Or.inr (Or.inr ⟨some "  ", rfl, by decide⟩)))))]
  decide

/-- C16 (the code departs from the claim). With credentials stored and the
response text made of an apostrophe, a blank and an apostrophe,
extractTopicFromContent returns the label " ": the quotes are removed, the
split at whitespace gives two empty pieces, their join is one blank, and a
blank string passes the `cleanedTopic || fallbackTopic` guard. The label is
whitespace only, not one to three words. -/
theorem C16_blank_label_returned :
    extractTopicFromContent largeStore (.body (some "' '")) "hello" = " " ∧
    splitWhitespace (stripLeadingArticle (removeQuotes (toLowerCase (trim "' '")))) = [[], []] ∧
    trim " " = "" ∧
    (splitWhitespace " ").filter (fun w => !w.isEmpty) = [] := by
  decide

/-- C17. The keyword classifier is a total function that returns, for every
text, the label of the first rule, in the order programming, cooking, travel,
health, finance, education, entertainment, news, shopping, one of whose
keywords occurs in the lower-cased text as a substring, and "general" when no
keyword occurs; the result is always one of the ten labels, the empty string
gives "general", and a text containing a programming keyword gives
"programming" whatever else it contains. The lower-cased text is that of the
runtime: the statement holds for every case folding, so also where a
character outside ASCII is lower-cased to a letter of a keyword. -/
theorem C17_keyword_classifier_first_match [CaseFolding] :
    (∀ text : String, extractTopicFromKeywords text = firstMatchingCategory text) ∧
    (∀ text : String, extractTopicFromKeywords text ∈ TOPIC_LABELS) ∧
    TOPIC_RULES.map (fun rule => rule.1) ++ ["general"] = TOPIC_LABELS ∧
    extractTopicFromKeywords "" = "general" ∧
    (∀ (text : String) (rule : String × List String) (before : List (String × List String))
        (after : List (String × List String)),
      TOPIC_RULES = before ++ rule :: after →
      (∃ k ∈ rule.2, k.data <:+: (toLowerCase text).data) →
      (∀ earlier ∈ before, ∀ k ∈ earlier.2, ¬ k.data <:+: (toLowerCase text).data) →
      extractTopicFromKeywords text = rule.1) ∧
    (∀ text : String,
      (∀ rule ∈ TOPIC_RULES, ∀ k ∈ rule.2, ¬ k.data <:+: (toLowerCase text).data) →
      extractTopicFromKeywords text = "general") ∧
    (∀ (text : String) (k : String),
      k ∈ ["python", "javascript", "java", "code", "programming", "function", "api", "debug",
        "git", "npm"] →
      k.data <:+: (toLowerCase text).data → extractTopicFromKeywords text = "programming") := by
  have hfirst : ∀ (text : String) (rule : String × List String)
      (before after : List (String × List String)),
      TOPIC_RULES = before ++ rule :: after →
      (∃ k ∈ rule.2, k.data <:+: (toLowerCase text).data) →
      (∀ earlier ∈ before, ∀ k ∈ earlier.2, ¬ k.data <:+: (toLowerCase text).data) →
      extractTopicFromKeywords text = rule.1 := by
    intro text rule before after hsplit hhit hmiss
    rw [extractTopicFromKeywords_eq_spec]
    unfold firstMatchingCategory
    rw [hsplit]
    have hfind : List.find?
        (fun rule : String × List String =>
          rule.2.any (fun k => includes (toLowerCase text) k))
        (before ++ rule :: after) = some rule := by
      rw [List.find?_append]
      have hb : List.find?
          (fun rule : String × List String =>
            rule.2.any (fun k => includes (toLowerCase text) k)) before = none := by
        rw [List.find?_eq_none]
        intro earlier he
        simp only [List.any_eq_true, includes_eq_true_iff, not_exists, not_and]
        exact hmiss earlier he
      rw [hb]
      simp only [Option.none_or, List.find?_cons]
      have hr : rule.2.any (fun k => includes (toLowerCase text) k) = true := by
        simp only [List.any_eq_true, includes_eq_true_iff]
        exact hhit
      rw [hr]
    rw [hfind]
  have hgeneral : extractTopicFromKeywords "" = "general" := by
    rw [extractTopicFromKeywords_of_ascii "" (by decide)]
    decide
  refine ⟨extractTopicFromKeywords_eq_spec, extractTopicFromKeywords_mem_labels, by decide,
    hgeneral, hfirst, ?_, ?_⟩
  · intro text hnone
    rw [extractTopicFromKeywords_eq_spec]
    unfold firstMatchingCategory
    have hfind : List.find?
        (fun rule : String × List String =>
          rule.2.any (fun k => includes (toLowerCase text) k)) TOPIC_RULES = none := by
      rw [List.find?_eq_none]
      intro rule hr
      simp only [List.any_eq_true, includes_eq_true_iff, not_exists, not_and]
      exact hnone rule hr
    rw [hfind]
  · intro text k hk hinf
    exact hfirst text _ [] _ rfl ⟨k, hk, hinf⟩ (by simp)

/-- C17, at a text with a cooking keyword and a programming keyword, and at a
text whose first rule with a keyword is travel. -/
theorem C17_keyword_classifier_first_match_witness :
    extractTopicFromKeywords "A recipe for Python beginners" = "programming" ∧
    extractTopicFromKeywords "Flight prices to Tokyo" = "travel" :=
  ⟨C17_keyword_classifier_first_match.2.2.2.2.2.2 "A recipe for Python beginners" "python"
      (by decide) (by decide),
   C17_keyword_classifier_first_match.2.2.2.2.1 "Flight prices to Tokyo"
      ("travel", ["travel", "hotel", "flight", "vacation", "trip", "visit", "tourism",
        "destination"])
      [("programming", ["python", "javascript", "java", "code", "programming", "function",
          "api", "debug", "git", "npm"]),
       ("cooking", ["recipe", "cook", "food", "restaurant", "meal", "ingredient", "cuisine"])]
      [("health", ["health", "doctor", "medical", "medicine", "fitness", "workout",
          "exercise"]),
       ("finance", ["money", "bank", "invest", "stock", "finance", "budget", "payment",
          "credit"]),
       ("education", ["learn", "study", "school", "university", "course", "education",
          "tutorial"]),
       ("entertainment", ["movie", "music", "game", "tv", "show", "entertainment", "play",
          "watch"]),
       ("news", ["news", "current", "event", "politics", "election", "government"]),
       ("shopping", ["buy", "shop", "purchase", "product", "price", "amazon", "store"])]
      rfl ⟨"flight", by decide, by decide⟩ (by decide)⟩

/-! ## Memory listing: claim C20 -/

theorem filter_if (b : Bool) (p : Memory → Bool) (l : List Memory) :
    (if b = true then l.filter p else l) = l.filter (fun m => !b || p m) := by
  cases b
  · simp
  · simp

theorem getMemories_filters [CaseFolding] (st : Storage) (filters : Filters) :
    getMemories st filters =
      (st.memories.filter (passesFilters filters)).insertionSort newestFirst := by
  unfold getMemories
  simp only [filter_if]
  simp only [List.filter_filter]
  congr 1
  apply List.filter_congr
  intro m _
  unfold passesFilters
  have htopic :
      (match m.topic with
        | none => false
        | some t => includes (toLowerCase t) (toLowerCase (filters.topic.getD ""))) =
      (match m.topic with
        | none => false
        | some t =>
          decide ((toLowerCase (filters.topic.getD "")).data <:+: (toLowerCase t).data)) := by
    cases m.topic with
    | none => rfl
    | some t =>
      simp only
      rw [Bool.eq_iff_iff, includes_eq_true_iff, decide_eq_true_iff]
  rw [htopic]
  simp only [ge_iff_le]
  generalize (!truthyString filters.source || decide (m.source = filters.source)) = x
  generalize (!truthyString filters.topic ||
    (match m.topic with
      | none => false
      | some t =>
        decide ((toLowerCase (filters.topic.getD "")).data <:+: (toLowerCase t).data))) = y
  generalize (!(truthyNumber filters.startTime && truthyNumber filters.endTime) ||
    (decide (filters.startTime.getD 0 ≤ m.timestamp) &&
      decide (m.timestamp ≤ filters.endTime.getD 0))) = z
  cases x <;> cases y <;> cases z <;> rfl

/-- C20. For every filter argument and every store, getMemories returns its
records with timestamps non-increasing along the list (newest first), and the
returned list is a permutation of the stored records that pass the applied
filters. -/
theorem C20_getMemories_sorted_newest_first [CaseFolding] (st : Storage) (filters : Filters) :
    List.Pairwise (fun a b : Memory => a.timestamp ≥ b.timestamp) (getMemories st filters) ∧
    List.Perm (getMemories st filters) (st.memories.filter (passesFilters filters)) := by
  haveI : IsTotal Memory newestFirst := ⟨fun a b => by
    unfold newestFirst
    exact le_total _ _⟩
  haveI : IsTrans Memory newestFirst := ⟨fun a b c hab hbc => by
    unfold newestFirst at *
    exact le_trans hbc hab⟩
  rw [getMemories_filters]
  exact ⟨List.sorted_insertionSort newestFirst _, List.perm_insertionSort newestFirst _⟩

/-! ## Lemmas on the digit runs of an answer -/

theorem isDigit_iff (c : Char) : c.isDigit = true ↔ 48 ≤ c.toNat ∧ c.toNat ≤ 57 := by
  unfold Char.isDigit Char.toNat
  simp only [Bool.and_eq_true, decide_eq_true_eq, ge_iff_le]
  constructor
  · rintro ⟨h1, h2⟩
    exact ⟨h1, h2⟩
  · rintro ⟨h1, h2⟩
    exact ⟨h1, h2⟩

theorem isJsWhitespace_not_digit (c : Char) (h : isJsWhitespace c = true) :
    c.isDigit = false := by
  cases hd : c.isDigit with
  | false => rfl
  | true =>
    exfalso
    obtain ⟨h1, h2⟩ := (isDigit_iff c).mp hd
    obtain ⟨n, hn⟩ : ∃ n, c.toNat = n := ⟨_, rfl⟩
    have hc : c = Char.ofNat n := by rw [← hn, Char.ofNat_toNat]
    rw [hn] at h1 h2
    subst hc
    revert h
    interval_cases n <;> decide

theorem digitRunsAux_nondigits (w : List Char) (hw : ∀ c ∈ w, c.isDigit = false) :
    ∀ cur : List Char, digitRunsAux w cur = if cur.isEmpty then [] else [cur] := by
  induction w with
  | nil => intro cur; rfl
  | cons c w ih =>
    intro cur
    have hc : c.isDigit = false := hw c (List.mem_cons_self _ _)
    have hw' : ∀ c ∈ w, c.isDigit = false := fun x hx => hw x (List.mem_cons_of_mem _ hx)
    simp only [digitRunsAux, hc, Bool.false_eq_true, if_false, ih hw' []]
    cases cur <;> rfl

theorem digitRunsAux_append_nondigits (w : List Char) (hw : ∀ c ∈ w, c.isDigit = false)
    (l : List Char) :
    ∀ cur : List Char, digitRunsAux (l ++ w) cur = digitRunsAux l cur := by
  induction l with
  | nil =>
    intro cur
    rw [List.nil_append, digitRunsAux_nondigits w hw cur]
    rfl
  | cons c l ih =>
    intro cur
    have ih' : ∀ cur : List Char, digitRunsAux (l.append w) cur = digitRunsAux l cur := ih
    simp only [List.cons_append, digitRunsAux, List.append_eq, ih, ih']

theorem digitRunsAux_dropWhile (p : Char → Bool) (hp : ∀ c, p c = true → c.isDigit = false)
    (l : List Char) : digitRunsAux (l.dropWhile p) [] = digitRunsAux l [] := by
  induction l with
  | nil => rfl
  | cons c l ih =>
    cases hc : p c with
    | false => rw [List.dropWhile_cons_of_neg (by simp [hc])]
    | true =>
      rw [List.dropWhile_cons_of_pos hc, ih]
      simp [digitRunsAux, hp c hc]

theorem rdropWhile_append_rtakeWhile (p : Char → Bool) (l : List Char) :
    l.rdropWhile p ++ l.rtakeWhile p = l := by
  unfold List.rdropWhile List.rtakeWhile
  rw [← List.reverse_append, List.takeWhile_append_dropWhile, List.reverse_reverse]

/-- Trimming does not change the digit runs. -/
theorem digitRuns_trim (s : String) : digitRuns (trim s) = digitRuns s := by
  unfold digitRuns trim
  show digitRunsAux ((s.data.dropWhile isJsWhitespace).rdropWhile isJsWhitespace) [] = _
  have h1 := digitRunsAux_append_nondigits
    ((s.data.dropWhile isJsWhitespace).rtakeWhile isJsWhitespace)
    (fun c hc => isJsWhitespace_not_digit c (List.mem_rtakeWhile_imp hc))
    ((s.data.dropWhile isJsWhitespace).rdropWhile isJsWhitespace) []
  rw [rdropWhile_append_rtakeWhile] at h1
  rw [← h1]
  exact digitRunsAux_dropWhile isJsWhitespace isJsWhitespace_not_digit s.data

/-- Upper-casing does not change the digit runs. -/
theorem digitRuns_toUpperCase [CaseFolding] (s : String) : digitRuns
    (toUpperCase s) = digitRuns s :=
  CaseFolding.digitRuns_toUpperCase s

theorem resultsOfAnswer_getElem? (memories : List Memory) (answer : String) (i : Nat) :
    (resultsOfAnswer memories answer)[i]? =
      (memories[i]?).map (fun m =>
        { memory := m, matched := decide ((i : Int) ∈ matchingIndices answer) }) := by
  unfold resultsOfAnswer
  rw [List.getElem?_map, List.getElem?_enum]
  cases memories[i]? <;> rfl

theorem mem_matchingIndices (answer : String) (i : Nat) :
    (i : Int) ∈ matchingIndices answer ↔
      answer ≠ "NONE" ∧ ∃ run ∈ digitRuns answer, parseInt run = i + 1 := by
  unfold matchingIndices
  by_cases h : answer = "NONE"
  · simp [h]
  · simp only [h, ne_eq, not_false_eq_true, if_true, List.mem_map, true_and]
    constructor
    · rintro ⟨run, hrun, heq⟩
      exact ⟨run, hrun, by omega⟩
    · rintro ⟨run, hrun, heq⟩
      exact ⟨run, hrun, by omega⟩

theorem nil_of_digits_of_last_nondigit (pre : List Char) (hall : ∀ c ∈ pre, c.isDigit = true)
    (hlast : ∀ c ∈ pre.getLast?, c.isDigit = false) : pre = [] := by
  by_contra hne
  have h1 := hlast (pre.getLast hne) (by rw [List.getLast?_eq_getLast _ hne]; exact rfl)
  have h2 := hall (pre.getLast hne) (List.getLast_mem hne)
  rw [h1] at h2
  cases h2

theorem nil_of_digits_of_head_nondigit (post : List Char)
    (hall : ∀ c ∈ post, c.isDigit = true)
    (hhead : ∀ c ∈ post.head?, c.isDigit = false) : post = [] := by
  cases post with
  | nil => rfl
  | cons x xs =>
    have h1 := hhead x (by simp)
    have h2 := hall x (List.mem_cons_self _ _)
    rw [h1] at h2
    cases h2

/-- In a text made of digits only, the one maximal digit run is the text. -/
theorem isMaximalDigitRun_digits (d run : List Char) (hd : ∀ c ∈ d, c.isDigit = true) :
    IsMaximalDigitRun d run ↔ d ≠ [] ∧ run = d := by
  constructor
  · rintro ⟨hne, -, pre, post, hs, hpre, hpost⟩
    have hpre' : pre = [] := by
      apply nil_of_digits_of_last_nondigit pre _ hpre
      intro c hc
      exact hd c (by rw [hs]; simp [hc])
    have hpost' : post = [] := by
      apply nil_of_digits_of_head_nondigit post _ hpost
      intro c hc
      exact hd c (by rw [hs]; simp [hc])
    subst hpre' hpost'
    simp only [List.nil_append, List.append_nil] at hs
    subst hs
    exact ⟨hne, rfl⟩
  · rintro ⟨hne, rfl⟩
    exact ⟨hne, hd, [], [], by simp, by simp, by simp⟩

/-- After a block of digits and a character that is not a digit, the maximal
digit runs are the block, when it is not empty, and those of the rest. -/
theorem isMaximalDigitRun_block (d : List Char) (c : Char) (cs run : List Char)
    (hd : ∀ x ∈ d, x.isDigit = true) (hc : c.isDigit = false) :
    IsMaximalDigitRun (d ++ c :: cs) run ↔ (d ≠ [] ∧ run = d) ∨ IsMaximalDigitRun cs run := by
  constructor
  · rintro ⟨hne, hrun, pre, post, hs, hpre, hpost⟩
    rw [List.append_assoc] at hs
    rcases List.append_eq_append_iff.mp hs with ⟨a, ha1, ha2⟩ | ⟨a, ha1, ha2⟩
    · -- the run lies after the block
      right
      cases a with
      | nil =>
        exfalso
        simp only [List.nil_append] at ha2
        cases run with
        | nil => exact hne rfl
        | cons r rs =>
          simp only [List.cons_append, List.cons.injEq] at ha2
          have := hrun r (List.mem_cons_self _ _)
          rw [← ha2.1, hc] at this
          cases this
      | cons x a =>
        simp only [List.cons_append, List.cons.injEq] at ha2
        obtain ⟨hx, hcs⟩ := ha2
        refine ⟨hne, hrun, a, post, by rw [hcs, List.append_assoc], ?_, hpost⟩
        intro y hy
        apply hpre y
        rw [ha1]
        cases a with
        | nil => simp at hy
        | cons z zs =>
          rw [List.getLast?_append, List.getLast?_cons_cons]
          simp only [Option.mem_def] at hy ⊢
          rw [hy]
          rfl
    · -- the run starts inside the block
      left
      have hpre' : pre = [] := by
        apply nil_of_digits_of_last_nondigit pre _ hpre
        intro y hy
        exact hd y (by rw [ha1]; simp [hy])
      subst hpre'
      simp only [List.nil_append] at ha1
      subst ha1
      rcases List.append_eq_append_iff.mp ha2 with ⟨b, hb1, hb2⟩ | ⟨b, hb1, hb2⟩
      · cases b with
        | nil =>
          simp only [List.append_nil] at hb1
          exact ⟨hb1 ▸ hne, hb1.symm⟩
        | cons x b =>
          exfalso
          have h1 := hpost x (by rw [hb2]; simp)
          have h2 := hd x (by rw [hb1]; simp)
          rw [h1] at h2
          cases h2
      · cases b with
        | nil =>
          simp only [List.append_nil] at hb1
          exact ⟨hb1 ▸ hne, hb1⟩
        | cons x b =>
          exfalso
          simp only [List.cons_append, List.cons.injEq] at hb2
          have := hrun x (by rw [hb1]; simp)
          rw [← hb2.1, hc] at this
          cases this
  · rintro (⟨hne, rfl⟩ | ⟨hne, hrun, pre, post, hs, hpre, hpost⟩)
    · exact ⟨hne, hd, [], c :: cs, by simp, by simp, by simp [hc]⟩
    · refine ⟨hne, hrun, d ++ c :: pre, post, by rw [hs]; simp, ?_, hpost⟩
      intro y hy
      cases pre with
      | nil =>
        rw [List.getLast?_concat] at hy
        simp only [Option.mem_def, Option.some.injEq] at hy
        rw [← hy]
        exact hc
      | cons z zs =>
        apply hpre y
        rw [List.getLast?_append, List.getLast?_cons_cons] at hy
        simp only [Option.mem_def] at hy ⊢
        cases hz : (z :: zs).getLast? with
        | none => simp at hz
        | some w =>
          rw [hz] at hy
          simpa using hy

/-- The runs that `match(/\d+/g)` returns are exactly the maximal digit runs
of the text read so far and the rest. -/
theorem mem_digitRunsAux (cs : List Char) :
    ∀ (cur run : List Char), (∀ c ∈ cur, c.isDigit = true) →
      (run ∈ digitRunsAux cs cur ↔ IsMaximalDigitRun (cur ++ cs) run) := by
  induction cs with
  | nil =>
    intro cur run hcur
    rw [List.append_nil, isMaximalDigitRun_digits cur run hcur]
    cases cur with
    | nil => simp [digitRunsAux]
    | cons x xs => simp [digitRunsAux]
  | cons c cs ih =>
    intro cur run hcur
    cases hc : c.isDigit with
    | true =>
      have hcur' : ∀ x ∈ cur ++ [c], x.isDigit = true := by
        intro x hx
        rcases List.mem_append.mp hx with h | h
        · exact hcur x h
        · rw [List.mem_singleton.mp h]; exact hc
      have := ih (cur ++ [c]) run hcur'
      simp only [digitRunsAux, hc, if_true]
      rw [this, List.append_assoc]
      rfl
    | false =>
      rw [isMaximalDigitRun_block cur c cs run hcur hc]
      have := ih [] run (by simp)
      simp only [List.nil_append] at this
      simp only [digitRunsAux, hc, Bool.false_eq_true, if_false]
      cases cur with
      | nil => simp [this]
      | cons x xs => simp [this]

theorem mem_digitRuns (s : String) (run : List Char) :
    run ∈ digitRuns s ↔ IsMaximalDigitRun s.data run := by
  have := mem_digitRunsAux s.data [] run (by simp)
  simpa [digitRuns] using this

theorem batchCheck_length [CaseFolding] (st : Storage) (reply : RemoteReply)
    (memories : List Memory)
    (topic : String) :
    (batchCheckMemoriesByTopic st reply memories topic).length = memories.length := by
  have := congrArg List.length (batchCheck_map_memory st reply memories topic)
  simpa using this

/-! ## Parsing of the batch answer: claim C12 -/

/-- C12. For a successful remote response with text T over a batch of records
(credentials stored): if T trimmed and upper-cased is "NONE", no record
matches; and in every case the record at 1-based position i + 1 matches
exactly when i + 1 is the value of one of the maximal runs of decimal digits
of T, so everything that is not a digit is ignored and a number that is 0 or
above the number of records selects no record. The records come back in
order. -/
theorem C12_batch_answer_parsing [CaseFolding] (st : Storage) (text : String)
    (memories : List Memory)
    (topic : String) (hcred : hasCredentials st = true) :
    (toUpperCase (trim text) = "NONE" →
      ∀ r ∈ batchCheckMemoriesByTopic st (.body (some text)) memories topic,
        r.matched = false) ∧
    (∀ i : Nat, i < memories.length →
      ∃ r, (batchCheckMemoriesByTopic st (.body (some text)) memories topic)[i]? = some r ∧
        memories[i]? = some r.memory ∧
        (r.matched = true ↔
          ∃ run, IsMaximalDigitRun text.data run ∧ parseInt run = i + 1)) ∧
    (∀ run, IsMaximalDigitRun text.data run →
      (parseInt run = 0 ∨ memories.length < parseInt run) →
      ∀ (i : Nat) (r : MatchResult),
        (batchCheckMemoriesByTopic st (.body (some text)) memories topic)[i]? = some r →
        parseInt run ≠ i + 1) := by
  have hres := batchCheck_of_body st (some text) memories topic hcred
  simp only [Option.getD_some] at hres
  have hruns : digitRuns (toUpperCase (trim text)) = digitRuns text := by
    rw [digitRuns_toUpperCase, digitRuns_trim]
  refine ⟨?_, ?_, ?_⟩
  · intro hnone r hr
    rw [hres, hnone, resultsOfAnswer_of_no_indices memories "NONE" (by decide)] at hr
    simp only [List.mem_map] at hr
    obtain ⟨m, -, rfl⟩ := hr
    rfl
  · intro i hi
    rw [hres, resultsOfAnswer_getElem?, List.getElem?_eq_getElem hi]
    refine ⟨_, rfl, rfl, ?_⟩
    simp only [decide_eq_true_iff]
    rw [mem_matchingIndices, hruns]
    constructor
    · rintro ⟨-, run, hrun, hval⟩
      exact ⟨run, (mem_digitRuns text run).mp hrun, hval⟩
    · rintro ⟨run, hrun, hval⟩
      have hmem := (mem_digitRuns text run).mpr hrun
      refine ⟨?_, run, hmem, hval⟩
      intro hnone
      have hnil : digitRuns "NONE" = [] := by decide
      rw [← hruns, hnone, hnil] at hmem
      cases hmem
  · intro run _ hout i r hr heq
    have hlt : i < memories.length := by
      have h1 := batchCheck_length st (.body (some text)) memories topic
      have h2 : i < (batchCheckMemoriesByTopic st (.body (some text)) memories topic).length := by
        by_contra hge
        rw [List.getElem?_eq_none (not_lt.mp hge)] at hr
        cases hr
      omega
    omega

/-- C12, under the default settings at the scenario's three records and the
answer " 2, and 07 x3": the records at positions 2 and 3 match, the number 7
selects nothing. -/
theorem C12_batch_answer_parsing_witness :
    ∃ r, (batchCheckMemoriesByTopic largeStore (.body (some " 2, and 07 x3")) scenarioMemories
        "cooking")[1]? = some r ∧
      scenarioMemories[1]? = some r.memory ∧
      (r.matched = true ↔
        ∃ run, IsMaximalDigitRun " 2, and 07 x3".data run ∧ parseInt run = 1 + 1) :=
  (C12_batch_answer_parsing largeStore " 2, and 07 x3" scenarioMemories "cooking"
    (by decide)).2.1 1 (by decide)

/-! ## Lemmas on the batches of deleteByTopic -/

theorem batchCount_le_iff (n fuel : Nat) : batchCount n ≤ fuel ↔ n ≤ batchSize * fuel := by
  unfold batchCount batchSize
  omega

/-- With enough fuel the batch loop, started at the k-th batch, classifies the
batches k, k + 1, ... in order, each with the reply to its own request, and
accumulates their results in that order. -/
theorem batchLoop_batches [CaseFolding] (st : Storage) (remote : Nat → RemoteReply) (topic : String)
    (all : List Memory) (fuel : Nat) :
    ∀ (k : Nat) (acc : List MatchResult × List (List Memory)),
      all.length ≤ batchSize * (k + fuel) →
      batchLoop st remote topic all fuel (batchSize * k) acc =
        some (acc.1 ++ ((List.range' k (batchCount all.length - k)).map (fun j =>
                batchCheckMemoriesByTopic st (remote j) (batchAt all j) topic)).flatten,
              acc.2 ++ (List.range' k (batchCount all.length - k)).map (batchAt all)) := by
  induction fuel with
  | zero =>
    intro k acc h
    have hle : ¬ batchSize * k < all.length := by simpa using h
    have hc : batchCount all.length - k = 0 := by
      unfold batchCount batchSize at *
      omega
    simp [batchLoop, hle, hc]
  | succ fuel ih =>
    intro k acc h
    by_cases hi : batchSize * k < all.length
    · have hstep : batchSize * k + batchSize = batchSize * (k + 1) := by
        unfold batchSize; omega
      have hdiv : batchSize * k / batchSize = k := by
        unfold batchSize; omega
      have hc : batchCount all.length - k = (batchCount all.length - (k + 1)) + 1 := by
        unfold batchCount batchSize at *
        omega
      have hfuel : all.length ≤ batchSize * (k + 1 + fuel) := by
        unfold batchSize at *
        omega
      simp only [batchLoop, hi, if_true]
      rw [hstep, hdiv, ih (k + 1) _ hfuel, hc, List.range'_succ]
      simp only [List.map_cons, List.flatten_cons, List.append_assoc, List.singleton_append,
        batchAt]
    · have hc : batchCount all.length - k = 0 := by
        unfold batchCount batchSize at *
        omega
      simp [batchLoop, hi, hc]

/-- The batches k, ..., k + m - 1, one after the other, are the records from
20 k on, up to 20 m of them. -/
theorem flatten_batchAt (all : List Memory) (m : Nat) :
    ∀ k : Nat, ((List.range' k m).map (batchAt all)).flatten =
      (all.drop (batchSize * k)).take (batchSize * m) := by
  induction m with
  | zero => intro k; simp
  | succ m ih =>
    intro k
    rw [List.range'_succ, List.map_cons, List.flatten_cons, ih (k + 1)]
    have h1 : batchSize * (m + 1) = batchSize + batchSize * m := by
      unfold batchSize; omega
    have h2 : batchSize * (k + 1) = batchSize * k + batchSize := by
      unfold batchSize; omega
    rw [h1, List.take_add, h2, ← List.drop_drop]
    rfl

theorem flatten_all_batches (all : List Memory) :
    ((List.range (batchCount all.length)).map (batchAt all)).flatten = all := by
  rw [List.range_eq_range', flatten_batchAt all _ 0]
  simp only [Nat.mul_zero, List.drop_zero]
  apply List.take_of_length_le
  unfold batchCount batchSize
  omega

/-- The run of deleteByTopic on a non-empty topic and a non-empty store, with
enough fuel, written out: batch by batch. -/
theorem deleteByTopic_batches [CaseFolding] (fuel : Nat) (st : Storage) (remote : Nat → RemoteReply)
    (t : String) (ht : t ≠ "") (hne : st.memories ≠ [])
    (hfuel : batchCount st.memories.length ≤ fuel) :
    ∃ run, deleteByTopic fuel st remote (.string t) = some run ∧
      run.allResults =
        ((List.range (batchCount st.memories.length)).map (fun j =>
          batchCheckMemoriesByTopic st (remote j) (batchAt st.memories j) t)).flatten ∧
      run.storage = { st with ai_memories := some run.remainingMemories } ∧
      run.outcome = .returned
        { deleted := run.matchingMemories.length,
          remaining := run.remainingMemories.length,
          deletedIds := some (run.matchingMemories.map (fun m => m.id)) } ∧
      run.trace = [.storageGet "ai_memories"] ++
        (List.range (batchCount st.memories.length)).map
          (fun j => Event.classify (batchAt st.memories j)) ++
        [.storageSet run.remainingMemories, .storageGet "ai_memories"] := by
  have hloop := batchLoop_batches st remote t st.memories fuel 0 ([], [])
    (by rw [Nat.zero_add]; exact (batchCount_le_iff _ _).mp hfuel)
  simp only [Nat.mul_zero, Nat.sub_zero, List.nil_append, ← List.range_eq_range'] at hloop
  have hlen : ¬ st.memories.length = 0 := by
    intro h0
    exact hne (List.length_eq_zero.mp h0)
  have hd : ∃ run, deleteByTopic fuel st remote (.string t) = some run ∧
      run.allResults =
        ((List.range (batchCount st.memories.length)).map (fun j =>
          batchCheckMemoriesByTopic st (remote j) (batchAt st.memories j) t)).flatten ∧
      run.storage = { st with ai_memories := some run.remainingMemories } ∧
      run.outcome = .returned
        { deleted := run.matchingMemories.length,
          remaining := run.remainingMemories.length,
          deletedIds := some (run.matchingMemories.map (fun m => m.id)) } ∧
      run.trace = [.storageGet "ai_memories"] ++
        ((List.range (batchCount st.memories.length)).map (batchAt st.memories)).map
          Event.classify ++
        [.storageSet run.remainingMemories, .storageGet "ai_memories"] := by
    simp only [deleteByTopic, ht, if_false, hlen, hloop]
    exact ⟨_, rfl, rfl, rfl, rfl, rfl⟩
  obtain ⟨run, h1, h2, h3, h4, h5⟩ := hd
  refine ⟨run, h1, h2, h3, h4, ?_⟩
  rw [h5, List.map_map]
  rfl

theorem batchCheck_of_not_body [CaseFolding] (st : Storage) (reply : RemoteReply)
    (memories : List Memory)
    (topic : String) (h : ∀ text, reply ≠ .body text) :
    batchCheckMemoriesByTopic st reply memories topic = stringMatchingFallback memories topic := by
  unfold batchCheckMemoriesByTopic
  simp only
  split_ifs
  · rfl
  · cases reply with
    | body text => exact absurd rfl (h text)
    | fetchThrew => rfl
    | notOk => rfl
    | jsonThrew => rfl
    | nonStringText => rfl

theorem batchAt_length_le (all : List Memory) (k : Nat) : (batchAt all k).length ≤ batchSize := by
  unfold batchAt
  rw [List.length_take]
  exact Nat.min_le_left _ _

theorem batchAt_ne_nil (all : List Memory) (k : Nat) (hk : k < batchCount all.length) :
    batchAt all k ≠ [] := by
  have hlt : batchSize * k < all.length := by
    unfold batchCount batchSize at *
    omega
  intro h
  have hlen := congrArg List.length h
  unfold batchAt at hlen
  rw [List.length_take, List.length_drop] at hlen
  unfold batchSize at *
  simp only [List.length_nil] at hlen
  omega

theorem stringMatchingFallback_flatten [CaseFolding] (all : List Memory) (topic : String) :
    ((List.range (batchCount all.length)).map (fun j =>
      stringMatchingFallback (batchAt all j) topic)).flatten = stringMatchingFallback all topic := by
  have h : (fun j => stringMatchingFallback (batchAt all j) topic) =
      (fun l => stringMatchingFallback l topic) ∘ batchAt all := rfl
  rw [h, ← List.map_map]
  unfold stringMatchingFallback
  simp only
  rw [← List.map_flatten, flatten_all_batches]

/-! ## The batches of deleteByTopic: claims C26, C27, C28 and C29 -/

/-- C26. For a store of n > 0 records and a non-empty topic, deleteByTopic
returns once the fuel covers ceil(n / 20) iterations, so the loop terminates
for every n; its calls of the batch classifier are, in order, the batches
0, 1, ..., ceil(n / 20) - 1, between the read of the store and the write;
there are exactly ceil(n / 20) of them; every batch holds at least one and at
most 20 records; and the batches concatenated in call order are the store in
its original order. -/
theorem C26_batches_cover_the_store [CaseFolding] (fuel : Nat) (st : Storage)
    (remote : Nat → RemoteReply)
    (t : String) (ht : t ≠ "") (hne : st.memories ≠ [])
    (hfuel : batchCount st.memories.length ≤ fuel) :
    ∃ run, deleteByTopic fuel st remote (.string t) = some run ∧
      run.trace = [.storageGet "ai_memories"] ++
        (List.range (batchCount st.memories.length)).map
          (fun k => Event.classify (batchAt st.memories k)) ++
        [.storageSet run.storage.memories, .storageGet "ai_memories"] ∧
      (run.trace.filter Event.isClassify).length = batchCount st.memories.length ∧
      (∀ k, k < batchCount st.memories.length →
        (batchAt st.memories k).length ≤ 20 ∧ batchAt st.memories k ≠ []) ∧
      ((List.range (batchCount st.memories.length)).map (batchAt st.memories)).flatten =
        st.memories ∧
      st.memories.length ≤ 20 * batchCount st.memories.length ∧
      20 * batchCount st.memories.length < st.memories.length + 20 := by
  obtain ⟨run, hrun, -, hst, -, htrace⟩ := deleteByTopic_batches fuel st remote t ht hne hfuel
  have hmem : run.storage.memories = run.remainingMemories := by
    rw [hst]; rfl
  refine ⟨run, hrun, ?_, ?_, ?_, flatten_all_batches st.memories, ?_, ?_⟩
  · rw [hmem]; exact htrace
  · rw [htrace]
    simp [List.filter_append, List.filter_map, Event.isClassify, Function.comp_def]
  · intro k hk
    exact ⟨batchAt_length_le st.memories k, batchAt_ne_nil st.memories k hk⟩
  · unfold batchCount batchSize
    omega
  · unfold batchCount batchSize
    omega

/-- C26, at the 45-record store: three calls of the classifier. -/
theorem C26_batches_cover_the_store_witness :
    ∃ run, deleteByTopic 3 largeStore sampleRemote (.string "cooking") = some run ∧
      (run.trace.filter Event.isClassify).length = batchCount largeStore.memories.length ∧
      batchCount largeStore.memories.length = 3 :=
  (C26_batches_cover_the_store 3 largeStore sampleRemote "cooking" (by decide) (by decide)
    (by decide)).imp (fun _ h => ⟨h.1, h.2.2.1, by decide⟩)

/-- C27. If during deleteByTopic the request of batch k fails (a failure
status, a thrown fetch, or a body that cannot be read), the operation still
returns; the accumulated results are, batch after batch, what the classifier
client gives for each batch with the reply to that batch's own request; and
the results of batch k are exactly the string-matching fallback of its
records. -/
theorem C27_failed_batch_falls_back [CaseFolding] (fuel : Nat) (st : Storage)
    (remote : Nat → RemoteReply)
    (t : String) (k : Nat) (ht : t ≠ "") (hne : st.memories ≠ [])
    (hfuel : batchCount st.memories.length ≤ fuel)
    (hfail : ∀ text, remote k ≠ .body text) :
    ∃ run, deleteByTopic fuel st remote (.string t) = some run ∧
      (∃ res, run.outcome = .returned res) ∧
      run.allResults =
        ((List.range (batchCount st.memories.length)).map (fun j =>
          if j = k then stringMatchingFallback (batchAt st.memories j) t
          else batchCheckMemoriesByTopic st (remote j) (batchAt st.memories j) t)).flatten ∧
      batchCheckMemoriesByTopic st (remote k) (batchAt st.memories k) t =
        stringMatchingFallback (batchAt st.memories k) t := by
  obtain ⟨run, hrun, hall, -, hout, -⟩ := deleteByTopic_batches fuel st remote t ht hne hfuel
  have hk := batchCheck_of_not_body st (remote k) (batchAt st.memories k) t hfail
  refine ⟨run, hrun, ⟨_, hout⟩, ?_, hk⟩
  rw [hall]
  congr 1
  apply List.map_congr_left
  intro j _
  by_cases hj : j = k
  · subst hj
    simp only [if_true]
    exact hk
  · simp only [hj, if_false]

/-- C27, at the 45-record store, whose second request comes back with a
failure status. -/
theorem C27_failed_batch_falls_back_witness :
    ∃ run, deleteByTopic 3 largeStore sampleRemote (.string "cooking") = some run ∧
      (∃ res, run.outcome = .returned res) ∧
      batchCheckMemoriesByTopic largeStore (sampleRemote 1) (batchAt largeStore.memories 1)
          "cooking" =
        stringMatchingFallback (batchAt largeStore.memories 1) "cooking" :=
  (C27_failed_batch_falls_back 3 largeStore sampleRemote "cooking" 1 (by decide) (by decide)
    (by decide) (fun _ h => by cases h)).imp (fun _ h => ⟨h.1, h.2.1, h.2.2.2⟩)

/-- C28. On a store without records, deleteByTopic with any non-empty topic
string returns with zero deleted and zero remaining, whatever the fuel and the
remote are; its only effect is the read of the store: no call of the
classifier, no write, and the storage is as it was. -/
theorem C28_empty_store_no_effects [CaseFolding] (fuel : Nat) (st : Storage)
    (remote : Nat → RemoteReply)
    (t : String) (ht : t ≠ "") (hempty : st.memories = []) :
    ∃ run, deleteByTopic fuel st remote (.string t) = some run ∧
      run.storage = st ∧
      (∃ res, run.outcome = .returned res ∧ res.deleted = 0 ∧ res.remaining = 0) ∧
      run.trace = [.storageGet "ai_memories"] ∧
      run.trace.filter Event.isClassify = [] ∧
      run.trace.filter Event.isStorageSet = [] := by
  refine ⟨{ storage := st,
            outcome := .returned { deleted := 0, remaining := 0, deletedIds := none },
            allResults := [], trace := [.storageGet "ai_memories"] }, ?_, rfl, ⟨_, rfl, rfl, rfl⟩,
    rfl, rfl, rfl⟩
  simp only [deleteByTopic, ht, if_false, hempty, List.length_nil, if_true]

/-- C28, at the freshly installed storage, without any fuel. -/
theorem C28_empty_store_no_effects_witness :
    ∃ run, deleteByTopic 0 freshStore sampleRemote (.string "cooking") = some run ∧
      run.storage = freshStore ∧
      (∃ res, run.outcome = .returned res ∧ res.deleted = 0 ∧ res.remaining = 0) ∧
      run.trace = [.storageGet "ai_memories"] ∧
      run.trace.filter Event.isClassify = [] ∧
      run.trace.filter Event.isStorageSet = [] :=
  C28_empty_store_no_effects 0 freshStore sampleRemote "cooking" (by decide) (by decide)

/-! ## Whitespace queries, time filter, settings and ids: claims C29, C30, C25 and C21 -/

theorem trim_of_whitespace (t : String) (hws : ∀ c ∈ t.data, isJsWhitespace c = true) :
    trim t = "" := by
  unfold trim
  have h : t.data.dropWhile isJsWhitespace = [] := List.dropWhile_eq_nil_iff.mpr hws
  rw [h]
  rfl

theorem includes_empty_right (s : String) : includes s "" = true := by
  rw [includes_eq_true_iff]
  exact List.nil_infix

theorem topicLabelIncludes_empty [CaseFolding] (m : Memory) :
    topicLabelIncludes m "" = truthyString m.topic := by
  unfold topicLabelIncludes truthyString
  cases m.topic with
  | none => rfl
  | some l =>
    by_cases hl : l = ""
    · simp [hl]
    · simp [hl, includes_empty_right]

theorem deleteByTopic_empty_store [CaseFolding] (fuel : Nat) (st : Storage)
    (remote : Nat → RemoteReply)
    (t : String) (ht : t ≠ "") (hempty : st.memories = []) :
    deleteByTopic fuel st remote (.string t) =
      some { storage := st,
             outcome := .returned { deleted := 0, remaining := 0, deletedIds := none },
             allResults := [], trace := [.storageGet "ai_memories"] } := by
  simp only [deleteByTopic, ht, if_false, hempty, List.length_nil, if_true]

/-- C29. A query that is not empty and made of whitespace only passes the
validation of deleteByTopic; when the remote classifier is unavailable (a
credential is missing, or no request gets a readable answer) it matches every
record that has a non-empty stored topic label: the matched records are
exactly those, and the records that remain stored are exactly those without a
label (absent or empty), in their order. -/
theorem C29_whitespace_query_matches_labelled [CaseFolding] (fuel : Nat) (st : Storage)
    (remote : Nat → RemoteReply) (t : String) (ht : t ≠ "")
    (hws : ∀ c ∈ t.data, isJsWhitespace c = true)
    (hdown : hasCredentials st = false ∨ ∀ k text, remote k ≠ .body text)
    (hfuel : batchCount st.memories.length ≤ fuel) :
    ∃ run, deleteByTopic fuel st remote (.string t) = some run ∧
      (∃ res, run.outcome = .returned res) ∧
      run.matchingMemories = st.memories.filter (fun m => truthyString m.topic) ∧
      run.storage.memories = st.memories.filter (fun m => !truthyString m.topic) := by
  by_cases hne : st.memories = []
  · refine ⟨_, deleteByTopic_empty_store fuel st remote t ht hne, ⟨_, rfl⟩, ?_, ?_⟩
    · rw [hne]; rfl
    · simp only [hne, List.filter_nil]
  · obtain ⟨run, hrun, hall, hst, hout, -⟩ :=
      deleteByTopic_batches fuel st remote t ht hne hfuel
    have hfb : run.allResults = stringMatchingFallback st.memories t := by
      rw [hall, ← stringMatchingFallback_flatten]
      congr 1
      apply List.map_congr_left
      intro j _
      rcases hdown with h | h
      · exact batchCheck_of_no_credentials st _ _ _ h
      · exact batchCheck_of_not_body st _ _ _ (h j)
    have hlow : trim (toLowerCase t) = "" := by
      rw [trim_toLowerCase, trim_of_whitespace t hws]
      exact toLowerCase_empty
    refine ⟨run, hrun, ⟨_, hout⟩, ?_, ?_⟩
    · unfold DeleteRun.matchingMemories
      rw [hfb, fallback_matching, hlow]
      apply List.filter_congr
      intro m _
      exact topicLabelIncludes_empty m
    · rw [hst]
      show run.remainingMemories = _
      unfold DeleteRun.remainingMemories
      rw [hfb, fallback_remaining, hlow]
      apply List.filter_congr
      intro m _
      rw [topicLabelIncludes_empty m]

/-- C29, at the store of two labelled records and one without a label, for
the query of three blanks. -/
theorem C29_whitespace_query_matches_labelled_witness :
    ∃ run, deleteByTopic 1 mixedStore sampleRemote (.string "   ") = some run ∧
      (∃ res, run.outcome = .returned res) ∧
      run.matchingMemories = mixedStore.memories.filter (fun m => truthyString m.topic) ∧
      run.storage.memories = mixedStore.memories.filter (fun m => !truthyString m.topic) :=
  C29_whitespace_query_matches_labelled 1 mixedStore sampleRemote "   " (by decide) (by decide)
    (Or.inl (by decide)) (by decide)

theorem passesFilters_without_time [CaseFolding] (filters : Filters) (m : Memory) :
    passesFilters filters m =
      (passesFilters { filters with startTime := none, endTime := none } m &&
        (!(truthyNumber filters.startTime && truthyNumber filters.endTime) ||
          (decide (filters.startTime.getD 0 ≤ m.timestamp) &&
            decide (m.timestamp ≤ filters.endTime.getD 0)))) := by
  unfold passesFilters
  simp [truthyNumber]

/-- C30. getMemories applies its time filter only when both startTime and
endTime are present and non-zero: it then returns exactly the records that
pass the other filters and have startTime <= timestamp <= endTime, both
bounds inclusive. When a bound is missing or zero (startTime 0 in particular)
it returns what it returns without the two bounds, records outside the
requested range included; e.g. with startTime 0 and endTime 250 the records
stamped 300, 200 and 100 all come back. -/
theorem C30_time_filter_needs_both_bounds [CaseFolding] (st : Storage) (filters : Filters) :
    (∀ s e : Int, filters.startTime = some s → filters.endTime = some e → s ≠ 0 → e ≠ 0 →
      List.Perm (getMemories st filters)
        ((getMemories st { filters with startTime := none, endTime := none }).filter
          (fun m => decide (s ≤ m.timestamp) && decide (m.timestamp ≤ e)))) ∧
    ((filters.startTime = none ∨ filters.startTime = some 0 ∨ filters.endTime = none ∨
        filters.endTime = some 0) →
      getMemories st filters =
        getMemories st { filters with startTime := none, endTime := none }) ∧
    (getMemories (storeWithTimestamps [100, 300, 200])
        { noFilters with startTime := some 0, endTime := some 250 }).map
      (fun m => m.timestamp) = [300, 200, 100] := by
  refine ⟨?_, ?_, rfl⟩
  · intro s e hs he hs0 he0
    rw [getMemories_filters, getMemories_filters]
    refine (List.perm_insertionSort _ _).trans ?_
    refine List.Perm.trans ?_ ((List.perm_insertionSort _ _).filter _).symm
    rw [List.filter_filter]
    apply List.Perm.of_eq
    apply List.filter_congr
    intro m _
    rw [passesFilters_without_time filters m, hs, he]
    simp [truthyNumber, hs0, he0, Bool.and_comm]
  · intro hmissing
    rw [getMemories_filters, getMemories_filters]
    congr 1
    apply List.filter_congr
    intro m _
    rw [passesFilters_without_time filters m]
    have hoff : (truthyNumber filters.startTime && truthyNumber filters.endTime) = false := by
      rcases hmissing with h | h | h | h <;> simp [h, truthyNumber]
    simp [hoff]

/-- C30, at timestamps 300, 200 and 100: with the bounds 150 and 250 only the
record stamped 200 is returned, and with the upper bound alone all three
are. -/
theorem C30_time_filter_needs_both_bounds_witness :
    List.Perm
      (getMemories (storeWithTimestamps [100, 300, 200])
        { noFilters with startTime := some 150, endTime := some 250 })
      ((getMemories (storeWithTimestamps [100, 300, 200])
          { noFilters with startTime := none, endTime := none }).filter
        (fun m => decide ((150 : Int) ≤ m.timestamp) && decide (m.timestamp ≤ 250))) ∧
    getMemories (storeWithTimestamps [100, 300, 200])
        { noFilters with startTime := none, endTime := some 250 } =
      getMemories (storeWithTimestamps [100, 300, 200])
        { noFilters with startTime := none, endTime := none } :=
  ⟨(C30_time_filter_needs_both_bounds (storeWithTimestamps [100, 300, 200])
      { noFilters with startTime := some 150, endTime := some 250 }).1 150 250 rfl rfl
      (by decide) (by decide),
   (C30_time_filter_needs_both_bounds (storeWithTimestamps [100, 300, 200])
      { noFilters with startTime := none, endTime := some 250 }).2.1 (Or.inl rfl)⟩

/-- C25. updateSettings merges shallowly: it stores the current settings
(the stored ones, or the defaults when none are stored) with every field that
is present in the update replaced by the update's value and every absent field
kept, and it changes no other key; getSettings returns the stored settings, or
the defaults when none are stored. -/
theorem C25_updateSettings_merges_shallowly (st : Storage) (u : SettingsUpdate) :
    (updateSettings st u).ai_memories = st.ai_memories ∧
    (updateSettings st u).ai_blocked_sites = st.ai_blocked_sites ∧
    (updateSettings st u).ai_settings = some (getSettings (updateSettings st u)) ∧
    (∀ v, u.enableHistory = some v → (getSettings (updateSettings st u)).enableHistory = v) ∧
    (u.enableHistory = none →
      (getSettings (updateSettings st u)).enableHistory = (getSettings st).enableHistory) ∧
    (∀ v, u.enableBookmarks = some v →
      (getSettings (updateSettings st u)).enableBookmarks = v) ∧
    (u.enableBookmarks = none →
      (getSettings (updateSettings st u)).enableBookmarks = (getSettings st).enableBookmarks) ∧
    (∀ v, u.enableTabs = some v → (getSettings (updateSettings st u)).enableTabs = v) ∧
    (u.enableTabs = none →
      (getSettings (updateSettings st u)).enableTabs = (getSettings st).enableTabs) ∧
    (∀ v, u.autoDeleteDays = some v → (getSettings (updateSettings st u)).autoDeleteDays = v) ∧
    (u.autoDeleteDays = none →
      (getSettings (updateSettings st u)).autoDeleteDays = (getSettings st).autoDeleteDays) ∧
    (∀ v, u.neverRememberBanking = some v →
      (getSettings (updateSettings st u)).neverRememberBanking = v) ∧
    (u.neverRememberBanking = none →
      (getSettings (updateSettings st u)).neverRememberBanking =
        (getSettings st).neverRememberBanking) ∧
    (∀ v, u.excludeWorkTabs = some v →
      (getSettings (updateSettings st u)).excludeWorkTabs = v) ∧
    (u.excludeWorkTabs = none →
      (getSettings (updateSettings st u)).excludeWorkTabs = (getSettings st).excludeWorkTabs) ∧
    (∀ v, u.maxMemories = some v → (getSettings (updateSettings st u)).maxMemories = v) ∧
    (u.maxMemories = none →
      (getSettings (updateSettings st u)).maxMemories = (getSettings st).maxMemories) ∧
    (∀ v, u.neoClawUrl = some v → (getSettings (updateSettings st u)).neoClawUrl = v) ∧
    (u.neoClawUrl = none →
      (getSettings (updateSettings st u)).neoClawUrl = (getSettings st).neoClawUrl) ∧
    (∀ v, u.neoClawToken = some v → (getSettings (updateSettings st u)).neoClawToken = v) ∧
    (u.neoClawToken = none →
      (getSettings (updateSettings st u)).neoClawToken = (getSettings st).neoClawToken) ∧
    (∀ v, u.enablePaymentProtection = some v →
      (getSettings (updateSettings st u)).enablePaymentProtection = v) ∧
    (u.enablePaymentProtection = none →
      (getSettings (updateSettings st u)).enablePaymentProtection =
        (getSettings st).enablePaymentProtection) ∧
    (∀ s, st.ai_settings = some s → getSettings st = s) ∧
    (st.ai_settings = none → getSettings st = DEFAULT_SETTINGS) := by
  have hget : getSettings (updateSettings st u) = mergeSettings (getSettings st) u := rfl
  refine ⟨rfl, rfl, rfl, ?_, ?_, ?_, ?_, ?_, ?_, ?_, ?_, ?_, ?_, ?_, ?_, ?_, ?_, ?_, ?_, ?_, ?_,
    ?_, ?_, ?_, ?_⟩
  all_goals first
    | (intro v h; rw [hget]; simp only [mergeSettings, h, Option.getD_some])
    | (intro h; rw [hget]; simp only [mergeSettings, h, Option.getD_none])
    | (intro s h; simp only [getSettings, h, Option.getD_some])
    | (intro h; simp only [getSettings, h, Option.getD_none])

/-- C25, at a storage without stored settings and an update that carries the
two credentials: the credentials are the update's, the other fields are the
defaults. -/
theorem C25_updateSettings_merges_shallowly_witness :
    (getSettings (updateSettings scenarioStore credentialsUpdate)).neoClawUrl =
      "https://neoclaw.example" ∧
    (getSettings (updateSettings scenarioStore credentialsUpdate)).maxMemories =
      (getSettings scenarioStore).maxMemories :=
  ⟨(C25_updateSettings_merges_shallowly scenarioStore credentialsUpdate).2.2.2.2.2.2.2.2.2.2.2.2.2.2.2.2.2.1
      "https://neoclaw.example" rfl,
   (C25_updateSettings_merges_shallowly scenarioStore credentialsUpdate).2.2.2.2.2.2.2.2.2.2.2.2.2.2.2.2.1
      rfl⟩

/-- C21 (the code departs from the claim). The store holds the record mem_1
and the argument of addMemory carries the fields id = mem_1 and timestamp = 5:
the spread of the argument comes after the generated fields in the object
literal, so the stored record has the caller's id and timestamp, not the
generated id and the insertion time, and the store now holds two records with
the id mem_1. Without those fields the id and the timestamp are the generated
ones. -/
theorem C21_caller_fields_override_generated :
    (addMemory singleStore 1700000000000 "k3x9q2a1b" forgedInput).memories.map
        (fun m => (m.id, m.timestamp)) = [("mem_1", 5), ("mem_1", 1)] ∧
    ¬ ((addMemory singleStore 1700000000000 "k3x9q2a1b" forgedInput).memories.map
        (fun m => m.id)).Nodup ∧
    (addMemory singleStore 1700000000000 "k3x9q2a1b"
        { forgedInput with id := none, timestamp := none }).memories.map
        (fun m => (m.id, m.timestamp)) =
      [("mem_1700000000000_k3x9q2a1b", 1700000000000), ("mem_1", 1)] := by
  decide

/-! ## Browsing context: claims C23 and C24 -/

theorem banking_pattern_not_in_empty : ∀ p ∈ BANKING_PATTERNS, ¬ p.data <:+: ("" : String).data := by
  decide

theorem keepInContext_passes [CaseFolding] (settings : Settings) (blockedSites : List String)
    (url : Option String) (h : keepInContext settings blockedSites url = true) :
    urlPassesPrivacyFilter settings blockedSites url := by
  intro u hu
  subst hu
  unfold keepInContext at h
  by_cases hbank : (settings.neverRememberBanking && isBankingSite (some u)) = true
  · simp [hbank] at h
  · by_cases hblock : blockedByList blockedSites (some u) = true
    · simp [hblock] at h
    · constructor
      · intro p hp hinf
        apply hblock
        unfold blockedByList
        rw [List.any_eq_true]
        exact ⟨p, hp, (includes_eq_true_iff _ _).mpr hinf⟩
      · intro hflag p hp hinf
        apply hbank
        rw [hflag, Bool.true_and]
        by_cases hempty : u = ""
        · subst hempty
          rw [toLowerCase_empty] at hinf
          exact absurd hinf (banking_pattern_not_in_empty p hp)
        · unfold isBankingSite
          simp only [hempty, if_false, List.any_eq_true]
          exact ⟨p, hp, (includes_eq_true_iff _ _).mpr hinf⟩

/-- C23. Every history item and every tab that gatherContext returns is one
of those the browser supplied and passes the Privacy Filter under the stored
settings and blocklist: its URL contains no blocklist pattern under
case-insensitive containment and, with neverRememberBanking enabled, no
banking pattern. The history items and the tabs written into the context
message, which handleChat sends as the system message of its request, are
among those returned, so they pass as well. -/
theorem C23_context_items_pass_privacy_filter [CaseFolding] (st : Storage)
    (historyItems : List HistoryItem)
    (bookmarkRoot : BookmarkNode) (openTabs : List Tab) (userMessage : String) :
    (∀ item ∈ (gatherContext st historyItems bookmarkRoot openTabs).history,
      item ∈ historyItems ∧
        urlPassesPrivacyFilter (getSettings st) st.blockedSites item.url) ∧
    (∀ tab ∈ (gatherContext st historyItems bookmarkRoot openTabs).tabs,
      tab ∈ openTabs ∧ urlPassesPrivacyFilter (getSettings st) st.blockedSites tab.url) ∧
    (∀ item ∈ messageHistoryItems (gatherContext st historyItems bookmarkRoot openTabs),
      item ∈ historyItems ∧
        urlPassesPrivacyFilter (getSettings st) st.blockedSites item.url) ∧
    (∀ tab ∈ messageTabs (gatherContext st historyItems bookmarkRoot openTabs),
      tab ∈ openTabs ∧ urlPassesPrivacyFilter (getSettings st) st.blockedSites tab.url) ∧
    chatRequestInput (gatherContext st historyItems bookmarkRoot openTabs) userMessage =
      [("system", buildContextMessage (gatherContext st historyItems bookmarkRoot openTabs)),
       ("user", userMessage)] := by
  have hh : ∀ item ∈ (gatherContext st historyItems bookmarkRoot openTabs).history,
      item ∈ historyItems ∧
        urlPassesPrivacyFilter (getSettings st) st.blockedSites item.url := by
    intro item hitem
    unfold gatherContext at hitem
    simp only at hitem
    split_ifs at hitem
    · rw [List.mem_filter] at hitem
      exact ⟨hitem.1, keepInContext_passes _ _ _ hitem.2⟩
    · cases hitem
  have ht : ∀ tab ∈ (gatherContext st historyItems bookmarkRoot openTabs).tabs,
      tab ∈ openTabs ∧ urlPassesPrivacyFilter (getSettings st) st.blockedSites tab.url := by
    intro tab htab
    unfold gatherContext at htab
    simp only at htab
    split_ifs at htab
    · rw [List.mem_filter] at htab
      exact ⟨htab.1, keepInContext_passes _ _ _ htab.2⟩
    · cases htab
  refine ⟨hh, ht, ?_, ?_, rfl⟩
  · intro item hitem
    unfold messageHistoryItems at hitem
    exact hh item (List.mem_of_mem_take (List.mem_filter.mp hitem).1)
  · intro tab htab
    unfold messageTabs at htab
    exact ht tab (List.mem_of_mem_take (List.mem_filter.mp htab).1)

/-- C23, at the sample history and tabs under the default settings and the
blocklist example.com: the news item is the one history item returned. -/
theorem C23_context_items_pass_privacy_filter_witness :
    (gatherContext blockedExampleStore sampleHistory sampleBookmarks sampleTabs).history.map
        (fun item => item.url) = [some "https://news.example.org"] ∧
    urlPassesPrivacyFilter (getSettings blockedExampleStore) blockedExampleStore.blockedSites
      (some "https://news.example.org") :=
  ⟨by decide,
   ((C23_context_items_pass_privacy_filter blockedExampleStore sampleHistory sampleBookmarks
      sampleTabs "hello").1
      { title := some "News", url := some "https://news.example.org", visitCount := 2,
        lastVisitTime := 100 } (by decide)).2⟩

/-- C24 (the code departs from the claim). Under the default settings, where
neverRememberBanking is enabled, the bookmark of www.mybank.com is returned in
the bookmarks of the context, though its URL contains the banking pattern
bank: extractBookmarks tests the blocklist only. The same URL is removed from
the history and from the tabs of the same context. -/
theorem C24_banking_bookmark_returned :
    (getSettings blockedExampleStore).neverRememberBanking = true ∧
    isBankingSite (some "https://www.mybank.com/login") = true ∧
    (gatherContext blockedExampleStore sampleHistory sampleBookmarks sampleTabs).bookmarks =
      [{ title := some "My Bank", url := "https://www.mybank.com/login" },
       { title := some "News", url := "https://news.example.org" }] ∧
    (gatherContext blockedExampleStore sampleHistory sampleBookmarks sampleTabs).history.map
        (fun item => item.url) = [some "https://news.example.org"] ∧
    (gatherContext blockedExampleStore sampleHistory sampleBookmarks sampleTabs).tabs.map
        (fun tab => tab.url) = [some "https://docs.example.org"] := by
  decide

/-! ## Payment patterns: claim C22 -/

theorem getPaymentPatterns_of_fresh [CaseFolding] (defaultPatterns : List String) (st : Storage)
    (cache : PaymentCache) (now : Int) (reply : RemoteReply)
    (h : cacheIsFresh cache now = true) :
    getPaymentPatterns defaultPatterns st cache now reply =
      { cache := cache, patterns := cache.payment_patterns.getD [], fetched := false } := by
  unfold getPaymentPatterns
  simp only [h, if_true]

theorem getPaymentPatterns_of_no_credentials [CaseFolding] (defaultPatterns : List String)
    (st : Storage)
    (cache : PaymentCache) (now : Int) (reply : RemoteReply)
    (hstale : cacheIsFresh cache now = false) (hcred : hasCredentials st = false) :
    getPaymentPatterns defaultPatterns st cache now reply =
      { cache := cache, patterns := defaultPatterns, fetched := false } := by
  unfold getPaymentPatterns
  simp only [hstale, Bool.false_eq_true, if_false]
  unfold hasCredentials at hcred
  cases hs : st.ai_settings with
  | none => simp
  | some s =>
    rw [hs] at hcred
    simp only [Bool.not_eq_false'] at hcred
    simp only [hcred, if_true]

theorem getPaymentPatterns_of_text [CaseFolding] (defaultPatterns : List String) (st : Storage)
    (cache : PaymentCache) (now : Int) (text : String)
    (hstale : cacheIsFresh cache now = false) (hcred : hasCredentials st = true)
    (htext : trim text ≠ "") :
    getPaymentPatterns defaultPatterns st cache now (.body (some text)) =
      { cache := { payment_patterns :=
                     some (dedupe (parsePaymentPatterns (trim text) ++ defaultPatterns)),
                   payment_patterns_timestamp := some now },
        patterns := dedupe (parsePaymentPatterns (trim text) ++ defaultPatterns),
        fetched := true } := by
  unfold getPaymentPatterns
  simp only [hstale, Bool.false_eq_true, if_false,
    credentials_test_of_hasCredentials st hcred, htext]

theorem getPaymentPatterns_fetched_cache [CaseFolding] (defaultPatterns : List String)
    (st : Storage)
    (cache : PaymentCache) (now : Int) (reply : RemoteReply)
    (hfetched : (getPaymentPatterns defaultPatterns st cache now reply).fetched = true) :
    (getPaymentPatterns defaultPatterns st cache now reply).cache = cache ∧
        (getPaymentPatterns defaultPatterns st cache now reply).patterns = defaultPatterns ∨
      ∃ text, reply = .body (some text) ∧ trim text ≠ "" ∧
        (getPaymentPatterns defaultPatterns st cache now reply).cache =
          { payment_patterns :=
              some (getPaymentPatterns defaultPatterns st cache now reply).patterns,
            payment_patterns_timestamp := some now } := by
  by_cases hfresh : cacheIsFresh cache now = true
  · rw [getPaymentPatterns_of_fresh _ _ _ _ _ hfresh] at hfetched
    cases hfetched
  · have hstale : cacheIsFresh cache now = false := by simpa using hfresh
    by_cases hcred : hasCredentials st = true
    · have hc := credentials_test_of_hasCredentials st hcred
      cases reply with
      | fetchThrew =>
        left
        unfold getPaymentPatterns
        simp only [hstale, hc, Bool.false_eq_true, if_false, and_self]
      | notOk =>
        left
        unfold getPaymentPatterns
        simp only [hstale, hc, Bool.false_eq_true, if_false, and_self]
      | jsonThrew =>
        left
        unfold getPaymentPatterns
        simp only [hstale, hc, Bool.false_eq_true, if_false, and_self]
      | nonStringText =>
        left
        unfold getPaymentPatterns
        simp only [hstale, hc, Bool.false_eq_true, if_false, and_self]
      | body text =>
        cases text with
        | none =>
          left
          unfold getPaymentPatterns
          simp only [hstale, hc, Bool.false_eq_true, if_false, if_true, and_self]
        | some t =>
          by_cases ht : trim t = ""
          · left
            unfold getPaymentPatterns
            simp only [hstale, hc, Bool.false_eq_true, if_false, ht, if_true, and_self]
          · right
            refine ⟨t, rfl, ht, ?_⟩
            rw [getPaymentPatterns_of_text _ _ _ _ _ hstale hcred ht]
    · rw [getPaymentPatterns_of_no_credentials _ _ _ _ _ hstale (by simpa using hcred)]
        at hfetched
      cases hfetched

/-- C22 (the claim as stated fails). With credentials stored and nothing
cached, the first call's request comes back with a failure status: the call
returns the default list and caches nothing. The second call, a second later,
sends a request again, so two requests in total, and returns a different
list. The same happens when the first response has an empty text. -/
theorem C22_failed_fetch_is_not_cached :
    (getPaymentPatterns DEFAULT_PAYMENT_PATTERNS largeStore emptyCache 1700000000000
        .notOk).fetched = true ∧
    (getPaymentPatterns DEFAULT_PAYMENT_PATTERNS largeStore emptyCache 1700000000000
        .notOk).cache = emptyCache ∧
    (getPaymentPatterns DEFAULT_PAYMENT_PATTERNS largeStore emptyCache 1700000000000
        .notOk).patterns = DEFAULT_PAYMENT_PATTERNS ∧
    (getPaymentPatterns DEFAULT_PAYMENT_PATTERNS largeStore
        (getPaymentPatterns DEFAULT_PAYMENT_PATTERNS largeStore emptyCache 1700000000000
          .notOk).cache
        1700000001000 (.body (some "upi, paypal"))).fetched = true ∧
    (getPaymentPatterns DEFAULT_PAYMENT_PATTERNS largeStore
        (getPaymentPatterns DEFAULT_PAYMENT_PATTERNS largeStore emptyCache 1700000000000
          .notOk).cache
        1700000001000 (.body (some "upi, paypal"))).patterns ≠ DEFAULT_PAYMENT_PATTERNS ∧
    (getPaymentPatterns DEFAULT_PAYMENT_PATTERNS largeStore
        (getPaymentPatterns DEFAULT_PAYMENT_PATTERNS largeStore emptyCache 1700000000000
          (.body (some ""))).cache
        1700000001000 (.body (some "upi, paypal"))).fetched = true := by
  decide

/-- C22 (amended). Two calls of getPaymentPatterns with the same stored
credentials, the second less than 24 hours after the first (the clock of the
first call not being 0), whatever the cache holds, the default list is and the
remote answers: when the first call sends a request and gets a non-empty
text, the second call returns the identical list without a request; when the
cache is fresh at both calls, or it is fresh at neither and a credential is
missing, both calls return the identical list and no request is sent; and two
requests in total are sent only when the first one failed or returned an
empty text, in which case the first call cached nothing and returned the
default list. -/
theorem C22_second_call_uses_the_cache [CaseFolding] (defaultPatterns : List String) (st : Storage)
    (cache : PaymentCache) (now1 now2 : Int) (reply1 reply2 : RemoteReply)
    (hclock : now1 ≠ 0) (hwindow : now2 - now1 < 24 * 60 * 60 * 1000) :
    ((getPaymentPatterns defaultPatterns st cache now1 reply1).fetched = true →
      (∃ text, reply1 = .body (some text) ∧ trim text ≠ "") →
      (getPaymentPatterns defaultPatterns st
          (getPaymentPatterns defaultPatterns st cache now1 reply1).cache now2 reply2).patterns =
        (getPaymentPatterns defaultPatterns st cache now1 reply1).patterns ∧
      (getPaymentPatterns defaultPatterns st
          (getPaymentPatterns defaultPatterns st cache now1 reply1).cache now2 reply2).fetched =
        false) ∧
    (cacheIsFresh cache now1 = true → cacheIsFresh cache now2 = true →
      (getPaymentPatterns defaultPatterns st
          (getPaymentPatterns defaultPatterns st cache now1 reply1).cache now2 reply2).patterns =
        (getPaymentPatterns defaultPatterns st cache now1 reply1).patterns ∧
      (getPaymentPatterns defaultPatterns st cache now1 reply1).fetched = false ∧
      (getPaymentPatterns defaultPatterns st
          (getPaymentPatterns defaultPatterns st cache now1 reply1).cache now2 reply2).fetched =
        false) ∧
    (cacheIsFresh cache now1 = false → cacheIsFresh cache now2 = false →
      hasCredentials st = false →
      (getPaymentPatterns defaultPatterns st
          (getPaymentPatterns defaultPatterns st cache now1 reply1).cache now2 reply2).patterns =
        (getPaymentPatterns defaultPatterns st cache now1 reply1).patterns ∧
      (getPaymentPatterns defaultPatterns st cache now1 reply1).fetched = false ∧
      (getPaymentPatterns defaultPatterns st
          (getPaymentPatterns defaultPatterns st cache now1 reply1).cache now2 reply2).fetched =
        false) ∧
    ((getPaymentPatterns defaultPatterns st cache now1 reply1).fetched = true →
      (getPaymentPatterns defaultPatterns st
          (getPaymentPatterns defaultPatterns st cache now1 reply1).cache now2 reply2).fetched =
        true →
      (getPaymentPatterns defaultPatterns st cache now1 reply1).cache = cache ∧
      (getPaymentPatterns defaultPatterns st cache now1 reply1).patterns = defaultPatterns ∧
      ∀ text, reply1 = .body (some text) → trim text = "") := by
  have hfreshAfter : ∀ l : List String,
      cacheIsFresh { payment_patterns := some l, payment_patterns_timestamp := some now1 }
        now2 = true := by
    intro l
    simp only [cacheIsFresh, hclock, decide_False, Bool.not_false, Bool.true_and,
      decide_eq_true_eq]
    omega
  refine ⟨?_, ?_, ?_, ?_⟩
  · intro hfetched hsuccess
    rcases getPaymentPatterns_fetched_cache defaultPatterns st cache now1 reply1 hfetched with
      ⟨-, -⟩ | ⟨text, -, -, hcache⟩
    · obtain ⟨text, hr, ht⟩ := hsuccess
      subst hr
      have hstale : cacheIsFresh cache now1 = false := by
        by_contra hf
        rw [getPaymentPatterns_of_fresh _ _ _ _ _ (by simpa using hf)] at hfetched
        cases hfetched
      have hcred : hasCredentials st = true := by
        by_contra hc
        rw [getPaymentPatterns_of_no_credentials _ _ _ _ _ hstale (by simpa using hc)]
          at hfetched
        cases hfetched
      rw [getPaymentPatterns_of_text _ _ _ _ _ hstale hcred ht]
      rw [getPaymentPatterns_of_fresh _ _ _ _ _ (hfreshAfter _)]
      exact ⟨rfl, rfl⟩
    · rw [hcache, getPaymentPatterns_of_fresh _ _ _ _ _ (hfreshAfter _)]
      exact ⟨rfl, rfl⟩
  · intro h1 h2
    rw [getPaymentPatterns_of_fresh _ _ _ _ reply1 h1,
      getPaymentPatterns_of_fresh _ _ _ _ reply2 h2]
    exact ⟨rfl, rfl, rfl⟩
  · intro h1 h2 hcred
    rw [getPaymentPatterns_of_no_credentials _ _ _ _ reply1 h1 hcred,
      getPaymentPatterns_of_no_credentials _ _ _ _ reply2 h2 hcred]
    exact ⟨rfl, rfl, rfl⟩
  · intro hf1 hf2
    rcases getPaymentPatterns_fetched_cache defaultPatterns st cache now1 reply1 hf1 with
      ⟨hc, hp⟩ | ⟨text, -, -, hcache⟩
    · refine ⟨hc, hp, ?_⟩
      intro text hr
      by_contra ht
      subst hr
      have hstale : cacheIsFresh cache now1 = false := by
        by_contra hf
        rw [getPaymentPatterns_of_fresh _ _ _ _ _ (by simpa using hf)] at hf1
        cases hf1
      have hcred : hasCredentials st = true := by
        by_contra hcr
        rw [getPaymentPatterns_of_no_credentials _ _ _ _ _ hstale (by simpa using hcr)] at hf1
        cases hf1
      rw [getPaymentPatterns_of_text _ _ _ _ _ hstale hcred ht,
        getPaymentPatterns_of_fresh _ _ _ _ _ (hfreshAfter _)] at hf2
      cases hf2
    · rw [hcache, getPaymentPatterns_of_fresh _ _ _ _ _ (hfreshAfter _)] at hf2
      cases hf2

/-- C22 (amended), under the default settings with nothing cached: the first
call gets the text "upi, paypal", and the second call, a second later, returns
the same list without a request. -/
theorem C22_second_call_uses_the_cache_witness :
    (getPaymentPatterns DEFAULT_PAYMENT_PATTERNS largeStore
        (getPaymentPatterns DEFAULT_PAYMENT_PATTERNS largeStore emptyCache 1700000000000
          (.body (some "upi, paypal"))).cache 1700000001000 .notOk).patterns =
      (getPaymentPatterns DEFAULT_PAYMENT_PATTERNS largeStore emptyCache 1700000000000
        (.body (some "upi, paypal"))).patterns ∧
    (getPaymentPatterns DEFAULT_PAYMENT_PATTERNS largeStore
        (getPaymentPatterns DEFAULT_PAYMENT_PATTERNS largeStore emptyCache 1700000000000
          (.body (some "upi, paypal"))).cache 1700000001000 .notOk).fetched = false :=
  (C22_second_call_uses_the_cache DEFAULT_PAYMENT_PATTERNS largeStore emptyCache 1700000000000
    1700000001000 (.body (some "upi, paypal")) .notOk (by decide) (by decide)).1 (by decide)
    ⟨"upi, paypal", rfl, by decide⟩

/-! ## Texts outside ASCII

The functions on texts outside ASCII, for a case folding that makes of them
what the runtime makes of them: the Kelvin sign (U+212A) is lower-cased to k,
the sharp s (U+00DF) is upper-cased to SS, and the capital E with acute
(U+00C9) is lower-cased to the small one (U+00E9). Each statement is followed
by its instance at `sampleCaseFolding`. -/

theorem isBankingSite_kelvin_sign [CaseFolding]
    (h : toLowerCase "ban\u212A.example" = "bank.example") :
    isBankingSite (some "ban\u212A.example") = true := by
  have hne : ¬ ("ban\u212A.example" = "") := by decide
  simp only [isBankingSite, hne, if_false, h]
  decide

theorem isBankingSite_kelvin_sign_sample :
    @isBankingSite sampleCaseFolding (some "ban\u212A.example") = true :=
  @isBankingSite_kelvin_sign sampleCaseFolding (by decide)

theorem extractTopicFromKeywords_kelvin_sign [CaseFolding]
    (h : toLowerCase "my ban\u212A account" = "my bank account") :
    extractTopicFromKeywords "my ban\u212A account" = "finance" := by
  unfold extractTopicFromKeywords
  simp only [h]
  decide

theorem extractTopicFromKeywords_kelvin_sign_sample :
    @extractTopicFromKeywords sampleCaseFolding "my ban\u212A account" = "finance" :=
  @extractTopicFromKeywords_kelvin_sign sampleCaseFolding (by decide)

theorem checkMemoryBelongsToTopic_sharp_s [CaseFolding] (st : Storage) (memory : Memory)
    (topic : String) (hcred : hasCredentials st = true)
    (h : toUpperCase (trim "ye\u00DF") = "YESS") :
    checkMemoryBelongsToTopic st (.body (some "ye\u00DF")) memory topic = true := by
  rw [checkMemory_of_body st (some "ye\u00DF") memory topic hcred]
  simp only [Option.getD_some, h]
  decide

theorem checkMemoryBelongsToTopic_sharp_s_sample :
    @checkMemoryBelongsToTopic sampleCaseFolding freshStore (.body (some "ye\u00DF"))
      (unlabelledMemory "mem_1" 1 "hello") "cooking" = true :=
  @checkMemoryBelongsToTopic_sharp_s sampleCaseFolding freshStore
    (unlabelledMemory "mem_1" 1 "hello") "cooking" (by decide) (by decide)

theorem stringMatchingFallback_accented [CaseFolding] (m : Memory)
    (hm : m.topic = some "caf\u00E9")
    (hquery : toLowerCase "CAF\u00C9" = "caf\u00E9")
    (hlabel : toLowerCase "caf\u00E9" = "caf\u00E9") :
    stringMatchingFallback [m] "CAF\u00C9" = [{ memory := m, matched := true }] := by
  unfold stringMatchingFallback topicLabelIncludes
  simp only [List.map_cons, List.map_nil, hm, hquery, hlabel]
  rw [if_neg (by decide)]
  have hinc : includes "caf\u00E9" (trim "caf\u00E9") = true := by decide
  rw [hinc]

theorem stringMatchingFallback_accented_sample :
    @stringMatchingFallback sampleCaseFolding
        [{ unlabelledMemory "mem_1" 1 "hello" with topic := some "caf\u00E9" }] "CAF\u00C9" =
      [{ memory := { unlabelledMemory "mem_1" 1 "hello" with topic := some "caf\u00E9" },
         matched := true }] :=
  @stringMatchingFallback_accented sampleCaseFolding
    { unlabelledMemory "mem_1" 1 "hello" with topic := some "caf\u00E9" } rfl (by decide)
    (by decide)

theorem extractTopicFromContent_accented [CaseFolding] (st : Storage) (content : String)
    (hcred : hasCredentials st = true)
    (h : toLowerCase (trim "CAF\u00C9") = "caf\u00E9") :
    extractTopicFromContent st (.body (some "CAF\u00C9")) content = "caf\u00E9" := by
  have hne : ¬ ("caf\u00E9" = "") := by decide
  have hclean : cleanTopic "caf\u00E9" = "caf\u00E9" := by decide
  rw [extractTopic_of_body st (some "CAF\u00C9") content hcred]
  simp only [h, hne, if_false, hclean]

theorem extractTopicFromContent_accented_sample :
    @extractTopicFromContent sampleCaseFolding freshStore (.body (some "CAF\u00C9")) "hello" =
      "caf\u00E9" :=
  @extractTopicFromContent_accented sampleCaseFolding freshStore "hello" (by decide) (by decide)

end NeoClaw
